import Mathlib

/-!
# gespin: the nucleon collection

A shallow embedding of `src/NucleonCollection.cpp`.

Conventions of the embedding.

* `double` values are rationals and every arithmetic operation is exact.
* A `Nucleon*` is a natural number, the address of the object; `heap` maps an
  address to the object stored there.  Objects are never freed by the
  operations embedded here.
* A bin of the grid (`nucleon_array&`, `nucleon.cube`) is named by its index
  triple; two bins are the same object exactly when their triples agree.
* A `std::vector` that is only used as a stack (`push_back`, `back`,
  `pop_back`) is a list whose head is the back of the vector.  Every other
  vector is a list in vector order (`push_back` appends).
* An iterator into `ordered` is the index it points at; `ordered.end()` is
  the length.
* `NucleonCollection.h` and `Nucleon.h` are not among the sources.  The
  member `units` is taken to be `unsigned int`, as the constructor parameter
  that initialises it and the loop counters compared with `2*units`; the
  members `cube_i`, `cube_j`, `cube_k` are `int` (they are bound to `int&`
  in `FindCube`); `pairwise_units` is taken to be `int`.  Mixed
  `int`/`unsigned int` expressions follow the usual arithmetic conversions:
  the `int` operand is converted to `unsigned int` (reduced modulo `2^32`).
-/

namespace Gespin

/-! ## Machine integers -/

/-- Conversion of an integer value to `unsigned int`. -/
def toUnsigned (n : Int) : Int := n % 4294967296

/-- Conversion of an `unsigned int` value to `int` (two's complement). -/
def toSigned (n : Int) : Int :=
  if n % 4294967296 < 2147483648 then n % 4294967296 else n % 4294967296 - 4294967296

/-! ## Nucleons -/

/-- Identity tag of a nucleon. -/
inductive NucleonIdentity where
  | unspecified
  | proton
  | neutron
  | antiproton
  | antineutron
  deriving DecidableEq, Repr

/-- Modelled from the spec: the attributes of `Nucleon` (declared in
`Nucleon.h`) that the likelihood callbacks can read through its accessors:
position, radius and identity. -/
structure Particle where
  x : ℚ
  y : ℚ
  z : ℚ
  radius : ℚ
  identity : NucleonIdentity
  deriving DecidableEq

/-- A nucleon object: the public attributes and the bookkeeping members
written by the collection. `cube` is the bin pointer, `parent` tells whether
the back-pointer to the collection has been set. -/
structure Nucleon extends Particle where
  cube_i : Int
  cube_j : Int
  cube_k : Int
  cube : Int × Int × Int
  parent : Bool
  single_likelihood : ℚ
  pairwise_likelihoods : List (Nat × ℚ)
  deriving DecidableEq

/-- The likelihood callbacks `SingleLikelihood` and `PairwiseLikelihood`. -/
structure Likelihoods where
  f1 : Particle → ℚ
  f2 : Particle → Particle → ℚ

/-- The callbacks of the base class: both return 1. -/
def defaultLikelihoods : Likelihoods := ⟨fun _ => 1, fun _ _ => 1⟩

/-! ## The collection -/

/-- The members of `NucleonCollection`, together with the memory holding the
nucleon objects. -/
structure NucleonCollection where
  likelihood : ℚ
  nucleon_count : Nat
  units : Nat
  length : ℚ
  cube_length : ℚ
  pairwise_units : Int
  cubes : Int → Int → Int → List Nat
  ordered : List Nat
  recording : Bool
  cached_likelihoods : List ℚ
  cached_nucleons : List Nat
  cached_x : List ℚ
  cached_y : List ℚ
  cached_z : List ℚ
  heap : Nat → Nucleon

/-- The constructor `NucleonCollection(pairwise_max, units, length)`; `heap`
is the memory at construction time. -/
def construct (pairwise_max : ℚ) (units : Nat) (length : ℚ) (heap : Nat → Nucleon) :
    NucleonCollection where
  likelihood := 1
  nucleon_count := 0
  units := units
  length := length
  cube_length := length / units
  pairwise_units := ⌈pairwise_max / (length / units)⌉
  cubes := fun _ _ _ => []
  ordered := []
  recording := false
  cached_likelihoods := []
  cached_nucleons := []
  cached_x := []
  cached_y := []
  cached_z := []
  heap := heap

/-- Replace the object stored at address `p`. -/
def NucleonCollection.store (s : NucleonCollection) (p : Nat) (n : Nucleon) : NucleonCollection :=
  { s with heap := Function.update s.heap p n }

/-- Replace the contents of the bin with index triple `b`. -/
def NucleonCollection.setCube (s : NucleonCollection) (b : Int × Int × Int) (l : List Nat) :
    NucleonCollection :=
  { s with cubes := fun i j k => if (i, j, k) = b then l else s.cubes i j k }

/-- Contents of the bin with index triple `b`. -/
def NucleonCollection.cubeAt (s : NucleonCollection) (b : Int × Int × Int) : List Nat :=
  s.cubes b.1 b.2.1 b.2.2

/-! ## FindCube and BringInsideRegion -/

/-- One axis of `FindCube`: `i = floor(x/cube_length); i = (i + units)%(2*units)`.
The sum and the remainder are computed in `unsigned int`. -/
def findIndex (units : Nat) (cube_length x : ℚ) : Int :=
  toSigned (toUnsigned (toUnsigned ⌊x / cube_length⌋ + units) % toUnsigned (2 * units))

/-- The index triple written by `FindCube(x, y, z, i, j, k)`; the bin returned
is the one with this triple. -/
def FindCube (s : NucleonCollection) (x y z : ℚ) : Int × Int × Int :=
  (findIndex s.units s.cube_length x, findIndex s.units s.cube_length y,
    findIndex s.units s.cube_length z)

/-- The loop `while(c > length) c -= 2.0*length`, run for at most `fuel` turns. -/
def foldDown (length : ℚ) : Nat → ℚ → ℚ
  | 0, c => c
  | fuel + 1, c => if c > length then foldDown length fuel (c - 2 * length) else c

/-- The loop `while(c < -length) c += 2.0*length`, run for at most `fuel` turns. -/
def foldUp (length : ℚ) : Nat → ℚ → ℚ
  | 0, c => c
  | fuel + 1, c => if c < -length then foldUp length fuel (c + 2 * length) else c

/-- Number of turns after which the first loop of an axis has stopped, for a
positive `length`. -/
def downTurns (length c : ℚ) : Nat := ⌈(c - length) / (2 * length)⌉.toNat

/-- Number of turns after which the second loop of an axis has stopped, for a
positive `length`. -/
def upTurns (length c : ℚ) : Nat := ⌈(-length - c) / (2 * length)⌉.toNat

/-- The two loops of `BringInsideRegion` on one axis. -/
def bringAxis (length c : ℚ) : ℚ :=
  let c1 := foldDown length (downTurns length c) c
  foldUp length (upTurns length c1) c1

/-- `BringInsideRegion(nucleon)`. -/
def BringInsideRegion (s : NucleonCollection) (p : Nat) : NucleonCollection :=
  let n := s.heap p
  s.store p { n with x := bringAxis s.length n.x, y := bringAxis s.length n.y,
                     z := bringAxis s.length n.z }

/-! ## Insertion -/

/-- The factor `(i/(2*units)) - (i<0?1:0)` of the offset, an `unsigned int`. -/
def imageIndex (units : Nat) (i : Int) : Int :=
  toUnsigned (toUnsigned i / toUnsigned (2 * units) - (if i < 0 then 1 else 0))

/-- The offset `-2.0*length*double((i/(2*units)) - (i<0?1:0))`. -/
def offset (s : NucleonCollection) (i : Int) : ℚ :=
  -2 * s.length * (imageIndex s.units i : ℚ)

/-- The subscript `i%(units*2)`, an `unsigned int`. -/
def wrapIndex (units : Nat) (i : Int) : Int :=
  toUnsigned i % toUnsigned (units * 2)

/-- The values taken by the loop counter of
`for(int i = c - pairwise_units; i <= c + pairwise_units; i++)`. -/
def window (c pairwise_units : Int) : List Int :=
  (List.range (2 * pairwise_units + 1).toNat).map (fun t => c - pairwise_units + (t : Int))

/-- Body of the loop over a neighbour bin, for the element `m` of the bin and
the inserted nucleon `p` (lines 87-92). -/
def pairStep (L : Likelihoods) (p : Nat) (s : NucleonCollection) (m : Nat) : NucleonCollection :=
  if m ≠ p then
    let pair_likelihood := L.f2 (s.heap m).toParticle (s.heap p).toParticle
    let s1 := { s with likelihood := s.likelihood * pair_likelihood }
    let n := s1.heap p
    let s2 := s1.store p
      { n with pairwise_likelihoods := n.pairwise_likelihoods ++ [(m, pair_likelihood)] }
    let o := s2.heap m
    s2.store m { o with pairwise_likelihoods := o.pairwise_likelihoods ++ [(p, pair_likelihood)] }
  else s

/-- Body of the loop over `k` (lines 83-94). -/
def stepK (L : Likelihoods) (p : Nat) (i j : Int) (s : NucleonCollection) (k : Int) :
    NucleonCollection :=
  let z_offset := offset s k
  let n := s.heap p
  let s1 := s.store p { n with z := n.z + z_offset }
  let cube := s1.cubes (wrapIndex s.units i) (wrapIndex s.units j) (wrapIndex s.units k)
  let s2 := cube.foldl (pairStep L p) s1
  let n2 := s2.heap p
  s2.store p { n2 with z := n2.z - z_offset }

/-- Body of the loop over `j` (lines 80-96). -/
def stepJ (L : Likelihoods) (p : Nat) (i : Int) (s : NucleonCollection) (j : Int) :
    NucleonCollection :=
  let y_offset := offset s j
  let n := s.heap p
  let s1 := s.store p { n with y := n.y + y_offset }
  let s2 := (window (s1.heap p).cube_k s1.pairwise_units).foldl (stepK L p i j) s1
  let n2 := s2.heap p
  s2.store p { n2 with y := n2.y - y_offset }

/-- Body of the loop over `i` (lines 77-98). -/
def stepI (L : Likelihoods) (p : Nat) (s : NucleonCollection) (i : Int) : NucleonCollection :=
  let x_offset := offset s i
  let n := s.heap p
  let s1 := s.store p { n with x := n.x + x_offset }
  let s2 := (window (s1.heap p).cube_j s1.pairwise_units).foldl (stepJ L p i) s1
  let n2 := s2.heap p
  s2.store p { n2 with x := n2.x - x_offset }

/-- Lines 58-60 of `InsertExistingNucleon`: normalise the position and splice
the nucleon into `ordered`. -/
def splice (s : NucleonCollection) (p : Nat) (insert_point : Nat) : NucleonCollection :=
  { BringInsideRegion s p with
    ordered := (BringInsideRegion s p).ordered.insertIdx insert_point p }

/-- Lines 62-64: `FindCube` writes the cached indices, the bin pointer is
assigned and the nucleon is pushed into the bin. -/
def locate (s : NucleonCollection) (p : Nat) : NucleonCollection :=
  let n := s.heap p
  let c := FindCube s n.x n.y n.z
  (s.store p { n with cube := c, cube_i := c.1, cube_j := c.2.1, cube_k := c.2.2 }).setCube c
    (s.cubeAt c ++ [p])

/-- Lines 65-69: set the back-pointer, cache the single factor, multiply it
into the likelihood and clear the pair list. -/
def adopt (L : Likelihoods) (s : NucleonCollection) (p : Nat) : NucleonCollection :=
  let n := s.heap p
  let single := L.f1 n.toParticle
  { s.store p { n with parent := true, single_likelihood := single, pairwise_likelihoods := [] }
    with likelihood := s.likelihood * single }

/-- Lines 58-69 of `InsertExistingNucleon`. -/
def register (L : Likelihoods) (s : NucleonCollection) (p : Nat) (insert_point : Nat) :
    NucleonCollection :=
  adopt L (locate (splice s p insert_point) p) p

/-- The traversal of the neighbour bins (lines 76-99). -/
def neighbourLoop (L : Likelihoods) (p : Nat) (s : NucleonCollection) : NucleonCollection :=
  (window (s.heap p).cube_i s.pairwise_units).foldl (stepI L p) s

/-- The statement `++nucleon_count` on an `unsigned int`. -/
def countUp (s : NucleonCollection) : NucleonCollection :=
  { s with nucleon_count := (s.nucleon_count + 1) % 4294967296 }

/-- `InsertExistingNucleon(nucleon, insert_point)`: the collection afterwards.
The value returned is its `nucleon_count`. -/
def InsertExistingNucleon (L : Likelihoods) (s : NucleonCollection) (p : Nat) (insert_point : Nat) :
    NucleonCollection :=
  let s1 := register L s p insert_point
  if s1.pairwise_units = 0 then countUp s1 else countUp (neighbourLoop L p s1)

/-- The copy made by `new Nucleon(nucleon)`: the public attributes are those
of the argument; the bookkeeping members are overwritten by the insertion. -/
def newNucleon (v : Particle) : Nucleon :=
  { toParticle := v, cube_i := 0, cube_j := 0, cube_k := 0, cube := (0, 0, 0), parent := false,
    single_likelihood := 0, pairwise_likelihoods := [] }

/-- `InsertNucleon(nucleon, insert_point)`; `p` is the address returned by `new`. -/
def InsertNucleon (L : Likelihoods) (s : NucleonCollection) (p : Nat) (v : Particle)
    (insert_point : Nat) : NucleonCollection :=
  InsertExistingNucleon L (s.store p (newNucleon v)) p insert_point

/-- `AddNucleon(nucleon)`; `p` is the address returned by `new`. -/
def AddNucleon (L : Likelihoods) (s : NucleonCollection) (p : Nat) (v : Particle) :
    NucleonCollection :=
  InsertNucleon L s p v s.ordered.length

/-! ## Removal -/

/-- Erase the first entry of a pair list whose peer is `p` (the inner loops at
lines 230-236 and 272-277). -/
def erasePeer (p : Nat) (l : List (Nat × ℚ)) : List (Nat × ℚ) :=
  l.eraseP (fun e => decide (e.1 = p))

/-- Body of the loop of `RemoveNucleon` over the pair list of `p` (lines 269-277). -/
def removeStep (p : Nat) (s : NucleonCollection) (e : Nat × ℚ) : NucleonCollection :=
  let s1 := { s with likelihood := s.likelihood / e.2 }
  let o := s1.heap e.1
  s1.store e.1 { o with pairwise_likelihoods := erasePeer p o.pairwise_likelihoods }

/-- `RemoveNucleonFromCube(nucleon)`. -/
def RemoveNucleonFromCube (s : NucleonCollection) (p : Nat) : NucleonCollection :=
  let c := (s.heap p).cube
  s.setCube c ((s.cubeAt c).erase p)

/-- The statement `nucleon_count--` on an `unsigned int`: zero wraps to
`2^32 - 1`. -/
def countDown (s : NucleonCollection) : NucleonCollection :=
  { s with nucleon_count := if s.nucleon_count = 0 then 4294967295 else s.nucleon_count - 1 }

/-- `RemoveNucleonFromOrdered(nucleon)`: the collection afterwards and the
iterator returned. -/
def RemoveNucleonFromOrdered (s : NucleonCollection) (p : Nat) : NucleonCollection × Nat :=
  if p ∈ s.ordered then
    ({ countDown s with ordered := s.ordered.erase p }, s.ordered.indexOf p)
  else (s, s.ordered.length)

/-- Lines 265-279 of `RemoveNucleon`: divide the factors of `p` out of the
likelihood, erase the entry for `p` on each peer and clear the pair list. -/
def unpair (s : NucleonCollection) (p : Nat) : NucleonCollection :=
  let s1 := { s with likelihood := s.likelihood / (s.heap p).single_likelihood }
  let s2 := (s1.heap p).pairwise_likelihoods.foldl (removeStep p) s1
  let n := s2.heap p
  s2.store p { n with pairwise_likelihoods := [] }

/-- `RemoveNucleon(nucleon)`: the collection afterwards and the iterator
returned. -/
def RemoveNucleon (s : NucleonCollection) (p : Nat) : NucleonCollection × Nat :=
  RemoveNucleonFromOrdered (RemoveNucleonFromCube (unpair s p) p) p

/-! ## Moves and the journal -/

/-- `CacheState(nucleon)`. -/
def CacheState (s : NucleonCollection) (p : Nat) : NucleonCollection :=
  { s with cached_likelihoods := s.likelihood :: s.cached_likelihoods,
           cached_x := (s.heap p).x :: s.cached_x,
           cached_y := (s.heap p).y :: s.cached_y,
           cached_z := (s.heap p).z :: s.cached_z,
           cached_nucleons := p :: s.cached_nucleons }

/-- Body of the loop of the same-bin branch of `SetNucleonPosition` for the
entry at index `t` of the pair list of `p`, which names the peer `m` and holds
the value `v_old` (lines 224-236).  The entry found on the peer is assigned
and then erased. -/
def moveStep (L : Likelihoods) (p : Nat) (s : NucleonCollection) (t : Nat) (m : Nat) (v_old : ℚ) :
    NucleonCollection :=
  let s1 := { s with likelihood := s.likelihood / v_old }
  let v_new := L.f2 (s1.heap p).toParticle (s1.heap m).toParticle
  let n := s1.heap p
  let s2 := s1.store p { n with pairwise_likelihoods := n.pairwise_likelihoods.set t (m, v_new) }
  let s3 := { s2 with likelihood := s2.likelihood * v_new }
  let o := s3.heap m
  s3.store m { o with pairwise_likelihoods := erasePeer p o.pairwise_likelihoods }

/-- The loop of the same-bin branch over the entries of the pair list of `p`
from index `t` on. -/
def moveLoop (L : Likelihoods) (p : Nat) : List (Nat × ℚ) → Nat → NucleonCollection →
    NucleonCollection
  | [], _, s => s
  | e :: rest, t, s => moveLoop L p rest (t + 1) (moveStep L p s t e.1 e.2)

/-- Lines 213-216 of `SetNucleonPosition`: `FindCube` writes the cached
indices of the target bin, then the coordinates are assigned. -/
def writePosition (s : NucleonCollection) (p : Nat) (x y z : ℚ) : NucleonCollection :=
  let new_cube := FindCube s x y z
  let n := s.heap p
  s.store p { n with cube_i := new_cube.1, cube_j := new_cube.2.1,
                     cube_k := new_cube.2.2, x := x, y := y, z := z }

/-- Lines 218-220 of `SetNucleonPosition`: the single factor is divided out,
recomputed and multiplied in. -/
def refreshSingle (L : Likelihoods) (s : NucleonCollection) (p : Nat) : NucleonCollection :=
  let s3 := { s with likelihood := s.likelihood / (s.heap p).single_likelihood }
  let n3 := s3.heap p
  let s4 := s3.store p { n3 with single_likelihood := L.f1 n3.toParticle }
  { s4 with likelihood := s4.likelihood * (s4.heap p).single_likelihood }

/-- The same-bin branch of `SetNucleonPosition` (lines 218-237). -/
def sameBin (L : Likelihoods) (s : NucleonCollection) (p : Nat) : NucleonCollection :=
  let s1 := refreshSingle L s p
  moveLoop L p (s1.heap p).pairwise_likelihoods 0 s1

/-- The statement `if(recording) CacheState(nucleon)`. -/
def record (s : NucleonCollection) (p : Nat) : NucleonCollection :=
  if s.recording then CacheState s p else s

/-- `SetNucleonPosition(nucleon, x, y, z)`. -/
def SetNucleonPosition (L : Likelihoods) (s : NucleonCollection) (p : Nat) (x y z : ℚ) :
    NucleonCollection :=
  let s1 := record s p
  let s2 := writePosition s1 p x y z
  if FindCube s1 x y z = (s2.heap p).cube then sameBin L s2 p
  else
    let r := RemoveNucleon s2 p
    InsertExistingNucleon L r.1 p r.2

/-- `Checkpoint()`: the collection afterwards and the value returned. -/
def Checkpoint (s : NucleonCollection) : NucleonCollection × ℚ :=
  ({ s with cached_likelihoods := [], cached_nucleons := [], cached_x := [], cached_y := [],
            cached_z := [], recording := true }, s.likelihood)

/-- The locals of `Revert`: `last_nucleon` (null is `none`), `last_x`,
`last_y`, `last_z`, `last_likelihood`. -/
structure RevertLocals where
  last_nucleon : Option Nat
  last_x : ℚ
  last_y : ℚ
  last_z : ℚ
  last_likelihood : ℚ

/-- The `while` loop of `Revert` (lines 179-193), run for at most `fuel` turns. -/
def revertLoop (L : Likelihoods) : Nat → NucleonCollection → RevertLocals →
    NucleonCollection × RevertLocals
  | 0, s, l => (s, l)
  | fuel + 1, s, l =>
    match s.cached_nucleons with
    | [] => (s, l)
    | next_nucleon :: rest =>
      let s1 := { s with cached_nucleons := rest }
      let s2 := match l.last_nucleon with
        | some last => if next_nucleon ≠ last then SetNucleonPosition L s1 last l.last_x l.last_y l.last_z
                       else s1
        | none => s1
      let l2 : RevertLocals :=
        { last_nucleon := some next_nucleon,
          last_likelihood := s2.cached_likelihoods.headD 0,
          last_x := s2.cached_x.headD 0,
          last_y := s2.cached_y.headD 0,
          last_z := s2.cached_z.headD 0 }
      let s3 := { s2 with cached_likelihoods := s2.cached_likelihoods.tail,
                          cached_x := s2.cached_x.tail,
                          cached_y := s2.cached_y.tail,
                          cached_z := s2.cached_z.tail }
      revertLoop L fuel s3 l2

/-- `Revert()`: the collection afterwards and the value returned.  The loop
is given one turn per journal entry. -/
def Revert (L : Likelihoods) (s : NucleonCollection) : NucleonCollection × ℚ :=
  if s.cached_nucleons.length = 0 then (s, s.likelihood)
  else
    let s1 := { s with recording := false }
    let r := revertLoop L s1.cached_nucleons.length s1 ⟨none, 0, 0, 0, 0⟩
    let s2 := match r.2.last_nucleon with
      | some last => SetNucleonPosition L r.1 last r.2.last_x r.2.last_y r.2.last_z
      | none => r.1
    let s3 := { s2 with likelihood := r.2.last_likelihood }
    let s4 := { s3 with recording := true }
    (s4, s4.likelihood)

/-! ## UpdateLikelihood -/

/-- Body of the inner loop of `UpdateLikelihood` for the entry at index `t` of
the pair list of `p` (lines 112-113). -/
def updatePair (L : Likelihoods) (p : Nat) (s : NucleonCollection) (t : Nat) : NucleonCollection :=
  match (s.heap p).pairwise_likelihoods.get? t with
  | none => s
  | some e =>
    let v := L.f2 (s.heap p).toParticle (s.heap e.1).toParticle
    let n := s.heap p
    let s1 := s.store p { n with pairwise_likelihoods := n.pairwise_likelihoods.set t (e.1, v) }
    { s1 with likelihood := s1.likelihood * v }

/-- Body of the outer loop of `UpdateLikelihood` (lines 107-114). -/
def updateNucleon (L : Likelihoods) (s : NucleonCollection) (p : Nat) : NucleonCollection :=
  let n := s.heap p
  let s1 := s.store p { n with single_likelihood := L.f1 n.toParticle }
  let s2 := { s1 with likelihood := s1.likelihood * (s1.heap p).single_likelihood ^ 2 }
  (List.range (s2.heap p).pairwise_likelihoods.length).foldl (updatePair L p) s2

/-- `UpdateLikelihood()` up to line 115: the collection just before the
square root is taken; its `likelihood` is the argument of `sqrt`. -/
def UpdateLikelihoodProduct (L : Likelihoods) (s : NucleonCollection) : NucleonCollection :=
  s.ordered.foldl (updateNucleon L) { s with likelihood := 1 }

/-! ## The scenarios of the specification -/

/-- Distance between two coordinates on an axis of period `2*length`, through
the nearest image. -/
def minImage (length d : ℚ) : ℚ :=
  let r := |d| - 2 * length * (⌊|d| / (2 * length)⌋ : ℚ)
  min r (2 * length - r)

/-- The callbacks of the scenarios: `f1 = 1`, `f2 = 1 + 0.1 * distance`, the
distance taken axis by axis through the nearest image in the cube of
half-length 1. -/
def scenarioLikelihoods : Likelihoods where
  f1 := fun _ => 1
  f2 := fun a b => 1 + (1 / 10) * (minImage 1 (a.x - b.x) + minImage 1 (a.y - b.y)
    + minImage 1 (a.z - b.z))

/-- A particle at `(x, y, z)`. -/
def particleAt (x y z : ℚ) : Particle := ⟨x, y, z, 0, NucleonIdentity.unspecified⟩

/-- The memory before anything is allocated. -/
def emptyHeap : Nat → Nucleon := fun _ => newNucleon (particleAt 0 0 0)

/-- The collection of the scenarios: `U = 1`, `L = 1`, `pairwise_max = 0.5`. -/
def scenarioEmpty : NucleonCollection := construct (1 / 2) 1 1 emptyHeap

/-- Scenario S3: n1 (address 1) at (0,0,0), n2 (address 2) at (0.3,0,0). -/
def scenarioS3 : NucleonCollection :=
  AddNucleon scenarioLikelihoods
    (AddNucleon scenarioLikelihoods scenarioEmpty 1 (particleAt 0 0 0)) 2 (particleAt (3 / 10) 0 0)

/-- Scenario S4: n1 at (-0.9,0,0), n2 at (0.9,0,0). -/
def scenarioS4 : NucleonCollection :=
  AddNucleon scenarioLikelihoods
    (AddNucleon scenarioLikelihoods scenarioEmpty 1 (particleAt (-9 / 10) 0 0)) 2
    (particleAt (9 / 10) 0 0)

/-- Scenario S5: from S3, move n2 to (0.4,0,0). -/
def scenarioS5 : NucleonCollection :=
  SetNucleonPosition scenarioLikelihoods scenarioS3 2 (4 / 10) 0 0

/-! ## Derived notions -/

/-- The constants of the grid. -/
def grid (s : NucleonCollection) : Nat × ℚ × ℚ × Int :=
  (s.units, s.length, s.cube_length, s.pairwise_units)

/-- The recording flag and the journal stacks. -/
def journal (s : NucleonCollection) : Bool × List ℚ × List Nat × List ℚ × List ℚ × List ℚ :=
  (s.recording, s.cached_likelihoods, s.cached_nucleons, s.cached_x, s.cached_y, s.cached_z)

/-! ## Reset and item access -/

/-- Body of the loop of `Reset`: the bin of the member is cleared.  The object
freed by `delete` stays in the memory of the embedding. -/
def resetStep (s : NucleonCollection) (p : Nat) : NucleonCollection :=
  s.setCube (s.heap p).cube []

/-- `Reset(delete_nucleons)`. -/
def Reset (s : NucleonCollection) ( _delete_nucleons : Bool) : NucleonCollection :=
  { s.ordered.foldl resetStep s with ordered := [], nucleon_count := 0 }

/-- Modelled from the spec: `operator[]` of the collection (declared in
`NucleonCollection.h`), the member at a position of the ordered list; `none`
when the position is outside the list. -/
def itemAt (s : NucleonCollection) (index : Int) : Option Nat :=
  if index < 0 then none else s.ordered.get? index.toNat

/-- `NucleonCollectionHelpers::GetNucleon(nucleon_collection, index)` of
`PythonDefinitions.cpp`: `none` is the raised `StopIteration`.  `NucleonCount()`
returns the `unsigned int` counter, so the remainder is computed in
`unsigned int` and stored back into the `int` index. -/
def GetNucleon (s : NucleonCollection) (index : Int) : Option Nat :=
  if index ≥ toSigned s.nucleon_count then none
  else
    let index1 := if index < 0 then toSigned (toUnsigned index % toUnsigned s.nucleon_count)
      else index
    itemAt s index1

/-- The ordered list, the counter and the grid of bins. -/
def layout (s : NucleonCollection) : List Nat × Nat × (Int → Int → Int → List Nat) :=
  (s.ordered, s.nucleon_count, s.cubes)

/-- A sequence of `SetNucleonPosition` calls, each given as the nucleon and the
target `(x, y, z)`. -/
def applyMoves (L : Likelihoods) (s : NucleonCollection) (moves : List (Nat × ℚ × ℚ × ℚ)) :
    NucleonCollection :=
  moves.foldl (fun t m => SetNucleonPosition L t m.1 m.2.1 m.2.2.1 m.2.2.2) s

/-- A nucleon without its pair list: every member but `pairwise_likelihoods`. -/
def Nucleon.body (n : Nucleon) : Nucleon := { n with pairwise_likelihoods := [] }

/-- The coordinates `(x, y, z)` of the nucleon at address `q`. -/
def position (s : NucleonCollection) (q : Nat) : ℚ × ℚ × ℚ :=
  ((s.heap q).x, (s.heap q).y, (s.heap q).z)

/-- The coordinates with `BringInsideRegion` applied on each axis. -/
def normalise (length : ℚ) (v : ℚ × ℚ × ℚ) : ℚ × ℚ × ℚ :=
  (bringAxis length v.1, bringAxis length v.2.1, bringAxis length v.2.2)

/-- The point `v` lies in the closed cube `[-length, length]^3`. -/
def insideCube (length : ℚ) (v : ℚ × ℚ × ℚ) : Prop :=
  (-length ≤ v.1 ∧ v.1 ≤ length) ∧ (-length ≤ v.2.1 ∧ v.2.1 ≤ length) ∧
    (-length ≤ v.2.2 ∧ v.2.2 ≤ length)

instance (length : ℚ) (v : ℚ × ℚ × ℚ) : Decidable (insideCube length v) := by
  unfold insideCube; infer_instance

/-- The oldest journal entry for the nucleon `q`: the position recorded for it
deepest in the stacks, if any. -/
def oldestEntry (q : Nat) : List Nat → List ℚ → List ℚ → List ℚ → Option (ℚ × ℚ × ℚ)
  | p :: ps, x :: xs, y :: ys, z :: zs =>
    match oldestEntry q ps xs ys zs with
    | some v => some v
    | none => if p = q then some (x, y, z) else none
  | _, _, _, _ => none

/-- The position held in the locals of `Revert` for the nucleon `q`, if the
pending nucleon is `q`. -/
def pendingTarget (l : RevertLocals) (q : Nat) : Option (ℚ × ℚ × ℚ) :=
  match l.last_nucleon with
  | some last => if last = q then some (l.last_x, l.last_y, l.last_z) else none
  | none => none

/-- The call of `SetNucleonPosition` on the pending nucleon (lines 182 and 194
of `Revert`). -/
def flush (L : Likelihoods) (s : NucleonCollection) (l : RevertLocals) : NucleonCollection :=
  match l.last_nucleon with
  | some last => SetNucleonPosition L s last l.last_x l.last_y l.last_z
  | none => s

/-- The coordinate stacks of the journal are as long as the nucleon stack. -/
def aligned (s : NucleonCollection) : Prop :=
  s.cached_x.length = s.cached_nucleons.length ∧ s.cached_y.length = s.cached_nucleons.length ∧
    s.cached_z.length = s.cached_nucleons.length

/-- The states reached from a freshly constructed collection (with `length > 0`)
by `AddNucleon`, `InsertExistingNucleon`, `RemoveNucleon` with any arguments
and by `SetNucleonPosition` with a target in the closed cube `[-L, L]^3`. -/
inductive ReachableInside (L : Likelihoods) : NucleonCollection → Prop
  | init (pairwise_max : ℚ) (units : Nat) (length : ℚ) (heap : Nat → Nucleon) (hL : 0 < length) :
      ReachableInside L (construct pairwise_max units length heap)
  | add (s : NucleonCollection) (p : Nat) (v : Particle) :
      ReachableInside L s → ReachableInside L (AddNucleon L s p v)
  | insert (s : NucleonCollection) (p pos : Nat) :
      ReachableInside L s → ReachableInside L (InsertExistingNucleon L s p pos)
  | remove (s : NucleonCollection) (p : Nat) :
      ReachableInside L s → ReachableInside L (RemoveNucleon s p).1
  | move (s : NucleonCollection) (p : Nat) (x y z : ℚ) :
      ReachableInside L s → insideCube s.length (x, y, z) →
      ReachableInside L (SetNucleonPosition L s p x y z)

/-! ## The pair entries written by a traversal -/

/-- The entry that one turn of the innermost loop of `InsertExistingNucleon`
adds to the pair list of the inserted nucleon `p` for the element `m` of a
bin: none when `m` is `p` itself. -/
def visitStep (L : Likelihoods) (p : Nat) (s : NucleonCollection) (m : Nat) : List (Nat × ℚ) :=
  if m ≠ p then [(m, L.f2 (s.heap m).toParticle (s.heap p).toParticle)] else []

/-- The nucleon `p` with `o` added to its `x`. -/
def shiftX (s : NucleonCollection) (p : Nat) (o : ℚ) : NucleonCollection :=
  s.store p { s.heap p with x := (s.heap p).x + o }

/-- The nucleon `p` with `o` added to its `y`. -/
def shiftY (s : NucleonCollection) (p : Nat) (o : ℚ) : NucleonCollection :=
  s.store p { s.heap p with y := (s.heap p).y + o }

/-- The nucleon `p` with `o` added to its `z`. -/
def shiftZ (s : NucleonCollection) (p : Nat) (o : ℚ) : NucleonCollection :=
  s.store p { s.heap p with z := (s.heap p).z + o }

/-- The entries added to the pair list of `p` during one turn of the loop
over `k`. -/
def visitsK (L : Likelihoods) (p : Nat) (i j : Int) (s : NucleonCollection) (k : Int) :
    List (Nat × ℚ) :=
  (s.cubes (wrapIndex s.units i) (wrapIndex s.units j) (wrapIndex s.units k)).flatMap
    (visitStep L p (shiftZ s p (offset s k)))

/-- The entries added to the pair list of `p` during one turn of the loop
over `j`. -/
def visitsJ (L : Likelihoods) (p : Nat) (i : Int) (s : NucleonCollection) (j : Int) :
    List (Nat × ℚ) :=
  (window (s.heap p).cube_k s.pairwise_units).flatMap (visitsK L p i j (shiftY s p (offset s j)))

/-- The entries added to the pair list of `p` during one turn of the loop
over `i`. -/
def visitsI (L : Likelihoods) (p : Nat) (s : NucleonCollection) (i : Int) : List (Nat × ℚ) :=
  (window (s.heap p).cube_j s.pairwise_units).flatMap (visitsJ L p i (shiftX s p (offset s i)))

/-- The entries added to the pair list of `p` by the whole traversal of the
neighbour bins, in the order in which they are pushed. -/
def visits (L : Likelihoods) (p : Nat) (s : NucleonCollection) : List (Nat × ℚ) :=
  (window (s.heap p).cube_i s.pairwise_units).flatMap (visitsI L p s)

/-- The collection `t` is `s` after the pair entries `V` have been registered
for `p`: the likelihood is multiplied by their values, they are appended to
the pair list of `p` and each peer gets the matching entry for `p` appended. -/
def Appended (p : Nat) (V : List (Nat × ℚ)) (s t : NucleonCollection) : Prop :=
  t.likelihood = s.likelihood * (V.map Prod.snd).prod ∧
    (t.heap p).pairwise_likelihoods = (s.heap p).pairwise_likelihoods ++ V ∧
    ∀ q, q ≠ p → (t.heap q).pairwise_likelihoods =
      (s.heap q).pairwise_likelihoods ++ (V.filter (fun e => e.1 = q)).map (fun e => (p, e.2))

/-- The collections `s` and `t` differ at most in the likelihood and in the
pair lists. -/
def Sim (s t : NucleonCollection) : Prop :=
  (∀ q, (t.heap q).body = (s.heap q).body) ∧ layout t = layout s ∧ grid t = grid s

/-- The pair entries registered by `InsertExistingNucleon(p, insert_point)`:
none when `pairwise_units` is 0, those of the traversal otherwise. -/
def insertVisits (L : Likelihoods) (s : NucleonCollection) (p insert_point : Nat) : List (Nat × ℚ) :=
  if (register L s p insert_point).pairwise_units = 0 then []
  else visits L p (register L s p insert_point)

/-- The values cached on the nucleon `a` for the peer `b`. -/
def valuesFor (s : NucleonCollection) (a b : Nat) : List ℚ :=
  ((s.heap a).pairwise_likelihoods.filter (fun e => e.1 = b)).map Prod.snd

/-- Pair lists are balanced: for distinct members `a` and `b` the values stored
on `a` for `b` and the values stored on `b` for `a` are the same multiset. -/
def Balanced (s : NucleonCollection) : Prop :=
  ∀ a ∈ s.ordered, ∀ b ∈ s.ordered, a ≠ b → (valuesFor s a b).Perm (valuesFor s b a)

instance (s : NucleonCollection) : Decidable (Balanced s) := by
  unfold Balanced; infer_instance

/-- From scenario S5: `RemoveNucleon(n1)`, then `SetNucleonPosition(n1, 0.1, 0, 0)`
on the removed nucleon (a same-bin move, which leaves it outside the
collection). -/
def scenarioStale : NucleonCollection :=
  SetNucleonPosition scenarioLikelihoods (RemoveNucleon scenarioS5 1).1 1 (1 / 10) 0 0

/-- Callbacks that are not periodic: `f1 = 1 + x^2`, `f2 = 1`. -/
def quadraticLikelihoods : Likelihoods := ⟨fun v => 1 + v.x * v.x, fun _ _ => 1⟩

/-! ## Bin consistency -/

/-- Every bin holds only members, each in the bin recorded on it, and the bin
recorded on a member holds it exactly once; the ordered list has no
repetition. -/
def BinsSound (s : NucleonCollection) : Prop :=
  s.ordered.Nodup ∧
    (∀ b q, q ∈ s.cubeAt b → q ∈ s.ordered ∧ (s.heap q).cube = b) ∧
    (∀ q ∈ s.ordered, (s.cubeAt (s.heap q).cube).count q = 1)

/-- The bin recorded on `q`, and the cached indices, are those `FindCube`
gives for the coordinates of `q`. -/
def Located (s : NucleonCollection) (q : Nat) : Prop :=
  (s.heap q).cube = FindCube s (s.heap q).x (s.heap q).y (s.heap q).z ∧
    ((s.heap q).cube_i, (s.heap q).cube_j, (s.heap q).cube_k) = (s.heap q).cube

/-- Bin consistency of the whole collection. -/
def BinConsistent (s : NucleonCollection) : Prop :=
  BinsSound s ∧ ∀ q ∈ s.ordered, Located s q

/-- The coordinates, the cached indices and the bin recorded on a nucleon. -/
def Nucleon.place (n : Nucleon) : ℚ × ℚ × ℚ × Int × Int × Int × (Int × Int × Int) :=
  (n.x, n.y, n.z, n.cube_i, n.cube_j, n.cube_k, n.cube)

/-- The states reached from a freshly constructed collection (with `units > 0`
and `length > 0`) by `AddNucleon` (at an address that is not a member),
`InsertExistingNucleon` of a non-member at a position of the list,
`RemoveNucleon`, `SetNucleonPosition`, `Checkpoint` and `Revert`. -/
inductive Reachable (L : Likelihoods) : NucleonCollection → Prop
  | init (pairwise_max : ℚ) (units : Nat) (length : ℚ) (heap : Nat → Nucleon)
      (hU : 0 < units) (hL : 0 < length) :
      Reachable L (construct pairwise_max units length heap)
  | add (s : NucleonCollection) (p : Nat) (v : Particle) :
      Reachable L s → p ∉ s.ordered → Reachable L (AddNucleon L s p v)
  | insert (s : NucleonCollection) (p pos : Nat) :
      Reachable L s → p ∉ s.ordered → pos ≤ s.ordered.length →
      Reachable L (InsertExistingNucleon L s p pos)
  | remove (s : NucleonCollection) (p : Nat) :
      Reachable L s → Reachable L (RemoveNucleon s p).1
  | move (s : NucleonCollection) (p : Nat) (x y z : ℚ) :
      Reachable L s → Reachable L (SetNucleonPosition L s p x y z)
  | checkpoint (s : NucleonCollection) : Reachable L s → Reachable L (Checkpoint s).1
  | revert (s : NucleonCollection) : Reachable L s → Reachable L (Revert L s).1

/-! ## No-pair mode -/

/-- The state of a collection without pair terms: `pairwise_units` is 0, the
ordered list has no repetition, every member has an empty pair list and a
non-zero cached single factor, and the likelihood is the product of the cached
single factors of the members. -/
def NoPairs (s : NucleonCollection) : Prop :=
  s.pairwise_units = 0 ∧ s.ordered.Nodup ∧
    (∀ q ∈ s.ordered, (s.heap q).pairwise_likelihoods = [] ∧ (s.heap q).single_likelihood ≠ 0) ∧
    s.likelihood = (s.ordered.map (fun q => (s.heap q).single_likelihood)).prod

/-- The cached single factor of every member is `f1` of the member as it is. -/
def SinglesFresh (L : Likelihoods) (s : NucleonCollection) : Prop :=
  ∀ q ∈ s.ordered, (s.heap q).single_likelihood = L.f1 (s.heap q).toParticle

/-- The states reached from a collection constructed with `pairwise_max = 0`
(and `units > 0`, `length > 0`) by `AddNucleon` (at an address that is not a
member) and by `RemoveNucleon` and `SetNucleonPosition` of members. -/
inductive ReachableNoPair (L : Likelihoods) : NucleonCollection → Prop
  | init (units : Nat) (length : ℚ) (heap : Nat → Nucleon) (hU : 0 < units) (hL : 0 < length) :
      ReachableNoPair L (construct 0 units length heap)
  | add (s : NucleonCollection) (p : Nat) (v : Particle) :
      ReachableNoPair L s → p ∉ s.ordered → ReachableNoPair L (AddNucleon L s p v)
  | remove (s : NucleonCollection) (p : Nat) :
      ReachableNoPair L s → p ∈ s.ordered → ReachableNoPair L (RemoveNucleon s p).1
  | move (s : NucleonCollection) (p : Nat) (x y z : ℚ) :
      ReachableNoPair L s → p ∈ s.ordered → ReachableNoPair L (SetNucleonPosition L s p x y z)

/-- A run in no-pair mode with `f1 = 1 + x^2`: `U = 1`, `L = 1`,
`pairwise_max = 0`; n1 added at (0.5,0,0), n2 added at (-0.5,0,0), n1 moved
across bins to (-0.25,0,0), n2 moved inside its bin to (-0.75,0,0). -/
def scenarioNoPair : NucleonCollection :=
  SetNucleonPosition quadraticLikelihoods
    (SetNucleonPosition quadraticLikelihoods
      (AddNucleon quadraticLikelihoods
        (AddNucleon quadraticLikelihoods (construct 0 1 1 emptyHeap) 1 (particleAt (1 / 2) 0 0))
        2 (particleAt (-1 / 2) 0 0))
      1 (-1 / 4) 0 0)
    2 (-3 / 4) 0 0

/-! ## The peers met by a traversal -/

/-- The elements other than `p` of the bin examined for the loop counters
`i`, `j`, `k`. -/
def binPeers (s : NucleonCollection) (p : Nat) (i j k : Int) : List Nat :=
  (s.cubes (wrapIndex s.units i) (wrapIndex s.units j) (wrapIndex s.units k)).filter
    (fun m => m ≠ p)

/-- The elements other than `p` of the bins examined by the traversal around
the cached indices of `p`, in the order of the traversal. -/
def neighbours (s : NucleonCollection) (p : Nat) : List Nat :=
  (window (s.heap p).cube_i s.pairwise_units).flatMap fun i =>
    (window (s.heap p).cube_j s.pairwise_units).flatMap fun j =>
      (window (s.heap p).cube_k s.pairwise_units).flatMap fun k => binPeers s p i j k

/-- A grid in which the neighbourhood fits: `U = 3`, `L = 3`, `pairwise_max = 1`
(so `P = 1`), with the member n1 at (0.2, 0.5, 0.5) and the object n2, not yet
inserted, at (1.2, 0.5, 0.5). -/
def scenarioGrid3 : NucleonCollection :=
  (AddNucleon scenarioLikelihoods (construct 1 3 3 emptyHeap) 1
    (particleAt (1 / 5) (1 / 2) (1 / 2))).store 2 (newNucleon (particleAt (6 / 5) (1 / 2) (1 / 2)))

/-! ## The incremental likelihood and the rebuild -/

/-- The product of the values cached in the pair list of `a`. -/
def pairProduct (s : NucleonCollection) (a : Nat) : ℚ :=
  ((s.heap a).pairwise_likelihoods.map Prod.snd).prod

/-- The product over the members of the squared cached single factor and of
every cached pair value: the quantity `UpdateLikelihood` accumulates before it
takes the square root, computed from the caches. -/
def doubleProduct (s : NucleonCollection) : ℚ :=
  (s.ordered.map (fun a => (s.heap a).single_likelihood ^ 2 * pairProduct s a)).prod

/-- The product `UpdateLikelihood` accumulates before it takes the square
root, computed from the callbacks. -/
def rebuildProduct (L : Likelihoods) (s : NucleonCollection) : ℚ :=
  (s.ordered.map (fun a => L.f1 (s.heap a).toParticle ^ 2 *
    ((s.heap a).pairwise_likelihoods.map
      (fun e => L.f2 (s.heap a).toParticle (s.heap e.1).toParticle)).prod)).prod

/-- The bookkeeping of the likelihood is sound: the bins are sound, every
cached factor of a member is positive, every pair entry of a member names
another member, the pair lists are balanced, and the likelihood is the positive
square root of `doubleProduct`. -/
def Accounted (s : NucleonCollection) : Prop :=
  BinsSound s ∧
    (∀ a ∈ s.ordered, 0 < (s.heap a).single_likelihood ∧
      ∀ e ∈ (s.heap a).pairwise_likelihoods, e.1 ∈ s.ordered ∧ e.1 ≠ a ∧ 0 < e.2) ∧
    Balanced s ∧ 0 < s.likelihood ∧ s.likelihood ^ 2 = doubleProduct s

/-- The factors cached on `a` are those the callbacks return for the current
attributes, the pair entries that name `p` left aside. -/
def FreshAt (L : Likelihoods) (s : NucleonCollection) (p a : Nat) : Prop :=
  (s.heap a).single_likelihood = L.f1 (s.heap a).toParticle ∧
    ∀ e ∈ (s.heap a).pairwise_likelihoods, e.1 ≠ p →
      e.2 = L.f2 (s.heap a).toParticle (s.heap e.1).toParticle

/-- The factors cached on every member are those the callbacks return for the
current attributes. -/
def Fresh (L : Likelihoods) (s : NucleonCollection) : Prop :=
  ∀ a ∈ s.ordered, (s.heap a).single_likelihood = L.f1 (s.heap a).toParticle ∧
    ∀ e ∈ (s.heap a).pairwise_likelihoods,
      e.2 = L.f2 (s.heap a).toParticle (s.heap e.1).toParticle

/-- The particle `b` moved by `i`, `j`, `k` periods of length `2*len` on the
three axes. -/
def shifted (b : Particle) (len : ℚ) (i j k : Int) : Particle :=
  { b with x := b.x + i * (2 * len), y := b.y + j * (2 * len), z := b.z + k * (2 * len) }

/-- The callbacks suit the periodic cube of half-length `len`: both are
positive, `f2` is symmetric and does not change when its second argument is
moved by whole periods. -/
def Suited (L : Likelihoods) (len : ℚ) : Prop :=
  (∀ v, 0 < L.f1 v) ∧ (∀ a b, 0 < L.f2 a b) ∧ (∀ a b, L.f2 a b = L.f2 b a) ∧
    ∀ a b i j k, L.f2 a (shifted b len i j k) = L.f2 a b

/-- The states reached from a collection constructed with half-length `len`
(and `units > 0`, `len > 0`) by `AddNucleon` (at an address that is not a
member), `InsertExistingNucleon` of a non-member at a position of the list,
`RemoveNucleon` of a member, and `SetNucleonPosition` of a member that either
changes its bin or has an empty pair list. -/
inductive ReachablePaired (L : Likelihoods) (len : ℚ) : NucleonCollection → Prop
  | init (pairwise_max : ℚ) (units : Nat) (heap : Nat → Nucleon) (hU : 0 < units) (hL : 0 < len) :
      ReachablePaired L len (construct pairwise_max units len heap)
  | add (s : NucleonCollection) (p : Nat) (v : Particle) :
      ReachablePaired L len s → p ∉ s.ordered → ReachablePaired L len (AddNucleon L s p v)
  | insert (s : NucleonCollection) (p pos : Nat) :
      ReachablePaired L len s → p ∉ s.ordered → pos ≤ s.ordered.length →
      ReachablePaired L len (InsertExistingNucleon L s p pos)
  | remove (s : NucleonCollection) (p : Nat) :
      ReachablePaired L len s → p ∈ s.ordered → ReachablePaired L len (RemoveNucleon s p).1
  | move (s : NucleonCollection) (p : Nat) (x y z : ℚ) :
      ReachablePaired L len s → p ∈ s.ordered →
      (FindCube s x y z ≠ (s.heap p).cube ∨ (s.heap p).pairwise_likelihoods = []) →
      ReachablePaired L len (SetNucleonPosition L s p x y z)

/-- The collections `s` and `t` hold the same attributes on every nucleon and
the same peers, in the same order, in every pair list. -/
def SamePeers (s t : NucleonCollection) : Prop :=
  ∀ q, (t.heap q).toParticle = (s.heap q).toParticle ∧
    (t.heap q).pairwise_likelihoods.map Prod.fst = (s.heap q).pairwise_likelihoods.map Prod.fst

/-- Callbacks with a pair factor that is not periodic: `f1 = 1`,
`f2 = 1 + 0.1 * |a.x - b.x|`. -/
def plainLikelihoods : Likelihoods := ⟨fun _ => 1, fun a b => 1 + (1 / 10) * |a.x - b.x|⟩

/-- Two members that are neighbours through the periodic boundary: `U = 3`,
`L = 3`, `pairwise_max = 1`, n1 at (-2.9, 0.5, 0.5) and n2 at (2.9, 0.5, 0.5),
with the callbacks `plainLikelihoods`. -/
def scenarioBoundary : NucleonCollection :=
  AddNucleon plainLikelihoods
    (AddNucleon plainLikelihoods (construct 1 3 3 emptyHeap) 1
      (particleAt (-29 / 10) (1 / 2) (1 / 2))) 2 (particleAt (29 / 10) (1 / 2) (1 / 2))

/-- A run with the callbacks of the scenarios in a finer grid: `U = 3`, `L = 1`,
`pairwise_max = 1/3`; n1 added at (0.1,0,0), n2 added at (0.4,0,0), then n2
moved across bins to (-0.2,0,0). -/
def scenarioFine : NucleonCollection :=
  SetNucleonPosition scenarioLikelihoods
    (AddNucleon scenarioLikelihoods
      (AddNucleon scenarioLikelihoods (construct (1 / 3) 3 1 emptyHeap) 1
        (particleAt (1 / 10) 0 0)) 2 (particleAt (4 / 10) 0 0))
    2 (-2 / 10) 0 0

/-! # Theorems -/

theorem foldl_keep {α β γ : Type} (g : β → γ) (f : β → α → β)
    (h : ∀ b a, g (f b a) = g b) : ∀ (l : List α) (b : β), g (l.foldl f b) = g b := by
  intro l
  induction l with
  | nil => intro b; rfl
  | cons a l ih => intro b; rw [List.foldl_cons, ih, h]

theorem grid_store (s : NucleonCollection) (p : Nat) (n : Nucleon) : grid (s.store p n) = grid s := rfl

theorem journal_store (s : NucleonCollection) (p : Nat) (n : Nucleon) :
    journal (s.store p n) = journal s := rfl

theorem grid_pairStep (L : Likelihoods) (p : Nat) (s : NucleonCollection) (m : Nat) :
    grid (pairStep L p s m) = grid s := by
  unfold pairStep; split <;> rfl

theorem journal_pairStep (L : Likelihoods) (p : Nat) (s : NucleonCollection) (m : Nat) :
    journal (pairStep L p s m) = journal s := by
  unfold pairStep; split <;> rfl

theorem grid_stepK (L : Likelihoods) (p : Nat) (i j : Int) (s : NucleonCollection) (k : Int) :
    grid (stepK L p i j s k) = grid s := by
  simp only [stepK, grid_store, foldl_keep grid _ (grid_pairStep L p)]

theorem journal_stepK (L : Likelihoods) (p : Nat) (i j : Int) (s : NucleonCollection) (k : Int) :
    journal (stepK L p i j s k) = journal s := by
  simp only [stepK, journal_store, foldl_keep journal _ (journal_pairStep L p)]

theorem grid_stepJ (L : Likelihoods) (p : Nat) (i : Int) (s : NucleonCollection) (j : Int) :
    grid (stepJ L p i s j) = grid s := by
  simp only [stepJ, grid_store, foldl_keep grid _ (grid_stepK L p i _)]

theorem journal_stepJ (L : Likelihoods) (p : Nat) (i : Int) (s : NucleonCollection) (j : Int) :
    journal (stepJ L p i s j) = journal s := by
  simp only [stepJ, journal_store, foldl_keep journal _ (journal_stepK L p i _)]

theorem grid_stepI (L : Likelihoods) (p : Nat) (s : NucleonCollection) (i : Int) :
    grid (stepI L p s i) = grid s := by
  simp only [stepI, grid_store, foldl_keep grid _ (grid_stepJ L p _)]

theorem journal_stepI (L : Likelihoods) (p : Nat) (s : NucleonCollection) (i : Int) :
    journal (stepI L p s i) = journal s := by
  simp only [stepI, journal_store, foldl_keep journal _ (journal_stepJ L p _)]

theorem grid_splice (s : NucleonCollection) (p pos : Nat) : grid (splice s p pos) = grid s := rfl

theorem journal_splice (s : NucleonCollection) (p pos : Nat) :
    journal (splice s p pos) = journal s := rfl

theorem grid_locate (s : NucleonCollection) (p : Nat) : grid (locate s p) = grid s := rfl

theorem journal_locate (s : NucleonCollection) (p : Nat) : journal (locate s p) = journal s := rfl

theorem grid_adopt (L : Likelihoods) (s : NucleonCollection) (p : Nat) :
    grid (adopt L s p) = grid s := rfl

theorem journal_adopt (L : Likelihoods) (s : NucleonCollection) (p : Nat) :
    journal (adopt L s p) = journal s := rfl

theorem grid_register (L : Likelihoods) (s : NucleonCollection) (p pos : Nat) :
    grid (register L s p pos) = grid s := by
  unfold register; rw [grid_adopt, grid_locate, grid_splice]

theorem journal_register (L : Likelihoods) (s : NucleonCollection) (p pos : Nat) :
    journal (register L s p pos) = journal s := by
  unfold register; rw [journal_adopt, journal_locate, journal_splice]

theorem grid_neighbourLoop (L : Likelihoods) (p : Nat) (s : NucleonCollection) :
    grid (neighbourLoop L p s) = grid s :=
  foldl_keep grid _ (grid_stepI L p) _ _

theorem journal_neighbourLoop (L : Likelihoods) (p : Nat) (s : NucleonCollection) :
    journal (neighbourLoop L p s) = journal s :=
  foldl_keep journal _ (journal_stepI L p) _ _

theorem grid_countUp (s : NucleonCollection) : grid (countUp s) = grid s := rfl

theorem journal_countUp (s : NucleonCollection) : journal (countUp s) = journal s := rfl

theorem InsertExistingNucleon_eq (L : Likelihoods) (s : NucleonCollection) (p pos : Nat) :
    InsertExistingNucleon L s p pos =
      if (register L s p pos).pairwise_units = 0 then countUp (register L s p pos)
      else countUp (neighbourLoop L p (register L s p pos)) := rfl

theorem sameBin_eq (L : Likelihoods) (s : NucleonCollection) (p : Nat) :
    sameBin L s p =
      moveLoop L p ((refreshSingle L s p).heap p).pairwise_likelihoods 0 (refreshSingle L s p) :=
  rfl

theorem SetNucleonPosition_eq (L : Likelihoods) (s : NucleonCollection) (p : Nat) (x y z : ℚ) :
    SetNucleonPosition L s p x y z =
      if FindCube (record s p) x y z = ((writePosition (record s p) p x y z).heap p).cube then
        sameBin L (writePosition (record s p) p x y z) p
      else
        InsertExistingNucleon L (RemoveNucleon (writePosition (record s p) p x y z) p).1 p
          (RemoveNucleon (writePosition (record s p) p x y z) p).2 := rfl

theorem grid_InsertExistingNucleon (L : Likelihoods) (s : NucleonCollection) (p pos : Nat) :
    grid (InsertExistingNucleon L s p pos) = grid s := by
  rw [InsertExistingNucleon_eq]
  split
  · rw [grid_countUp, grid_register]
  · rw [grid_countUp, grid_neighbourLoop, grid_register]

theorem journal_InsertExistingNucleon (L : Likelihoods) (s : NucleonCollection) (p pos : Nat) :
    journal (InsertExistingNucleon L s p pos) = journal s := by
  rw [InsertExistingNucleon_eq]
  split
  · rw [journal_countUp, journal_register]
  · rw [journal_countUp, journal_neighbourLoop, journal_register]

theorem grid_removeStep (p : Nat) (s : NucleonCollection) (e : Nat × ℚ) :
    grid (removeStep p s e) = grid s := rfl

theorem journal_removeStep (p : Nat) (s : NucleonCollection) (e : Nat × ℚ) :
    journal (removeStep p s e) = journal s := rfl

theorem grid_unpair (s : NucleonCollection) (p : Nat) : grid (unpair s p) = grid s := by
  unfold unpair
  simp only [grid_store]
  rw [foldl_keep grid _ (grid_removeStep p)]; rfl

theorem journal_unpair (s : NucleonCollection) (p : Nat) : journal (unpair s p) = journal s := by
  unfold unpair
  simp only [journal_store]
  rw [foldl_keep journal _ (journal_removeStep p)]; rfl

theorem grid_RemoveNucleonFromCube (s : NucleonCollection) (p : Nat) :
    grid (RemoveNucleonFromCube s p) = grid s := rfl

theorem journal_RemoveNucleonFromCube (s : NucleonCollection) (p : Nat) :
    journal (RemoveNucleonFromCube s p) = journal s := rfl

theorem grid_RemoveNucleonFromOrdered (s : NucleonCollection) (p : Nat) :
    grid (RemoveNucleonFromOrdered s p).1 = grid s := by
  unfold RemoveNucleonFromOrdered
  by_cases h : p ∈ s.ordered
  · rw [if_pos h]; rfl
  · rw [if_neg h]

theorem journal_RemoveNucleonFromOrdered (s : NucleonCollection) (p : Nat) :
    journal (RemoveNucleonFromOrdered s p).1 = journal s := by
  unfold RemoveNucleonFromOrdered
  by_cases h : p ∈ s.ordered
  · rw [if_pos h]; rfl
  · rw [if_neg h]

theorem grid_RemoveNucleon (s : NucleonCollection) (p : Nat) :
    grid (RemoveNucleon s p).1 = grid s := by
  unfold RemoveNucleon
  rw [grid_RemoveNucleonFromOrdered, grid_RemoveNucleonFromCube, grid_unpair]

theorem journal_RemoveNucleon (s : NucleonCollection) (p : Nat) :
    journal (RemoveNucleon s p).1 = journal s := by
  unfold RemoveNucleon
  rw [journal_RemoveNucleonFromOrdered, journal_RemoveNucleonFromCube, journal_unpair]

theorem grid_moveStep (L : Likelihoods) (p : Nat) (s : NucleonCollection) (t m : Nat) (v : ℚ) :
    grid (moveStep L p s t m v) = grid s := rfl

theorem journal_moveStep (L : Likelihoods) (p : Nat) (s : NucleonCollection) (t m : Nat) (v : ℚ) :
    journal (moveStep L p s t m v) = journal s := rfl

theorem grid_moveLoop (L : Likelihoods) (p : Nat) (es : List (Nat × ℚ)) :
    ∀ (t : Nat) (s : NucleonCollection), grid (moveLoop L p es t s) = grid s := by
  induction es with
  | nil => intro t s; rfl
  | cons e es ih => intro t s; rw [moveLoop, ih, grid_moveStep]

theorem journal_moveLoop (L : Likelihoods) (p : Nat) (es : List (Nat × ℚ)) :
    ∀ (t : Nat) (s : NucleonCollection), journal (moveLoop L p es t s) = journal s := by
  induction es with
  | nil => intro t s; rfl
  | cons e es ih => intro t s; rw [moveLoop, ih, journal_moveStep]

theorem grid_refreshSingle (L : Likelihoods) (s : NucleonCollection) (p : Nat) :
    grid (refreshSingle L s p) = grid s := rfl

theorem journal_refreshSingle (L : Likelihoods) (s : NucleonCollection) (p : Nat) :
    journal (refreshSingle L s p) = journal s := rfl

theorem grid_sameBin (L : Likelihoods) (s : NucleonCollection) (p : Nat) :
    grid (sameBin L s p) = grid s := by
  rw [sameBin_eq, grid_moveLoop, grid_refreshSingle]

theorem journal_sameBin (L : Likelihoods) (s : NucleonCollection) (p : Nat) :
    journal (sameBin L s p) = journal s := by
  rw [sameBin_eq, journal_moveLoop, journal_refreshSingle]

theorem grid_record (s : NucleonCollection) (p : Nat) : grid (record s p) = grid s := by
  unfold record; split <;> rfl

theorem grid_writePosition (s : NucleonCollection) (p : Nat) (x y z : ℚ) :
    grid (writePosition s p x y z) = grid s := rfl

theorem journal_writePosition (s : NucleonCollection) (p : Nat) (x y z : ℚ) :
    journal (writePosition s p x y z) = journal s := rfl

theorem grid_SetNucleonPosition (L : Likelihoods) (s : NucleonCollection) (p : Nat) (x y z : ℚ) :
    grid (SetNucleonPosition L s p x y z) = grid s := by
  rw [SetNucleonPosition_eq]
  split
  · rw [grid_sameBin, grid_writePosition, grid_record]
  · rw [grid_InsertExistingNucleon, grid_RemoveNucleon, grid_writePosition, grid_record]

theorem journal_SetNucleonPosition (L : Likelihoods) (s : NucleonCollection) (p : Nat) (x y z : ℚ) :
    journal (SetNucleonPosition L s p x y z) = journal (record s p) := by
  rw [SetNucleonPosition_eq]
  split
  · rw [journal_sameBin, journal_writePosition]
  · rw [journal_InsertExistingNucleon, journal_RemoveNucleon, journal_writePosition]

theorem journal_SetNucleonPosition_off (L : Likelihoods) (s : NucleonCollection) (p : Nat)
    (x y z : ℚ) (h : s.recording = false) :
    journal (SetNucleonPosition L s p x y z) = journal s := by
  rw [journal_SetNucleonPosition]; unfold record; rw [h]; rfl

theorem findIndex_of_inRange (U : Nat) (cl x : ℚ) (hU : 0 < U) (hU2 : 2 * U ≤ 2147483648)
    (h0 : 0 ≤ ⌊x / cl⌋ + (U : Int)) (h1 : ⌊x / cl⌋ + (U : Int) < 4294967296) :
    findIndex U cl x = (⌊x / cl⌋ + (U : Int)) % (2 * (U : Int)) ∧
      0 ≤ findIndex U cl x ∧ findIndex U cl x < 2 * (U : Int) := by
  have e1 : toUnsigned (toUnsigned ⌊x / cl⌋ + (U : Int)) = ⌊x / cl⌋ + (U : Int) := by
    unfold toUnsigned
    rw [Int.emod_add_emod]
    exact Int.emod_eq_of_lt h0 h1
  have e2 : toUnsigned (2 * (U : Int)) = 2 * (U : Int) := by
    unfold toUnsigned
    apply Int.emod_eq_of_lt <;> omega
  have hpos : (0 : Int) < 2 * (U : Int) := by omega
  have r0 := Int.emod_nonneg (⌊x / cl⌋ + (U : Int)) (ne_of_gt hpos)
  have r1 := Int.emod_lt_of_pos (⌊x / cl⌋ + (U : Int)) hpos
  have e3 : findIndex U cl x = (⌊x / cl⌋ + (U : Int)) % (2 * (U : Int)) := by
    unfold findIndex
    rw [e1]
    rw [e2]
    generalize (⌊x / cl⌋ + (U : Int)) % (2 * (U : Int)) = r at r0 r1 ⊢
    unfold toSigned
    have : r % 4294967296 = r := Int.emod_eq_of_lt r0 (by omega)
    rw [this, if_pos (by omega)]
  rw [e3]
  exact ⟨rfl, r0, r1⟩
theorem foldDown_spec (L : ℚ) (hL : 0 < L) : ∀ (fuel : Nat) (c : ℚ), (c - L) / (2 * L) ≤ fuel →
    foldDown L fuel c ≤ L ∧ (L < c → -L < foldDown L fuel c) ∧ (c ≤ L → foldDown L fuel c = c) ∧
      ∃ k : ℤ, foldDown L fuel c - c = k * (2 * L) := by
  intro fuel
  induction fuel with
  | zero =>
    intro c h
    have h2 : (0 : ℚ) < 2 * L := by linarith
    have hc : c ≤ L := by
      have := (div_le_iff₀ h2).1 h
      simp at this
      linarith
    refine ⟨by simpa [foldDown] using hc, fun h' => absurd hc (not_le.2 h'), fun _ => rfl, 0, by simp [foldDown]⟩
  | succ n ih =>
    intro c h
    have h2 : (0 : ℚ) < 2 * L := by linarith
    by_cases hc : c > L
    · have hstep : foldDown L (n + 1) c = foldDown L n (c - 2 * L) := by
        simp [foldDown, hc]
      have hfuel : (c - 2 * L - L) / (2 * L) ≤ (n : ℚ) := by
        have e : (c - 2 * L - L) / (2 * L) = (c - L) / (2 * L) - 1 := by
          field_simp; ring
        rw [e]; push_cast at h; linarith
      obtain ⟨a, b, d, k, hk⟩ := ih (c - 2 * L) hfuel
      rw [hstep]
      refine ⟨a, fun _ => ?_, fun h' => absurd h' (not_le.2 hc), k - 1, ?_⟩
      · by_cases h3 : L < c - 2 * L
        · exact b h3
        · rw [d (not_lt.1 h3)]; linarith
      · push_cast; linarith
    · have hstep : foldDown L (n + 1) c = c := by simp [foldDown, hc]
      rw [hstep]
      exact ⟨not_lt.1 hc, fun h' => absurd h' hc, fun _ => rfl, 0, by simp⟩

theorem foldDown_stable (L : ℚ) (hL : 0 < L) : ∀ (n : Nat) (c : ℚ), (c - L) / (2 * L) ≤ n →
    ∀ m : Nat, foldDown L (n + m) c = foldDown L n c := by
  intro n
  induction n with
  | zero =>
    intro c h m
    have h2 : (0 : ℚ) < 2 * L := by linarith
    have hc : ¬ c > L := by
      have := (div_le_iff₀ h2).1 h
      simp at this
      linarith
    cases m with
    | zero => rfl
    | succ m => simp [foldDown, hc]
  | succ n ih =>
    intro c h m
    have h2 : (0 : ℚ) < 2 * L := by linarith
    rw [show n + 1 + m = (n + m) + 1 by omega]
    by_cases hc : c > L
    · have hfuel : (c - 2 * L - L) / (2 * L) ≤ (n : ℚ) := by
        have e : (c - 2 * L - L) / (2 * L) = (c - L) / (2 * L) - 1 := by
          field_simp; ring
        rw [e]; push_cast at h; linarith
      simp only [foldDown, hc, if_true]
      exact ih _ hfuel m
    · simp [foldDown, hc]

theorem foldUp_spec (L : ℚ) (hL : 0 < L) : ∀ (fuel : Nat) (c : ℚ), (-L - c) / (2 * L) ≤ fuel →
    -L ≤ foldUp L fuel c ∧ (c < -L → foldUp L fuel c < L) ∧ (-L ≤ c → foldUp L fuel c = c) ∧
      ∃ k : ℤ, foldUp L fuel c - c = k * (2 * L) := by
  intro fuel
  induction fuel with
  | zero =>
    intro c h
    have h2 : (0 : ℚ) < 2 * L := by linarith
    have hc : -L ≤ c := by
      have := (div_le_iff₀ h2).1 h
      simp at this
      linarith
    refine ⟨by simpa [foldUp] using hc, fun h' => absurd hc (not_le.2 h'), fun _ => rfl, 0, by simp [foldUp]⟩
  | succ n ih =>
    intro c h
    have h2 : (0 : ℚ) < 2 * L := by linarith
    by_cases hc : c < -L
    · have hstep : foldUp L (n + 1) c = foldUp L n (c + 2 * L) := by
        simp [foldUp, hc]
      have hfuel : (-L - (c + 2 * L)) / (2 * L) ≤ (n : ℚ) := by
        have e : (-L - (c + 2 * L)) / (2 * L) = (-L - c) / (2 * L) - 1 := by
          field_simp; ring
        rw [e]; push_cast at h; linarith
      obtain ⟨a, b, d, k, hk⟩ := ih (c + 2 * L) hfuel
      rw [hstep]
      refine ⟨a, fun _ => ?_, fun h' => absurd h' (not_le.2 hc), k + 1, ?_⟩
      · by_cases h3 : c + 2 * L < -L
        · exact b h3
        · rw [d (not_lt.1 h3)]; linarith
      · push_cast; linarith
    · have hstep : foldUp L (n + 1) c = c := by simp [foldUp, hc]
      rw [hstep]
      exact ⟨not_lt.1 hc, fun h' => absurd h' hc, fun _ => rfl, 0, by simp⟩

theorem foldUp_stable (L : ℚ) (hL : 0 < L) : ∀ (n : Nat) (c : ℚ), (-L - c) / (2 * L) ≤ n →
    ∀ m : Nat, foldUp L (n + m) c = foldUp L n c := by
  intro n
  induction n with
  | zero =>
    intro c h m
    have h2 : (0 : ℚ) < 2 * L := by linarith
    have hc : ¬ c < -L := by
      have := (div_le_iff₀ h2).1 h
      simp at this
      linarith
    cases m with
    | zero => rfl
    | succ m => simp [foldUp, hc]
  | succ n ih =>
    intro c h m
    have h2 : (0 : ℚ) < 2 * L := by linarith
    rw [show n + 1 + m = (n + m) + 1 by omega]
    by_cases hc : c < -L
    · have hfuel : (-L - (c + 2 * L)) / (2 * L) ≤ (n : ℚ) := by
        have e : (-L - (c + 2 * L)) / (2 * L) = (-L - c) / (2 * L) - 1 := by
          field_simp; ring
        rw [e]; push_cast at h; linarith
      simp only [foldUp, hc, if_true]
      exact ih _ hfuel m
    · simp [foldUp, hc]

theorem downTurns_enough (L c : ℚ) : (c - L) / (2 * L) ≤ (downTurns L c : ℚ) := by
  unfold downTurns
  calc (c - L) / (2 * L) ≤ ((⌈(c - L) / (2 * L)⌉ : ℤ) : ℚ) := Int.le_ceil _
    _ ≤ ((⌈(c - L) / (2 * L)⌉.toNat : ℤ) : ℚ) := by exact_mod_cast Int.self_le_toNat _
    _ = _ := by norm_cast

theorem upTurns_enough (L c : ℚ) : (-L - c) / (2 * L) ≤ (upTurns L c : ℚ) := by
  unfold upTurns
  calc (-L - c) / (2 * L) ≤ ((⌈(-L - c) / (2 * L)⌉ : ℤ) : ℚ) := Int.le_ceil _
    _ ≤ ((⌈(-L - c) / (2 * L)⌉.toNat : ℤ) : ℚ) := by exact_mod_cast Int.self_le_toNat _
    _ = _ := by norm_cast
theorem foldDown_of_le (L : ℚ) (fuel : Nat) (c : ℚ) (h : c ≤ L) : foldDown L fuel c = c := by
  cases fuel with
  | zero => rfl
  | succ n => simp [foldDown, not_lt.2 h]

theorem foldUp_of_le (L : ℚ) (fuel : Nat) (c : ℚ) (h : -L ≤ c) : foldUp L fuel c = c := by
  cases fuel with
  | zero => rfl
  | succ n => simp [foldUp, not_lt.2 h]

theorem bringAxis_of_inside (L c : ℚ) (h1 : -L ≤ c) (h2 : c ≤ L) : bringAxis L c = c := by
  unfold bringAxis
  simp only []
  rw [foldDown_of_le L _ c h2, foldUp_of_le L _ c h1]

theorem bringAxis_spec (L c : ℚ) (hL : 0 < L) :
    -L ≤ bringAxis L c ∧ bringAxis L c ≤ L ∧ ∃ k : ℤ, bringAxis L c - c = k * (2 * L) := by
  obtain ⟨a1, a2, a3, k1, hk1⟩ := foldDown_spec L hL (downTurns L c) c (downTurns_enough L c)
  obtain ⟨b1, b2, b3, k2, hk2⟩ := foldUp_spec L hL (upTurns L (foldDown L (downTurns L c) c))
    (foldDown L (downTurns L c) c) (upTurns_enough L _)
  unfold bringAxis
  simp only []
  refine ⟨b1, ?_, k1 + k2, ?_⟩
  · by_cases h : foldDown L (downTurns L c) c < -L
    · exact le_of_lt (b2 h)
    · rw [b3 (not_lt.1 h)]; exact a1
  · push_cast; linarith

theorem bringAxis_stable (L c : ℚ) (hL : 0 < L) (fuel1 fuel2 : Nat) (h1 : downTurns L c ≤ fuel1)
    (h2 : upTurns L (foldDown L fuel1 c) ≤ fuel2) :
    foldUp L fuel2 (foldDown L fuel1 c) = bringAxis L c := by
  have e1 : foldDown L fuel1 c = foldDown L (downTurns L c) c := by
    obtain ⟨m, rfl⟩ := Nat.exists_eq_add_of_le h1
    exact foldDown_stable L hL _ c (downTurns_enough L c) m
  rw [e1] at h2 ⊢
  obtain ⟨m, rfl⟩ := Nat.exists_eq_add_of_le h2
  unfold bringAxis
  exact foldUp_stable L hL _ _ (upTurns_enough L _) m

/-! ## Field lemmas for the primitive updates -/

@[simp] theorem store_likelihood (s : NucleonCollection) (p : Nat) (n : Nucleon) :
    (s.store p n).likelihood = s.likelihood := rfl

@[simp] theorem store_nucleon_count (s : NucleonCollection) (p : Nat) (n : Nucleon) :
    (s.store p n).nucleon_count = s.nucleon_count := rfl

@[simp] theorem store_units (s : NucleonCollection) (p : Nat) (n : Nucleon) :
    (s.store p n).units = s.units := rfl

@[simp] theorem store_length (s : NucleonCollection) (p : Nat) (n : Nucleon) :
    (s.store p n).length = s.length := rfl

@[simp] theorem store_cube_length (s : NucleonCollection) (p : Nat) (n : Nucleon) :
    (s.store p n).cube_length = s.cube_length := rfl

@[simp] theorem store_pairwise_units (s : NucleonCollection) (p : Nat) (n : Nucleon) :
    (s.store p n).pairwise_units = s.pairwise_units := rfl

@[simp] theorem store_cubes (s : NucleonCollection) (p : Nat) (n : Nucleon) :
    (s.store p n).cubes = s.cubes := rfl

@[simp] theorem store_ordered (s : NucleonCollection) (p : Nat) (n : Nucleon) :
    (s.store p n).ordered = s.ordered := rfl

@[simp] theorem store_recording (s : NucleonCollection) (p : Nat) (n : Nucleon) :
    (s.store p n).recording = s.recording := rfl

@[simp] theorem store_cached_likelihoods (s : NucleonCollection) (p : Nat) (n : Nucleon) :
    (s.store p n).cached_likelihoods = s.cached_likelihoods := rfl

@[simp] theorem store_cached_nucleons (s : NucleonCollection) (p : Nat) (n : Nucleon) :
    (s.store p n).cached_nucleons = s.cached_nucleons := rfl

@[simp] theorem store_cached_x (s : NucleonCollection) (p : Nat) (n : Nucleon) :
    (s.store p n).cached_x = s.cached_x := rfl

@[simp] theorem store_cached_y (s : NucleonCollection) (p : Nat) (n : Nucleon) :
    (s.store p n).cached_y = s.cached_y := rfl

@[simp] theorem store_cached_z (s : NucleonCollection) (p : Nat) (n : Nucleon) :
    (s.store p n).cached_z = s.cached_z := rfl

@[simp] theorem setCube_likelihood (s : NucleonCollection) (b : Int × Int × Int) (l : List Nat) :
    (s.setCube b l).likelihood = s.likelihood := rfl

@[simp] theorem setCube_nucleon_count (s : NucleonCollection) (b : Int × Int × Int) (l : List Nat) :
    (s.setCube b l).nucleon_count = s.nucleon_count := rfl

@[simp] theorem setCube_units (s : NucleonCollection) (b : Int × Int × Int) (l : List Nat) :
    (s.setCube b l).units = s.units := rfl

@[simp] theorem setCube_length (s : NucleonCollection) (b : Int × Int × Int) (l : List Nat) :
    (s.setCube b l).length = s.length := rfl

@[simp] theorem setCube_cube_length (s : NucleonCollection) (b : Int × Int × Int) (l : List Nat) :
    (s.setCube b l).cube_length = s.cube_length := rfl

@[simp] theorem setCube_pairwise_units (s : NucleonCollection) (b : Int × Int × Int) (l : List Nat) :
    (s.setCube b l).pairwise_units = s.pairwise_units := rfl

@[simp] theorem setCube_ordered (s : NucleonCollection) (b : Int × Int × Int) (l : List Nat) :
    (s.setCube b l).ordered = s.ordered := rfl

@[simp] theorem setCube_recording (s : NucleonCollection) (b : Int × Int × Int) (l : List Nat) :
    (s.setCube b l).recording = s.recording := rfl

@[simp] theorem setCube_cached_likelihoods (s : NucleonCollection) (b : Int × Int × Int) (l : List Nat) :
    (s.setCube b l).cached_likelihoods = s.cached_likelihoods := rfl

@[simp] theorem setCube_cached_nucleons (s : NucleonCollection) (b : Int × Int × Int) (l : List Nat) :
    (s.setCube b l).cached_nucleons = s.cached_nucleons := rfl

@[simp] theorem setCube_cached_x (s : NucleonCollection) (b : Int × Int × Int) (l : List Nat) :
    (s.setCube b l).cached_x = s.cached_x := rfl

@[simp] theorem setCube_cached_y (s : NucleonCollection) (b : Int × Int × Int) (l : List Nat) :
    (s.setCube b l).cached_y = s.cached_y := rfl

@[simp] theorem setCube_cached_z (s : NucleonCollection) (b : Int × Int × Int) (l : List Nat) :
    (s.setCube b l).cached_z = s.cached_z := rfl

@[simp] theorem setCube_heap (s : NucleonCollection) (b : Int × Int × Int) (l : List Nat) :
    (s.setCube b l).heap = s.heap := rfl

@[simp] theorem countUp_likelihood (s : NucleonCollection)  :
    (countUp s).likelihood = s.likelihood := rfl

@[simp] theorem countUp_units (s : NucleonCollection)  :
    (countUp s).units = s.units := rfl

@[simp] theorem countUp_length (s : NucleonCollection)  :
    (countUp s).length = s.length := rfl

@[simp] theorem countUp_cube_length (s : NucleonCollection)  :
    (countUp s).cube_length = s.cube_length := rfl

@[simp] theorem countUp_pairwise_units (s : NucleonCollection)  :
    (countUp s).pairwise_units = s.pairwise_units := rfl

@[simp] theorem countUp_cubes (s : NucleonCollection)  :
    (countUp s).cubes = s.cubes := rfl

@[simp] theorem countUp_ordered (s : NucleonCollection)  :
    (countUp s).ordered = s.ordered := rfl

@[simp] theorem countUp_recording (s : NucleonCollection)  :
    (countUp s).recording = s.recording := rfl

@[simp] theorem countUp_cached_likelihoods (s : NucleonCollection)  :
    (countUp s).cached_likelihoods = s.cached_likelihoods := rfl

@[simp] theorem countUp_cached_nucleons (s : NucleonCollection)  :
    (countUp s).cached_nucleons = s.cached_nucleons := rfl

@[simp] theorem countUp_cached_x (s : NucleonCollection)  :
    (countUp s).cached_x = s.cached_x := rfl

@[simp] theorem countUp_cached_y (s : NucleonCollection)  :
    (countUp s).cached_y = s.cached_y := rfl

@[simp] theorem countUp_cached_z (s : NucleonCollection)  :
    (countUp s).cached_z = s.cached_z := rfl

@[simp] theorem countUp_heap (s : NucleonCollection)  :
    (countUp s).heap = s.heap := rfl

@[simp] theorem countDown_likelihood (s : NucleonCollection)  :
    (countDown s).likelihood = s.likelihood := rfl

@[simp] theorem countDown_units (s : NucleonCollection)  :
    (countDown s).units = s.units := rfl

@[simp] theorem countDown_length (s : NucleonCollection)  :
    (countDown s).length = s.length := rfl

@[simp] theorem countDown_cube_length (s : NucleonCollection)  :
    (countDown s).cube_length = s.cube_length := rfl

@[simp] theorem countDown_pairwise_units (s : NucleonCollection)  :
    (countDown s).pairwise_units = s.pairwise_units := rfl

@[simp] theorem countDown_cubes (s : NucleonCollection)  :
    (countDown s).cubes = s.cubes := rfl

@[simp] theorem countDown_ordered (s : NucleonCollection)  :
    (countDown s).ordered = s.ordered := rfl

@[simp] theorem countDown_recording (s : NucleonCollection)  :
    (countDown s).recording = s.recording := rfl

@[simp] theorem countDown_cached_likelihoods (s : NucleonCollection)  :
    (countDown s).cached_likelihoods = s.cached_likelihoods := rfl

@[simp] theorem countDown_cached_nucleons (s : NucleonCollection)  :
    (countDown s).cached_nucleons = s.cached_nucleons := rfl

@[simp] theorem countDown_cached_x (s : NucleonCollection)  :
    (countDown s).cached_x = s.cached_x := rfl

@[simp] theorem countDown_cached_y (s : NucleonCollection)  :
    (countDown s).cached_y = s.cached_y := rfl

@[simp] theorem countDown_cached_z (s : NucleonCollection)  :
    (countDown s).cached_z = s.cached_z := rfl

@[simp] theorem countDown_heap (s : NucleonCollection)  :
    (countDown s).heap = s.heap := rfl

@[simp] theorem store_heap_same (s : NucleonCollection) (p : Nat) (n : Nucleon) :
    (s.store p n).heap p = n := by
  simp [NucleonCollection.store]

@[simp] theorem store_heap_ne (s : NucleonCollection) (p q : Nat) (n : Nucleon) (h : q ≠ p) :
    (s.store p n).heap q = s.heap q := by
  simp [NucleonCollection.store, Function.update, h]

theorem store_heap (s : NucleonCollection) (p q : Nat) (n : Nucleon) :
    (s.store p n).heap q = if q = p then n else s.heap q := by
  by_cases h : q = p
  · subst h; simp
  · simp [h]

@[simp] theorem setCube_cubeAt_same (s : NucleonCollection) (b : Int × Int × Int) (l : List Nat) :
    (s.setCube b l).cubeAt b = l := by
  simp [NucleonCollection.setCube, NucleonCollection.cubeAt]

@[simp] theorem setCube_cubeAt_ne (s : NucleonCollection) (b c : Int × Int × Int) (l : List Nat)
    (h : c ≠ b) : (s.setCube b l).cubeAt c = s.cubeAt c := by
  simp [NucleonCollection.setCube, NucleonCollection.cubeAt, h]

@[simp] theorem store_cubeAt (s : NucleonCollection) (p : Nat) (n : Nucleon) (c : Int × Int × Int) :
    (s.store p n).cubeAt c = s.cubeAt c := rfl

theorem cubes_eq_cubeAt (s : NucleonCollection) (i j k : Int) : s.cubes i j k = s.cubeAt (i, j, k) :=
  rfl

theorem likelihood_resetStep (s : NucleonCollection) (p : Nat) :
    (resetStep s p).likelihood = s.likelihood := rfl

theorem journal_resetStep (s : NucleonCollection) (p : Nat) :
    journal (resetStep s p) = journal s := rfl

theorem grid_resetStep (s : NucleonCollection) (p : Nat) : grid (resetStep s p) = grid s := rfl

theorem grid_Reset (s : NucleonCollection) (d : Bool) : grid (Reset s d) = grid s := by
  unfold Reset
  exact foldl_keep grid resetStep grid_resetStep s.ordered s

theorem likelihood_splice (s : NucleonCollection) (p pos : Nat) :
    (splice s p pos).likelihood = s.likelihood := rfl

theorem likelihood_locate (s : NucleonCollection) (p : Nat) :
    (locate s p).likelihood = s.likelihood := rfl

theorem particle_locate (s : NucleonCollection) (p : Nat) :
    ((locate s p).heap p).toParticle = (s.heap p).toParticle := by
  simp [locate, NucleonCollection.setCube]

theorem particle_splice (s : NucleonCollection) (p pos : Nat) :
    ((splice s p pos).heap p).toParticle =
      { (s.heap p).toParticle with x := bringAxis s.length (s.heap p).x,
                                   y := bringAxis s.length (s.heap p).y,
                                   z := bringAxis s.length (s.heap p).z } := by
  simp [splice, BringInsideRegion]

theorem likelihood_adopt (L : Likelihoods) (s : NucleonCollection) (p : Nat) :
    (adopt L s p).likelihood = s.likelihood * L.f1 (s.heap p).toParticle := rfl

theorem likelihood_register (L : Likelihoods) (s : NucleonCollection) (p pos : Nat) :
    (register L s p pos).likelihood = s.likelihood *
      L.f1 { (s.heap p).toParticle with x := bringAxis s.length (s.heap p).x,
                                        y := bringAxis s.length (s.heap p).y,
                                        z := bringAxis s.length (s.heap p).z } := by
  unfold register
  rw [likelihood_adopt, particle_locate, particle_splice, likelihood_locate, likelihood_splice]

theorem pairwise_units_eq_of_grid {s t : NucleonCollection} (h : grid s = grid t) :
    s.pairwise_units = t.pairwise_units := by
  have := congrArg (fun g => g.2.2.2) h
  exact this

theorem length_eq_of_grid {s t : NucleonCollection} (h : grid s = grid t) :
    s.length = t.length := by
  have := congrArg (fun g => g.2.1) h
  exact this

theorem units_eq_of_grid {s t : NucleonCollection} (h : grid s = grid t) :
    s.units = t.units := by
  have := congrArg (fun g => g.1) h
  exact this

theorem cube_length_eq_of_grid {s t : NucleonCollection} (h : grid s = grid t) :
    s.cube_length = t.cube_length := by
  have := congrArg (fun g => g.2.2.1) h
  exact this

/-- C20: `Reset` sets the count to 0 and empties the ordered list but leaves the
likelihood, the journal stacks and the recording flag as they were; with no
pair range (`pairwise_units = 0`) a following `AddNucleon` multiplies the old
likelihood by the single factor of the added nucleon. -/
theorem Reset_keeps_likelihood (L : Likelihoods) (s : NucleonCollection) (d : Bool) (p : Nat)
    (v : Particle) :
    (Reset s d).nucleon_count = 0 ∧ (Reset s d).ordered = [] ∧
      (Reset s d).likelihood = s.likelihood ∧ journal (Reset s d) = journal s ∧
      (s.pairwise_units = 0 →
        (AddNucleon L (Reset s d) p v).likelihood = s.likelihood *
          L.f1 { v with x := bringAxis s.length v.x, y := bringAxis s.length v.y,
                        z := bringAxis s.length v.z }) := by
  have hl : (Reset s d).likelihood = s.likelihood := by
    unfold Reset
    exact foldl_keep (fun t => t.likelihood) resetStep likelihood_resetStep s.ordered s
  have hj : journal (Reset s d) = journal s := by
    unfold Reset
    exact foldl_keep journal resetStep journal_resetStep s.ordered s
  refine ⟨rfl, rfl, hl, hj, fun hP => ?_⟩
  have hg := grid_Reset s d
  unfold AddNucleon InsertNucleon
  rw [InsertExistingNucleon_eq]
  have hP2 : (register L ((Reset s d).store p (newNucleon v)) p (Reset s d).ordered.length).pairwise_units = 0 := by
    rw [pairwise_units_eq_of_grid (grid_register _ _ _ _), store_pairwise_units,
      pairwise_units_eq_of_grid hg, hP]
  rw [if_pos hP2, countUp_likelihood, likelihood_register]
  simp only [store_likelihood, store_length, store_heap_same, hl, length_eq_of_grid hg]
  rfl

/-- C20 (instance): after scenario S3 (likelihood 1.03) with no pair range, `Reset`
followed by `AddNucleon` leaves the likelihood at 1.03. -/
theorem Reset_keeps_likelihood_witness :
    (AddNucleon scenarioLikelihoods (Reset { scenarioS3 with pairwise_units := 0 } true) 3
      (particleAt 0 0 0)).likelihood = 103 / 100 := by
  have h := (Reset_keeps_likelihood scenarioLikelihoods { scenarioS3 with pairwise_units := 0 }
    true 3 (particleAt 0 0 0)).2.2.2.2 rfl
  rw [h]
  decide!

/-- C12 (failing input): with `U = 3`, `cube_length = 1` the coordinate `-4` has
`floor + U = -1`; `FindCube` writes index 3, while the non-negative residue of
`-1` modulo `2U = 6` is 5.  The input is reached by `SetNucleonPosition`, which
hands the raw target to `FindCube`: the only member, moved from the origin to
`x = -4`, stays a member with `x = -4` and the cached index 3. -/
theorem FindCube_residue_fails :
    (FindCube (construct 0 3 3 emptyHeap) (-4) 0 0).1 = 3 ∧
      (⌊(-4 : ℚ) / (construct 0 3 3 emptyHeap).cube_length⌋ + 3) % (2 * 3) = 5 ∧
      ((SetNucleonPosition defaultLikelihoods
        (AddNucleon defaultLikelihoods (construct 0 3 3 emptyHeap) 1 (particleAt 0 0 0))
        1 (-4) 0 0).heap 1).x = -4 ∧
      ((SetNucleonPosition defaultLikelihoods
        (AddNucleon defaultLikelihoods (construct 0 3 3 emptyHeap) 1 (particleAt 0 0 0))
        1 (-4) 0 0).heap 1).cube_i = 3 ∧
      (SetNucleonPosition defaultLikelihoods
        (AddNucleon defaultLikelihoods (construct 0 3 3 emptyHeap) 1 (particleAt 0 0 0))
        1 (-4) 0 0).ordered = [1] := by
  decide!

/-- The range in which `FindCube` computes the residue: when `2U` fits an `int`
and, on each axis, `floor(coord / cube_length) + U` is not negative (and below
`2^32`), `FindCube` yields on each axis the index
`(floor(coord / cube_length) + U) mod 2U`, which lies in `[0, 2U)`. -/
theorem FindCube_residue (s : NucleonCollection) (x y z : ℚ) (hU : 0 < s.units)
    (hU2 : 2 * s.units ≤ 2147483648)
    (hx0 : 0 ≤ ⌊x / s.cube_length⌋ + (s.units : Int))
    (hx1 : ⌊x / s.cube_length⌋ + (s.units : Int) < 4294967296)
    (hy0 : 0 ≤ ⌊y / s.cube_length⌋ + (s.units : Int))
    (hy1 : ⌊y / s.cube_length⌋ + (s.units : Int) < 4294967296)
    (hz0 : 0 ≤ ⌊z / s.cube_length⌋ + (s.units : Int))
    (hz1 : ⌊z / s.cube_length⌋ + (s.units : Int) < 4294967296) :
    FindCube s x y z =
        ((⌊x / s.cube_length⌋ + (s.units : Int)) % (2 * (s.units : Int)),
         (⌊y / s.cube_length⌋ + (s.units : Int)) % (2 * (s.units : Int)),
         (⌊z / s.cube_length⌋ + (s.units : Int)) % (2 * (s.units : Int))) ∧
      (0 ≤ (FindCube s x y z).1 ∧ (FindCube s x y z).1 < 2 * (s.units : Int)) ∧
      (0 ≤ (FindCube s x y z).2.1 ∧ (FindCube s x y z).2.1 < 2 * (s.units : Int)) ∧
      (0 ≤ (FindCube s x y z).2.2 ∧ (FindCube s x y z).2.2 < 2 * (s.units : Int)) := by
  obtain ⟨ex, ax, bx⟩ := findIndex_of_inRange s.units s.cube_length x hU hU2 hx0 hx1
  obtain ⟨ey, ay, bY⟩ := findIndex_of_inRange s.units s.cube_length y hU hU2 hy0 hy1
  obtain ⟨ez, az, bz⟩ := findIndex_of_inRange s.units s.cube_length z hU hU2 hz0 hz1
  refine ⟨?_, ⟨ax, bx⟩, ⟨ay, bY⟩, ⟨az, bz⟩⟩
  unfold FindCube
  rw [ex, ey, ez]

/-- An instance of `FindCube_residue`: in the grid of the scenarios the point
(0.3, -0.9, 1) lies in the bin (1, 0, 0). -/
theorem FindCube_residue_witness :
    FindCube scenarioEmpty (3 / 10) (-9 / 10) 1 = (1, 0, 0) := by
  have h := (FindCube_residue scenarioEmpty (3 / 10) (-9 / 10) 1 (by decide!) (by decide!)
    (by decide!) (by decide!) (by decide!) (by decide!) (by decide!) (by decide!)).1
  rw [h]
  decide!

/-- C13 (counterexample): with `L = 1` a coordinate equal to `+L` is left at `+L`
by `BringInsideRegion`; it is neither below `L` nor folded to `-L`. -/
theorem BringInsideRegion_keeps_upper_bound :
    ((BringInsideRegion (scenarioEmpty.store 1 (newNucleon (particleAt 1 0 0))) 1).heap 1).x = 1 ∧
      scenarioEmpty.length = 1 := by
  decide!

/-- C13 (amended): for `L > 0` the loops of `BringInsideRegion` stop (any
number of turns beyond `downTurns`, `upTurns` gives the same value) and leave on
every axis a coordinate `c'` with `-L ≤ c' ≤ L` that differs from the old one by
an integer multiple of `2L`; a coordinate already in `[-L, L]`, `+L` included,
is unchanged. -/
theorem BringInsideRegion_closed (s : NucleonCollection) (p : Nat) (hL : 0 < s.length) :
    (-s.length ≤ ((BringInsideRegion s p).heap p).x ∧ ((BringInsideRegion s p).heap p).x ≤ s.length ∧
        ∃ k : ℤ, ((BringInsideRegion s p).heap p).x - (s.heap p).x = k * (2 * s.length)) ∧
      (-s.length ≤ ((BringInsideRegion s p).heap p).y ∧ ((BringInsideRegion s p).heap p).y ≤ s.length ∧
        ∃ k : ℤ, ((BringInsideRegion s p).heap p).y - (s.heap p).y = k * (2 * s.length)) ∧
      (-s.length ≤ ((BringInsideRegion s p).heap p).z ∧ ((BringInsideRegion s p).heap p).z ≤ s.length ∧
        ∃ k : ℤ, ((BringInsideRegion s p).heap p).z - (s.heap p).z = k * (2 * s.length)) ∧
      (∀ (c : ℚ) (fuel1 fuel2 : Nat), downTurns s.length c ≤ fuel1 →
        upTurns s.length (foldDown s.length fuel1 c) ≤ fuel2 →
        foldUp s.length fuel2 (foldDown s.length fuel1 c) = bringAxis s.length c) ∧
      (∀ c : ℚ, -s.length ≤ c → c ≤ s.length → bringAxis s.length c = c) := by
  have e : ∀ t : NucleonCollection, (BringInsideRegion t p).heap p =
      { t.heap p with x := bringAxis t.length (t.heap p).x, y := bringAxis t.length (t.heap p).y,
                      z := bringAxis t.length (t.heap p).z } := by
    intro t; simp [BringInsideRegion]
  rw [e]
  exact ⟨bringAxis_spec _ _ hL, bringAxis_spec _ _ hL, bringAxis_spec _ _ hL,
    fun c f1 f2 h1 h2 => bringAxis_stable _ c hL f1 f2 h1 h2,
    fun c h1 h2 => bringAxis_of_inside _ c h1 h2⟩

/-- C13 (instance): with `L = 1` the coordinate 2.5 is brought to 0.5. -/
theorem BringInsideRegion_closed_witness :
    ((BringInsideRegion (scenarioEmpty.store 1 (newNucleon (particleAt (5 / 2) 0 0))) 1).heap 1).x
        = 1 / 2 ∧
      -1 ≤ ((BringInsideRegion (scenarioEmpty.store 1 (newNucleon (particleAt (5 / 2) 0 0))) 1).heap
        1).x := by
  have h := BringInsideRegion_closed (scenarioEmpty.store 1 (newNucleon (particleAt (5 / 2) 0 0))) 1
    (by decide!)
  exact ⟨by decide!, h.1.1⟩

/-- C15 (failing input): with three members `[1, 2, 3]`, index `-1` is reduced in
`unsigned int` to `4294967295 % 3 = 0`, so `GetNucleon` returns the first member
(address 1) and not the last one (address 3, position `-1 mod 3 = 2`). -/
theorem GetNucleon_minus_one :
    GetNucleon (AddNucleon defaultLikelihoods (AddNucleon defaultLikelihoods
      (AddNucleon defaultLikelihoods (construct 0 1 1 emptyHeap) 1 (particleAt 0 0 0)) 2
      (particleAt 0 0 0)) 3 (particleAt 0 0 0)) (-1) = some 1 ∧
    (AddNucleon defaultLikelihoods (AddNucleon defaultLikelihoods (AddNucleon defaultLikelihoods
      (construct 0 1 1 emptyHeap) 1 (particleAt 0 0 0)) 2 (particleAt 0 0 0)) 3
      (particleAt 0 0 0)).ordered.get? ((-1 : Int) % 3).toNat = some 3 := by
  decide!

/-- C16 (failing input): with `U = 3`, `L = 3` the loop counter `i = -1` (reached
from the cached index 0 with `pairwise_units = 1`) examines bin 3 instead of
bin `-1 + 2U = 5`, and the offset is `-2L * 715827881` instead of `+2L`. -/
theorem offset_negative_index :
    (-1 : Int) ∈ window 0 1 ∧ wrapIndex 3 (-1) = 3 ∧
      offset (construct 1 3 3 emptyHeap) (-1) = -2 * 3 * 715827881 := by
  decide!

/-- C19 (failing input): with `U = 3` and `pairwise_units = 2` (so `2P+1 = 5 ≤ 6 = 2U`)
and cached index 1, the loop counters `-1, 0, 1, 2, 3` examine the bins
`3, 0, 1, 2, 3`: bin 3 is visited twice. -/
theorem window_wrap_collision :
    2 * 2 + 1 ≤ 2 * 3 ∧ (window 1 2).map (wrapIndex 3) = [3, 0, 1, 2, 3] := by
  decide!

/-! ## Frame lemmas: the ordered list, the counter and the bins -/

theorem layout_store (s : NucleonCollection) (p : Nat) (n : Nucleon) : layout (s.store p n) = layout s := rfl

theorem layout_pairStep (L : Likelihoods) (p : Nat) (s : NucleonCollection) (m : Nat) :
    layout (pairStep L p s m) = layout s := by
  unfold pairStep; split <;> rfl

theorem layout_stepK (L : Likelihoods) (p : Nat) (i j : Int) (s : NucleonCollection) (k : Int) :
    layout (stepK L p i j s k) = layout s := by
  simp only [stepK, layout_store, foldl_keep layout _ (layout_pairStep L p)]

theorem layout_stepJ (L : Likelihoods) (p : Nat) (i : Int) (s : NucleonCollection) (j : Int) :
    layout (stepJ L p i s j) = layout s := by
  simp only [stepJ, layout_store, foldl_keep layout _ (layout_stepK L p i _)]

theorem layout_stepI (L : Likelihoods) (p : Nat) (s : NucleonCollection) (i : Int) :
    layout (stepI L p s i) = layout s := by
  simp only [stepI, layout_store, foldl_keep layout _ (layout_stepJ L p _)]

theorem layout_neighbourLoop (L : Likelihoods) (p : Nat) (s : NucleonCollection) :
    layout (neighbourLoop L p s) = layout s :=
  foldl_keep layout _ (layout_stepI L p) _ _

theorem layout_adopt (L : Likelihoods) (s : NucleonCollection) (p : Nat) :
    layout (adopt L s p) = layout s := rfl

theorem layout_removeStep (p : Nat) (s : NucleonCollection) (e : Nat × ℚ) :
    layout (removeStep p s e) = layout s := rfl

theorem layout_unpair (s : NucleonCollection) (p : Nat) : layout (unpair s p) = layout s := by
  unfold unpair
  simp only [layout_store]
  rw [foldl_keep layout _ (layout_removeStep p)]; rfl

theorem layout_moveStep (L : Likelihoods) (p : Nat) (s : NucleonCollection) (t m : Nat) (v : ℚ) :
    layout (moveStep L p s t m v) = layout s := rfl

theorem layout_moveLoop (L : Likelihoods) (p : Nat) (es : List (Nat × ℚ)) :
    ∀ (t : Nat) (s : NucleonCollection), layout (moveLoop L p es t s) = layout s := by
  induction es with
  | nil => intro t s; rfl
  | cons e es ih => intro t s; rw [moveLoop, ih, layout_moveStep]

theorem layout_refreshSingle (L : Likelihoods) (s : NucleonCollection) (p : Nat) :
    layout (refreshSingle L s p) = layout s := rfl

theorem layout_sameBin (L : Likelihoods) (s : NucleonCollection) (p : Nat) :
    layout (sameBin L s p) = layout s := by
  rw [sameBin_eq, layout_moveLoop, layout_refreshSingle]

theorem layout_writePosition (s : NucleonCollection) (p : Nat) (x y z : ℚ) :
    layout (writePosition s p x y z) = layout s := rfl

theorem layout_record (s : NucleonCollection) (p : Nat) : layout (record s p) = layout s := by
  unfold record; split <;> rfl

theorem ordered_eq_of_layout {s t : NucleonCollection} (h : layout s = layout t) :
    s.ordered = t.ordered := congrArg (fun g => g.1) h

theorem count_eq_of_layout {s t : NucleonCollection} (h : layout s = layout t) :
    s.nucleon_count = t.nucleon_count := congrArg (fun g => g.2.1) h

theorem cubes_eq_of_layout {s t : NucleonCollection} (h : layout s = layout t) :
    s.cubes = t.cubes := congrArg (fun g => g.2.2) h

theorem recording_eq_of_journal {s t : NucleonCollection} (h : journal s = journal t) :
    s.recording = t.recording := congrArg (fun g => g.1) h

theorem cached_likelihoods_eq_of_journal {s t : NucleonCollection} (h : journal s = journal t) :
    s.cached_likelihoods = t.cached_likelihoods := congrArg (fun g => g.2.1) h

theorem cached_nucleons_eq_of_journal {s t : NucleonCollection} (h : journal s = journal t) :
    s.cached_nucleons = t.cached_nucleons := congrArg (fun g => g.2.2.1) h

theorem cached_x_eq_of_journal {s t : NucleonCollection} (h : journal s = journal t) :
    s.cached_x = t.cached_x := congrArg (fun g => g.2.2.2.1) h

theorem cached_y_eq_of_journal {s t : NucleonCollection} (h : journal s = journal t) :
    s.cached_y = t.cached_y := congrArg (fun g => g.2.2.2.2.1) h

theorem cached_z_eq_of_journal {s t : NucleonCollection} (h : journal s = journal t) :
    s.cached_z = t.cached_z := congrArg (fun g => g.2.2.2.2.2) h

theorem revertLoop_journal (L : Likelihoods) : ∀ (fuel : Nat) (s : NucleonCollection)
    (l : RevertLocals), s.recording = false → s.cached_nucleons.length ≤ fuel →
    s.cached_likelihoods.length = s.cached_nucleons.length →
    (revertLoop L fuel s l).1.recording = false ∧ (revertLoop L fuel s l).1.cached_nucleons = [] ∧
      (revertLoop L fuel s l).2.last_likelihood = s.cached_likelihoods.getLastD l.last_likelihood := by
  intro fuel
  induction fuel with
  | zero =>
    intro s l hr hf hl
    have h0 : s.cached_nucleons = [] := List.length_eq_zero.1 (Nat.le_zero.1 hf)
    have h1 : s.cached_likelihoods = [] := by
      apply List.length_eq_zero.1; rw [hl, h0]; rfl
    simp [revertLoop, hr, h0, h1]
  | succ n ih =>
    intro s l hr hf hl
    cases hc : s.cached_nucleons with
    | nil =>
      have h1 : s.cached_likelihoods = [] := by
        apply List.length_eq_zero.1; rw [hl, hc]; rfl
      simp [revertLoop, hr, hc, h1]
    | cons next rest =>
      cases hcl : s.cached_likelihoods with
      | nil => rw [hc, hcl] at hl; simp at hl
      | cons a as =>
        rw [hc, hcl] at hl
        rw [hc] at hf
        simp only [revertLoop, hc]
        generalize hs2 : (match l.last_nucleon with
          | some last => if next ≠ last then
              SetNucleonPosition L { s with cached_nucleons := rest } last l.last_x l.last_y l.last_z
            else { s with cached_nucleons := rest }
          | none => { s with cached_nucleons := rest }) = s2
        have hj : journal s2 = journal { s with cached_nucleons := rest } := by
          rw [← hs2]
          cases l.last_nucleon with
          | none => rfl
          | some last =>
            simp only []
            split
            · exact journal_SetNucleonPosition_off L _ _ _ _ _ hr
            · rfl
        have e1 : s2.recording = false := by rw [recording_eq_of_journal hj]; exact hr
        have e2 : s2.cached_nucleons = rest := cached_nucleons_eq_of_journal hj
        have e3 : s2.cached_likelihoods = a :: as := by
          rw [cached_likelihoods_eq_of_journal hj]; exact hcl
        obtain ⟨r1, r2, r3⟩ := ih
          { s2 with cached_likelihoods := s2.cached_likelihoods.tail, cached_x := s2.cached_x.tail,
                    cached_y := s2.cached_y.tail, cached_z := s2.cached_z.tail }
          { last_nucleon := some next, last_likelihood := s2.cached_likelihoods.headD 0,
            last_x := s2.cached_x.headD 0, last_y := s2.cached_y.headD 0,
            last_z := s2.cached_z.headD 0 }
          e1 (by simp only [e2]; simp at hf; exact hf) (by simp only [e2, e3]; simp at hl ⊢; exact hl)
        refine ⟨r1, r2, ?_⟩
        rw [r3]
        simp only [e3, List.tail_cons, List.headD_cons]
        cases as <;> simp [List.getLastD]
theorem revertLoop_emptied (L : Likelihoods) : ∀ (fuel : Nat) (s : NucleonCollection)
    (l : RevertLocals), s.recording = false → s.cached_nucleons.length ≤ fuel →
    (revertLoop L fuel s l).1.recording = false ∧ (revertLoop L fuel s l).1.cached_nucleons = [] := by
  intro fuel
  induction fuel with
  | zero =>
    intro s l hr hf
    have h0 : s.cached_nucleons = [] := List.length_eq_zero.1 (Nat.le_zero.1 hf)
    simp [revertLoop, hr, h0]
  | succ n ih =>
    intro s l hr hf
    cases hc : s.cached_nucleons with
    | nil => simp [revertLoop, hr, hc]
    | cons next rest =>
      rw [hc] at hf
      simp only [revertLoop, hc]
      generalize hs2 : (match l.last_nucleon with
        | some last => if next ≠ last then
            SetNucleonPosition L { s with cached_nucleons := rest } last l.last_x l.last_y l.last_z
          else { s with cached_nucleons := rest }
        | none => { s with cached_nucleons := rest }) = s2
      have hj : journal s2 = journal { s with cached_nucleons := rest } := by
        rw [← hs2]
        cases l.last_nucleon with
        | none => rfl
        | some last =>
          simp only []
          split
          · exact journal_SetNucleonPosition_off L _ _ _ _ _ hr
          · rfl
      have e1 : s2.recording = false := by rw [recording_eq_of_journal hj]; exact hr
      have e2 : s2.cached_nucleons = rest := cached_nucleons_eq_of_journal hj
      exact ih
        { s2 with cached_likelihoods := s2.cached_likelihoods.tail, cached_x := s2.cached_x.tail,
                  cached_y := s2.cached_y.tail, cached_z := s2.cached_z.tail }
        { last_nucleon := some next, last_likelihood := s2.cached_likelihoods.headD 0,
          last_x := s2.cached_x.headD 0, last_y := s2.cached_y.headD 0,
          last_z := s2.cached_z.headD 0 }
        e1 (by simp only [e2]; simp at hf; exact hf)

theorem Revert_of_empty (L : Likelihoods) (s : NucleonCollection) (h : s.cached_nucleons = []) :
    Revert L s = (s, s.likelihood) := by
  unfold Revert
  rw [if_pos (by rw [h]; rfl)]

theorem Revert_cached_nucleons (L : Likelihoods) (s : NucleonCollection) :
    (Revert L s).1.cached_nucleons = [] := by
  by_cases h : s.cached_nucleons.length = 0
  · rw [Revert_of_empty L s (List.length_eq_zero.1 h)]
    exact List.length_eq_zero.1 h
  · unfold Revert
    rw [if_neg h]
    simp only []
    obtain ⟨r1, r2⟩ := revertLoop_emptied L s.cached_nucleons.length { s with recording := false }
      ⟨none, 0, 0, 0, 0⟩ rfl (le_refl _)
    generalize revertLoop L s.cached_nucleons.length { s with recording := false }
      ⟨none, 0, 0, 0, 0⟩ = r at r1 r2 ⊢
    cases hl : r.2.last_nucleon with
    | none => exact r2
    | some last =>
      simp only []
      rw [cached_nucleons_eq_of_journal (journal_SetNucleonPosition_off L _ _ _ _ _ r1)]
      exact r2

theorem Revert_snd (L : Likelihoods) (s : NucleonCollection) :
    (Revert L s).2 = (Revert L s).1.likelihood := by
  unfold Revert
  split <;> rfl

/-- C9: `Revert` is idempotent: in every state, a second `Revert` right after the
first leaves the whole collection as the first left it and returns the same
likelihood; with an empty journal `Revert` changes nothing. -/
theorem Revert_idempotent (L : Likelihoods) (s : NucleonCollection) :
    Revert L (Revert L s).1 = Revert L s ∧
      (s.cached_nucleons = [] → Revert L s = (s, s.likelihood)) := by
  refine ⟨?_, Revert_of_empty L s⟩
  rw [Revert_of_empty L _ (Revert_cached_nucleons L s)]
  exact Prod.ext rfl (Revert_snd L s).symm

theorem getLastD_irrel {α : Type} (l : List α) (h : l ≠ []) (d e : α) :
    l.getLastD d = l.getLastD e := by
  cases l with
  | nil => exact absurd rfl h
  | cons a as => rfl

theorem applyMoves_journal_likelihood (L : Likelihoods) (c : ℚ) (moves : List (Nat × ℚ × ℚ × ℚ)) :
    ∀ t : NucleonCollection, t.recording = true →
      t.cached_likelihoods.length = t.cached_nucleons.length →
      t.cached_likelihoods.getLastD t.likelihood = c →
      (applyMoves L t moves).recording = true ∧
      (applyMoves L t moves).cached_likelihoods.length =
        (applyMoves L t moves).cached_nucleons.length ∧
      (applyMoves L t moves).cached_likelihoods.getLastD (applyMoves L t moves).likelihood = c := by
  induction moves with
  | nil => intro t h1 h2 h3; exact ⟨h1, h2, h3⟩
  | cons m ms ih =>
    intro t h1 h2 h3
    have hj := journal_SetNucleonPosition L t m.1 m.2.1 m.2.2.1 m.2.2.2
    have hrec : record t m.1 = CacheState t m.1 := by unfold record; rw [if_pos h1]
    rw [hrec] at hj
    have e1 := recording_eq_of_journal hj
    have e2 := cached_likelihoods_eq_of_journal hj
    have e3 := cached_nucleons_eq_of_journal hj
    show _ ∧ _ ∧ _
    unfold applyMoves
    rw [List.foldl_cons]
    refine ih _ (e1.trans h1) ?_ ?_
    · rw [e2, e3]; simp [CacheState, h2]
    · rw [e2]
      show (t.likelihood :: t.cached_likelihoods).getLastD _ = c
      rw [← h3]
      cases t.cached_likelihoods <;> rfl

/-- C2: `Revert` restores the likelihood exactly: after `Checkpoint()` returned
`s` and any number of `SetNucleonPosition` calls, `Revert()` leaves the
likelihood equal to `s` and returns `s`, whatever the callbacks are. -/
theorem Revert_restores_likelihood (L : Likelihoods) (s : NucleonCollection)
    (moves : List (Nat × ℚ × ℚ × ℚ)) :
    (Revert L (applyMoves L (Checkpoint s).1 moves)).1.likelihood = (Checkpoint s).2 ∧
      (Revert L (applyMoves L (Checkpoint s).1 moves)).2 = (Checkpoint s).2 := by
  obtain ⟨h1, h2, h3⟩ := applyMoves_journal_likelihood L s.likelihood moves (Checkpoint s).1
    rfl rfl rfl
  generalize applyMoves L (Checkpoint s).1 moves = t at h1 h2 h3
  have key : (Revert L t).1.likelihood = s.likelihood := by
    by_cases h : t.cached_nucleons.length = 0
    · have h0 := List.length_eq_zero.1 h
      rw [Revert_of_empty L t h0]
      have : t.cached_likelihoods = [] := by
        apply List.length_eq_zero.1; rw [h2]; exact h
      rw [this] at h3
      exact h3
    · obtain ⟨r1, r2, r3⟩ := revertLoop_journal L t.cached_nucleons.length
        { t with recording := false } ⟨none, 0, 0, 0, 0⟩ rfl (le_refl _) h2
      unfold Revert
      rw [if_neg h]
      show (revertLoop L t.cached_nucleons.length { t with recording := false }
        ⟨none, 0, 0, 0, 0⟩).2.last_likelihood = _
      rw [r3]
      have hne : t.cached_likelihoods ≠ [] := by
        intro h'; apply h; rw [← h2, h']; rfl
      rw [← h3]
      exact getLastD_irrel _ hne _ _
  exact ⟨key, (Revert_snd L t).trans key⟩

theorem insertIdx_indexOf_erase (p : Nat) : ∀ l : List Nat, p ∈ l →
    (l.erase p).insertIdx (l.indexOf p) p = l := by
  intro l
  induction l with
  | nil => intro h; simp at h
  | cons a l ih =>
    intro h
    by_cases hap : a = p
    · subst hap
      simp [List.insertIdx]
    · have hmem : p ∈ l := by
        rcases List.mem_cons.1 h with h' | h'
        · exact absurd h'.symm hap
        · exact h'
      have hne : p ≠ a := fun h' => hap h'.symm
      rw [List.erase_cons_tail (by simpa using hap), List.indexOf_cons_ne _ hap]
      simp only [List.insertIdx_succ_cons]
      rw [ih hmem]

theorem layout_splice (s : NucleonCollection) (p pos : Nat) :
    layout (splice s p pos) = (s.ordered.insertIdx pos p, s.nucleon_count, s.cubes) := rfl

theorem ordered_locate (s : NucleonCollection) (p : Nat) : (locate s p).ordered = s.ordered := rfl

theorem count_locate (s : NucleonCollection) (p : Nat) :
    (locate s p).nucleon_count = s.nucleon_count := rfl

theorem ordered_register (L : Likelihoods) (s : NucleonCollection) (p pos : Nat) :
    (register L s p pos).ordered = s.ordered.insertIdx pos p := by
  unfold register
  rw [ordered_eq_of_layout (layout_adopt L _ p), ordered_locate]; rfl

theorem count_register (L : Likelihoods) (s : NucleonCollection) (p pos : Nat) :
    (register L s p pos).nucleon_count = s.nucleon_count := by
  unfold register
  rw [count_eq_of_layout (layout_adopt L _ p), count_locate]; rfl

theorem ordered_InsertExistingNucleon (L : Likelihoods) (s : NucleonCollection) (p pos : Nat) :
    (InsertExistingNucleon L s p pos).ordered = s.ordered.insertIdx pos p := by
  rw [InsertExistingNucleon_eq]
  split
  · rw [countUp_ordered, ordered_register]
  · rw [countUp_ordered, ordered_eq_of_layout (layout_neighbourLoop L p _), ordered_register]

theorem count_countUp (s : NucleonCollection) :
    (countUp s).nucleon_count = (s.nucleon_count + 1) % 4294967296 := rfl

theorem count_InsertExistingNucleon (L : Likelihoods) (s : NucleonCollection) (p pos : Nat) :
    (InsertExistingNucleon L s p pos).nucleon_count = (s.nucleon_count + 1) % 4294967296 := by
  rw [InsertExistingNucleon_eq]
  split
  · rw [count_countUp, count_register]
  · rw [count_countUp, count_eq_of_layout (layout_neighbourLoop L p _), count_register]

theorem ordered_RemoveNucleonFromCube (s : NucleonCollection) (p : Nat) :
    (RemoveNucleonFromCube s p).ordered = s.ordered := rfl

theorem count_RemoveNucleonFromCube (s : NucleonCollection) (p : Nat) :
    (RemoveNucleonFromCube s p).nucleon_count = s.nucleon_count := rfl

theorem RemoveNucleonFromOrdered_of_mem (s : NucleonCollection) (p : Nat) (h : p ∈ s.ordered) :
    RemoveNucleonFromOrdered s p =
      ({ countDown s with ordered := s.ordered.erase p }, s.ordered.indexOf p) := by
  unfold RemoveNucleonFromOrdered; rw [if_pos h]

theorem RemoveNucleonFromOrdered_of_not_mem (s : NucleonCollection) (p : Nat) (h : p ∉ s.ordered) :
    RemoveNucleonFromOrdered s p = (s, s.ordered.length) := by
  unfold RemoveNucleonFromOrdered; rw [if_neg h]

theorem ordered_pre_RemoveNucleon (s : NucleonCollection) (p : Nat) :
    (RemoveNucleonFromCube (unpair s p) p).ordered = s.ordered := by
  rw [ordered_RemoveNucleonFromCube, ordered_eq_of_layout (layout_unpair s p)]

theorem count_pre_RemoveNucleon (s : NucleonCollection) (p : Nat) :
    (RemoveNucleonFromCube (unpair s p) p).nucleon_count = s.nucleon_count := by
  rw [count_RemoveNucleonFromCube, count_eq_of_layout (layout_unpair s p)]

theorem RemoveNucleon_of_mem (s : NucleonCollection) (p : Nat) (h : p ∈ s.ordered) :
    (RemoveNucleon s p).1.ordered = s.ordered.erase p ∧
      (RemoveNucleon s p).2 = s.ordered.indexOf p ∧
      (RemoveNucleon s p).1.nucleon_count =
        if s.nucleon_count = 0 then 4294967295 else s.nucleon_count - 1 := by
  unfold RemoveNucleon
  have hm : p ∈ (RemoveNucleonFromCube (unpair s p) p).ordered := by
    rw [ordered_pre_RemoveNucleon]; exact h
  rw [RemoveNucleonFromOrdered_of_mem _ _ hm]
  simp only [ordered_pre_RemoveNucleon]
  refine ⟨trivial, trivial, ?_⟩
  show (countDown _).nucleon_count = _
  unfold countDown
  simp only [count_pre_RemoveNucleon]

theorem RemoveNucleon_of_not_mem (s : NucleonCollection) (p : Nat) (h : p ∉ s.ordered) :
    (RemoveNucleon s p).1.ordered = s.ordered ∧ (RemoveNucleon s p).2 = s.ordered.length ∧
      (RemoveNucleon s p).1.nucleon_count = s.nucleon_count := by
  unfold RemoveNucleon
  have hm : p ∉ (RemoveNucleonFromCube (unpair s p) p).ordered := by
    rw [ordered_pre_RemoveNucleon]; exact h
  rw [RemoveNucleonFromOrdered_of_not_mem _ _ hm]
  exact ⟨ordered_pre_RemoveNucleon s p, by rw [ordered_pre_RemoveNucleon],
    count_pre_RemoveNucleon s p⟩

/-- C11: a move never reorders the collection: for a member `p` (and a counter
in the range of `unsigned int`), `SetNucleonPosition` leaves the ordered list
the same sequence and the count unchanged, in the same-bin and in the
cross-bin case. -/
theorem SetNucleonPosition_keeps_order (L : Likelihoods) (s : NucleonCollection) (p : Nat)
    (x y z : ℚ) (hp : p ∈ s.ordered) (hc : s.nucleon_count < 4294967296) :
    (SetNucleonPosition L s p x y z).ordered = s.ordered ∧
      (SetNucleonPosition L s p x y z).nucleon_count = s.nucleon_count := by
  have hw : layout (writePosition (record s p) p x y z) = layout s := by
    rw [layout_writePosition, layout_record]
  rw [SetNucleonPosition_eq]
  split
  · have h := (layout_sameBin L (writePosition (record s p) p x y z) p).trans hw
    exact ⟨ordered_eq_of_layout h, count_eq_of_layout h⟩
  · have hm : p ∈ (writePosition (record s p) p x y z).ordered := by
      rw [ordered_eq_of_layout hw]; exact hp
    obtain ⟨r1, r2, r3⟩ := RemoveNucleon_of_mem _ p hm
    rw [ordered_InsertExistingNucleon, count_InsertExistingNucleon, r1, r2, r3,
      ordered_eq_of_layout hw, count_eq_of_layout hw]
    refine ⟨insertIdx_indexOf_erase p _ hp, ?_⟩
    split <;> omega

/-- C11 (instance): in scenario S3 the cross-bin move of n1 (address 1) to
(-0.5, 0, 0) leaves the ordered list `[1, 2]` and the count 2. -/
theorem SetNucleonPosition_keeps_order_witness :
    (SetNucleonPosition scenarioLikelihoods scenarioS3 1 (-1 / 2) 0 0).ordered = [1, 2] ∧
      (SetNucleonPosition scenarioLikelihoods scenarioS3 1 (-1 / 2) 0 0).nucleon_count = 2 ∧
      FindCube scenarioS3 (-1 / 2) 0 0 ≠ (scenarioS3.heap 1).cube := by
  have h := SetNucleonPosition_keeps_order scenarioLikelihoods scenarioS3 1 (-1 / 2) 0 0
    (by decide!) (by decide!)
  refine ⟨h.1.trans (by decide!), h.2.trans (by decide!), by decide!⟩

theorem body_setPairs (n : Nucleon) (l : List (Nat × ℚ)) :
    Nucleon.body { n with pairwise_likelihoods := l } = n.body := rfl

theorem body_eq_iff (a b : Nucleon) : a.body = b.body ↔
    a.toParticle = b.toParticle ∧ a.cube_i = b.cube_i ∧ a.cube_j = b.cube_j ∧ a.cube_k = b.cube_k ∧
      a.cube = b.cube ∧ a.parent = b.parent ∧ a.single_likelihood = b.single_likelihood := by
  cases a; cases b
  simp [Nucleon.body]

theorem body_pairStep (L : Likelihoods) (p : Nat) (s : NucleonCollection) (m : Nat) (q : Nat) :
    ((pairStep L p s m).heap q).body = (s.heap q).body := by
  unfold pairStep
  by_cases hm : m ≠ p
  · rw [if_pos hm]
    simp only [store_heap, store_likelihood]
    by_cases h1 : q = m
    · subst h1
      rw [if_pos rfl, if_neg hm]
      rfl
    · rw [if_neg h1]
      by_cases h2 : q = p
      · subst h2; rw [if_pos rfl]; rfl
      · rw [if_neg h2]
  · rw [if_neg hm]

theorem body_restore_z (a b : Nucleon) (o : ℚ)
    (h : b.body = Nucleon.body { a with z := a.z + o }) :
    Nucleon.body { b with z := b.z - o } = a.body := by
  rw [body_eq_iff] at h ⊢
  obtain ⟨a1, a2, a3, a4, a5, a6, a7⟩ := h
  refine ⟨?_, a2, a3, a4, a5, a6, a7⟩
  cases a with | mk ap _ _ _ _ _ _ _ => cases b with | mk bp _ _ _ _ _ _ _ =>
  cases ap; cases bp
  simp only [Particle.mk.injEq] at a1 ⊢
  obtain ⟨ex, ey, ez, er, ei⟩ := a1
  exact ⟨ex, ey, by rw [ez]; ring, er, ei⟩

theorem body_restore_y (a b : Nucleon) (o : ℚ)
    (h : b.body = Nucleon.body { a with y := a.y + o }) :
    Nucleon.body { b with y := b.y - o } = a.body := by
  rw [body_eq_iff] at h ⊢
  obtain ⟨a1, a2, a3, a4, a5, a6, a7⟩ := h
  refine ⟨?_, a2, a3, a4, a5, a6, a7⟩
  cases a with | mk ap _ _ _ _ _ _ _ => cases b with | mk bp _ _ _ _ _ _ _ =>
  cases ap; cases bp
  simp only [Particle.mk.injEq] at a1 ⊢
  obtain ⟨ex, ey, ez, er, ei⟩ := a1
  exact ⟨ex, by rw [ey]; ring, ez, er, ei⟩

theorem body_restore_x (a b : Nucleon) (o : ℚ)
    (h : b.body = Nucleon.body { a with x := a.x + o }) :
    Nucleon.body { b with x := b.x - o } = a.body := by
  rw [body_eq_iff] at h ⊢
  obtain ⟨a1, a2, a3, a4, a5, a6, a7⟩ := h
  refine ⟨?_, a2, a3, a4, a5, a6, a7⟩
  cases a with | mk ap _ _ _ _ _ _ _ => cases b with | mk bp _ _ _ _ _ _ _ =>
  cases ap; cases bp
  simp only [Particle.mk.injEq] at a1 ⊢
  obtain ⟨ex, ey, ez, er, ei⟩ := a1
  exact ⟨by rw [ex]; ring, ey, ez, er, ei⟩

theorem body_stepK (L : Likelihoods) (p : Nat) (i j : Int) (s : NucleonCollection) (k : Int)
    (q : Nat) : ((stepK L p i j s k).heap q).body = (s.heap q).body := by
  unfold stepK
  simp only []
  have hf := fun (t : NucleonCollection) (l : List Nat) =>
    foldl_keep (fun u : NucleonCollection => (u.heap q).body) (pairStep L p)
      (fun b a => body_pairStep L p b a q) l t
  by_cases h : q = p
  · subst h
    rw [store_heap_same]
    apply body_restore_z
    rw [hf, store_heap_same]
  · rw [store_heap_ne _ _ _ _ h, hf, store_heap_ne _ _ _ _ h]

theorem body_stepJ (L : Likelihoods) (p : Nat) (i : Int) (s : NucleonCollection) (j : Int)
    (q : Nat) : ((stepJ L p i s j).heap q).body = (s.heap q).body := by
  unfold stepJ
  simp only []
  have hf := fun (t : NucleonCollection) (l : List Int) =>
    foldl_keep (fun u : NucleonCollection => (u.heap q).body) (stepK L p i j)
      (fun b a => body_stepK L p i j b a q) l t
  by_cases h : q = p
  · subst h
    rw [store_heap_same]
    apply body_restore_y
    rw [hf, store_heap_same]
  · rw [store_heap_ne _ _ _ _ h, hf, store_heap_ne _ _ _ _ h]

theorem body_stepI (L : Likelihoods) (p : Nat) (s : NucleonCollection) (i : Int)
    (q : Nat) : ((stepI L p s i).heap q).body = (s.heap q).body := by
  unfold stepI
  simp only []
  have hf := fun (t : NucleonCollection) (l : List Int) =>
    foldl_keep (fun u : NucleonCollection => (u.heap q).body) (stepJ L p i)
      (fun b a => body_stepJ L p i b a q) l t
  by_cases h : q = p
  · subst h
    rw [store_heap_same]
    apply body_restore_x
    rw [hf, store_heap_same]
  · rw [store_heap_ne _ _ _ _ h, hf, store_heap_ne _ _ _ _ h]

theorem body_neighbourLoop (L : Likelihoods) (p : Nat) (s : NucleonCollection) (q : Nat) :
    ((neighbourLoop L p s).heap q).body = (s.heap q).body :=
  foldl_keep (fun u : NucleonCollection => (u.heap q).body) (stepI L p)
    (fun b a => body_stepI L p b a q) _ s

theorem body_removeStep (p : Nat) (s : NucleonCollection) (e : Nat × ℚ) (q : Nat) :
    ((removeStep p s e).heap q).body = (s.heap q).body := by
  unfold removeStep
  simp only [store_heap]
  split
  · next h => subst h; rfl
  · rfl

theorem body_unpair (s : NucleonCollection) (p : Nat) (q : Nat) :
    ((unpair s p).heap q).body = (s.heap q).body := by
  unfold unpair
  simp only [store_heap]
  have hf := fun (t : NucleonCollection) (l : List (Nat × ℚ)) =>
    foldl_keep (fun u : NucleonCollection => (u.heap q).body) (removeStep p)
      (fun b a => body_removeStep p b a q) l t
  split
  · next h => subst h; rw [body_setPairs, hf]
  · rw [hf]

theorem body_moveStep (L : Likelihoods) (p : Nat) (s : NucleonCollection) (t m : Nat) (v : ℚ)
    (q : Nat) : ((moveStep L p s t m v).heap q).body = (s.heap q).body := by
  unfold moveStep
  simp only [store_heap, store_likelihood]
  by_cases h1 : q = m
  · subst h1
    rw [if_pos rfl, body_setPairs]
    split
    · next h2 => rw [← h2]; rfl
    · rfl
  · rw [if_neg h1]
    split
    · next h2 => subst h2; rfl
    · rfl

theorem body_moveLoop (L : Likelihoods) (p : Nat) (q : Nat) (es : List (Nat × ℚ)) :
    ∀ (t : Nat) (s : NucleonCollection),
      ((moveLoop L p es t s).heap q).body = (s.heap q).body := by
  induction es with
  | nil => intro t s; rfl
  | cons e es ih => intro t s; rw [moveLoop, ih, body_moveStep]

theorem normalise_of_inside (length : ℚ) (v : ℚ × ℚ × ℚ) (h : insideCube length v) :
    normalise length v = v := by
  obtain ⟨⟨a1, a2⟩, ⟨b1, b2⟩, c1, c2⟩ := h
  unfold normalise
  rw [bringAxis_of_inside _ _ a1 a2, bringAxis_of_inside _ _ b1 b2, bringAxis_of_inside _ _ c1 c2]

theorem position_of_body {s t : NucleonCollection} {q r : Nat}
    (h : (s.heap q).body = (t.heap r).body) : position s q = position t r := by
  have h1 := ((body_eq_iff _ _).1 h).1
  unfold position
  show ((s.heap q).toParticle.x, (s.heap q).toParticle.y, (s.heap q).toParticle.z) = _
  rw [h1]

theorem heap_splice_ne (s : NucleonCollection) (p pos q : Nat) (h : q ≠ p) :
    (splice s p pos).heap q = s.heap q := by
  simp [splice, BringInsideRegion, h]

theorem heap_locate_ne (s : NucleonCollection) (p q : Nat) (h : q ≠ p) :
    (locate s p).heap q = s.heap q := by
  simp [locate, h]

theorem heap_adopt_ne (L : Likelihoods) (s : NucleonCollection) (p q : Nat) (h : q ≠ p) :
    (adopt L s p).heap q = s.heap q := by
  simp [adopt, h]

theorem heap_register_ne (L : Likelihoods) (s : NucleonCollection) (p pos q : Nat) (h : q ≠ p) :
    (register L s p pos).heap q = s.heap q := by
  unfold register
  rw [heap_adopt_ne _ _ _ _ h, heap_locate_ne _ _ _ h, heap_splice_ne _ _ _ _ h]

theorem position_register_self (L : Likelihoods) (s : NucleonCollection) (p pos : Nat) :
    position (register L s p pos) p = normalise s.length (position s p) := by
  simp [position, normalise, register, adopt, locate, splice, BringInsideRegion]

theorem body_countUp (s : NucleonCollection) (q : Nat) : ((countUp s).heap q) = s.heap q := rfl

theorem position_InsertExistingNucleon (L : Likelihoods) (s : NucleonCollection) (p pos q : Nat) :
    position (InsertExistingNucleon L s p pos) q =
      if q = p then normalise s.length (position s p) else position s q := by
  have h1 : position (InsertExistingNucleon L s p pos) q = position (register L s p pos) q := by
    rw [InsertExistingNucleon_eq]
    split
    · rfl
    · exact position_of_body (body_neighbourLoop L p _ q)
  rw [h1]
  split
  · next h => subst h; exact position_register_self L s q pos
  · next h => unfold position; rw [heap_register_ne _ _ _ _ _ h]

theorem heap_RemoveNucleonFromOrdered (s : NucleonCollection) (p : Nat) :
    (RemoveNucleonFromOrdered s p).1.heap = s.heap := by
  unfold RemoveNucleonFromOrdered; split <;> rfl

theorem body_RemoveNucleon (s : NucleonCollection) (p q : Nat) :
    ((RemoveNucleon s p).1.heap q).body = (s.heap q).body := by
  unfold RemoveNucleon
  rw [heap_RemoveNucleonFromOrdered]
  exact body_unpair s p q

theorem heap_record (s : NucleonCollection) (p : Nat) : (record s p).heap = s.heap := by
  unfold record; split <;> rfl

theorem length_record (s : NucleonCollection) (p : Nat) : (record s p).length = s.length := by
  unfold record; split <;> rfl

theorem position_writePosition (s : NucleonCollection) (p : Nat) (x y z : ℚ) (q : Nat) :
    position (writePosition s p x y z) q = if q = p then (x, y, z) else position s q := by
  unfold position writePosition
  simp only [store_heap]
  split <;> rfl

theorem body_refreshSingle_ne (L : Likelihoods) (s : NucleonCollection) (p q : Nat) (h : q ≠ p) :
    (refreshSingle L s p).heap q = s.heap q := by
  simp [refreshSingle, h]

theorem position_refreshSingle (L : Likelihoods) (s : NucleonCollection) (p q : Nat) :
    position (refreshSingle L s p) q = position s q := by
  unfold position refreshSingle
  simp only [store_heap]
  split
  · next h => subst h; rfl
  · rfl

theorem position_sameBin (L : Likelihoods) (s : NucleonCollection) (p q : Nat) :
    position (sameBin L s p) q = position s q := by
  rw [sameBin_eq, position_of_body (body_moveLoop L p q _ 0 _), position_refreshSingle]

/-- The position written by `SetNucleonPosition`: the target as given when the
same-bin branch runs, the target normalised when the nucleon is re-inserted;
no other nucleon moves. -/
theorem position_SetNucleonPosition (L : Likelihoods) (s : NucleonCollection) (p : Nat)
    (x y z : ℚ) (q : Nat) :
    position (SetNucleonPosition L s p x y z) q =
      if q = p then
        (if FindCube s x y z = (s.heap p).cube then (x, y, z) else normalise s.length (x, y, z))
      else position s q := by
  have hw : ∀ r, position (writePosition (record s p) p x y z) r =
      if r = p then (x, y, z) else position s r := by
    intro r
    rw [position_writePosition]
    unfold position
    rw [heap_record]
  have hc : ((writePosition (record s p) p x y z).heap p).cube = (s.heap p).cube := by
    unfold writePosition
    rw [store_heap_same, heap_record]
  have hF : FindCube (record s p) x y z = FindCube s x y z := by
    unfold FindCube
    rw [units_eq_of_grid (grid_record s p), cube_length_eq_of_grid (grid_record s p)]
  rw [SetNucleonPosition_eq, hc, hF]
  by_cases hsame : FindCube s x y z = (s.heap p).cube
  · rw [if_pos hsame, if_pos hsame, position_sameBin, hw]
  · rw [if_neg hsame, if_neg hsame, position_InsertExistingNucleon]
    have hl : (RemoveNucleon (writePosition (record s p) p x y z) p).1.length = s.length := by
      rw [length_eq_of_grid (grid_RemoveNucleon _ _), length_eq_of_grid (grid_writePosition _ _ _ _ _),
        length_record]
    rw [hl, position_of_body (body_RemoveNucleon _ p p), position_of_body (body_RemoveNucleon _ p q),
      hw, hw, if_pos rfl]
    by_cases hq : q = p
    · rw [if_pos hq, if_pos hq]
    · rw [if_neg hq, if_neg hq, if_neg hq]

theorem flush_position (L : Likelihoods) (s : NucleonCollection) (l : RevertLocals) (q : Nat) :
    (∀ v, pendingTarget l q = some v → insideCube s.length v → position (flush L s l) q = v) ∧
      (pendingTarget l q = none → position (flush L s l) q = position s q) := by
  unfold pendingTarget flush
  cases l.last_nucleon with
  | none => exact ⟨fun v h => by simp at h, fun _ => rfl⟩
  | some last =>
    simp only []
    by_cases h : last = q
    · subst h
      rw [if_pos rfl]
      refine ⟨fun v hv hin => ?_, fun h => by simp at h⟩
      have hv' : (l.last_x, l.last_y, l.last_z) = v := by simpa using hv
      rw [position_SetNucleonPosition, if_pos rfl, hv', normalise_of_inside _ _ hin]
      split <;> rfl
    · rw [if_neg h]
      refine ⟨fun v hv => by simp at hv, fun _ => ?_⟩
      rw [position_SetNucleonPosition, if_neg (fun h' => h h'.symm)]

theorem length_flush (L : Likelihoods) (s : NucleonCollection) (l : RevertLocals) :
    (flush L s l).length = s.length := by
  unfold flush
  cases l.last_nucleon with
  | none => rfl
  | some last => exact length_eq_of_grid (grid_SetNucleonPosition L s last _ _ _)

theorem journal_flush_off (L : Likelihoods) (s : NucleonCollection) (l : RevertLocals)
    (h : s.recording = false) : journal (flush L s l) = journal s := by
  unfold flush
  cases l.last_nucleon with
  | none => rfl
  | some last => exact journal_SetNucleonPosition_off L s last _ _ _ h

/-- The state after the conditional flush at the top of a loop turn of `Revert`. -/
theorem revertLoop_cons (L : Likelihoods) (n : Nat) (s : NucleonCollection) (l : RevertLocals)
    (next : Nat) (rest : List Nat) (hc : s.cached_nucleons = next :: rest) :
    ∃ s2 : NucleonCollection,
      s2 = (if l.last_nucleon = some next then { s with cached_nucleons := rest }
            else flush L { s with cached_nucleons := rest } l) ∧
      revertLoop L (n + 1) s l = revertLoop L n
        { s2 with cached_likelihoods := s2.cached_likelihoods.tail, cached_x := s2.cached_x.tail,
                  cached_y := s2.cached_y.tail, cached_z := s2.cached_z.tail }
        { last_nucleon := some next, last_likelihood := s2.cached_likelihoods.headD 0,
          last_x := s2.cached_x.headD 0, last_y := s2.cached_y.headD 0,
          last_z := s2.cached_z.headD 0 } := by
  refine ⟨_, rfl, ?_⟩
  simp only [revertLoop, hc]
  unfold flush
  cases hl : l.last_nucleon with
  | none => simp
  | some last =>
    by_cases h : next = last
    · subst h; simp
    · have h' : ¬ last = next := fun e => h e.symm
      simp [h, h']

theorem revertLoop_nil (L : Likelihoods) (n : Nat) (s : NucleonCollection) (l : RevertLocals)
    (hc : s.cached_nucleons = []) : revertLoop L n s l = (s, l) := by
  cases n with
  | zero => rfl
  | succ n => simp only [revertLoop, hc]

theorem oldestEntry_nil (q : Nat) (xs ys zs : List ℚ) : oldestEntry q [] xs ys zs = none := by
  unfold oldestEntry; rfl

theorem revertLoop_positions (L : Likelihoods) (len : ℚ) : ∀ (fuel : Nat) (s : NucleonCollection)
    (l : RevertLocals), s.recording = false → s.length = len → aligned s →
    s.cached_nucleons.length ≤ fuel → ∀ q : Nat,
    (∀ v, (match oldestEntry q s.cached_nucleons s.cached_x s.cached_y s.cached_z with
            | some w => some w
            | none => pendingTarget l q) = some v → insideCube len v →
        position (flush L (revertLoop L fuel s l).1 (revertLoop L fuel s l).2) q = v) ∧
      ((match oldestEntry q s.cached_nucleons s.cached_x s.cached_y s.cached_z with
            | some w => some w
            | none => pendingTarget l q) = none →
        position (flush L (revertLoop L fuel s l).1 (revertLoop L fuel s l).2) q = position s q) := by
  intro fuel
  induction fuel with
  | zero =>
    intro s l hr hlen hal hf q
    have h0 : s.cached_nucleons = [] := List.length_eq_zero.1 (Nat.le_zero.1 hf)
    rw [revertLoop_nil L 0 s l h0, h0, oldestEntry_nil]
    subst hlen
    exact flush_position L s l q
  | succ n ih =>
    intro s l hr hlen hal hf q
    cases hc : s.cached_nucleons with
    | nil =>
      rw [revertLoop_nil L _ s l hc, oldestEntry_nil]
      subst hlen
      exact flush_position L s l q
    | cons next rest =>
      subst hlen
      obtain ⟨hx, hy, hz⟩ := hal
      rw [hc] at hx hy hz hf
      cases hcx : s.cached_x with
      | nil => rw [hcx] at hx; simp at hx
      | cons x xs =>
      cases hcy : s.cached_y with
      | nil => rw [hcy] at hy; simp at hy
      | cons y ys =>
      cases hcz : s.cached_z with
      | nil => rw [hcz] at hz; simp at hz
      | cons z zs =>
      rw [hcx] at hx; rw [hcy] at hy; rw [hcz] at hz
      obtain ⟨s2, hs2, hstep⟩ := revertLoop_cons L n s l next rest hc
      rw [hstep]
      have hj : journal s2 = journal { s with cached_nucleons := rest } := by
        rw [hs2]; split
        · rfl
        · exact journal_flush_off L _ l hr
      have hlen2 : s2.length = s.length := by
        rw [hs2]; split
        · rfl
        · rw [length_flush]
      have e1 : s2.recording = false := by rw [recording_eq_of_journal hj]; exact hr
      have e2 : s2.cached_nucleons = rest := cached_nucleons_eq_of_journal hj
      have e3 : s2.cached_x = x :: xs := (cached_x_eq_of_journal hj).trans hcx
      have e4 : s2.cached_y = y :: ys := (cached_y_eq_of_journal hj).trans hcy
      have e5 : s2.cached_z = z :: zs := (cached_z_eq_of_journal hj).trans hcz
      have hIH := ih
        { s2 with cached_likelihoods := s2.cached_likelihoods.tail, cached_x := s2.cached_x.tail,
                  cached_y := s2.cached_y.tail, cached_z := s2.cached_z.tail }
        { last_nucleon := some next, last_likelihood := s2.cached_likelihoods.headD 0,
          last_x := s2.cached_x.headD 0, last_y := s2.cached_y.headD 0,
          last_z := s2.cached_z.headD 0 }
        e1 hlen2
        ⟨by simp only [e2, e3]; simpa using hx, by simp only [e2, e4]; simpa using hy,
          by simp only [e2, e5]; simpa using hz⟩
        (by simp only [e2]; simpa using hf) q
      simp only [e2, e3, e4, e5, List.tail_cons, List.headD_cons] at hIH ⊢
      have htarget : (match oldestEntry q rest xs ys zs with
            | some w => some w
            | none => pendingTarget (RevertLocals.mk (some next) x y z
                (s2.cached_likelihoods.headD 0)) q) = oldestEntry q (next :: rest) (x :: xs) (y :: ys) (z :: zs) := by
        rw [oldestEntry]
        cases oldestEntry q rest xs ys zs with
        | some w => rfl
        | none => simp only [pendingTarget]
      rw [htarget] at hIH
      cases ho : oldestEntry q (next :: rest) (x :: xs) (y :: ys) (z :: zs) with
      | some w =>
        rw [ho] at hIH
        exact ⟨fun v hv hin => hIH.1 v hv hin, fun h => by simp at h⟩
      | none =>
        rw [ho] at hIH
        have hfin : position (flush L _ _) q = position s2 q := hIH.2 rfl
        have hnq : next ≠ q := by
          intro e
          rw [oldestEntry] at ho
          cases h' : oldestEntry q rest xs ys zs with
          | some w => rw [h'] at ho; simp at ho
          | none => rw [h'] at ho; simp [e] at ho
        simp only []
        have hfl := flush_position L { s with cached_nucleons := rest } l q
        have hp1 : position { s with cached_nucleons := rest } q = position s q := rfl
        rw [hp1] at hfl
        refine ⟨fun v hv hin => ?_, fun hv => ?_⟩
        · rw [hfin, hs2]
          have hne : l.last_nucleon ≠ some next := by
            intro e
            simp [pendingTarget, e, hnq] at hv
          rw [if_neg hne]
          exact hfl.1 v hv hin
        · rw [hfin, hs2]
          split
          · rfl
          · exact hfl.2 hv

theorem applyMoves_journal_positions (L : Likelihoods) (s : NucleonCollection)
    (moves : List (Nat × ℚ × ℚ × ℚ)) : ∀ t : NucleonCollection, t.recording = true → aligned t →
    t.length = s.length →
    (∀ q, match oldestEntry q t.cached_nucleons t.cached_x t.cached_y t.cached_z with
          | some v => v = position s q
          | none => position t q = position s q) →
    (applyMoves L t moves).recording = true ∧ aligned (applyMoves L t moves) ∧
      (applyMoves L t moves).length = s.length ∧
      (∀ q, match oldestEntry q (applyMoves L t moves).cached_nucleons
              (applyMoves L t moves).cached_x (applyMoves L t moves).cached_y
              (applyMoves L t moves).cached_z with
          | some v => v = position s q
          | none => position (applyMoves L t moves) q = position s q) := by
  induction moves with
  | nil => intro t h1 h2 h3 h4; exact ⟨h1, h2, h3, h4⟩
  | cons m ms ih =>
    intro t h1 h2 h3 h4
    have hj := journal_SetNucleonPosition L t m.1 m.2.1 m.2.2.1 m.2.2.2
    have hrec : record t m.1 = CacheState t m.1 := by unfold record; rw [if_pos h1]
    rw [hrec] at hj
    have e1 := recording_eq_of_journal hj
    have e2 := cached_nucleons_eq_of_journal hj
    have e3 := cached_x_eq_of_journal hj
    have e4 := cached_y_eq_of_journal hj
    have e5 := cached_z_eq_of_journal hj
    obtain ⟨ax, ay, az⟩ := h2
    show _ ∧ _ ∧ _ ∧ _
    unfold applyMoves
    rw [List.foldl_cons]
    refine ih _ (e1.trans h1) ?_ ?_ ?_
    · unfold aligned
      rw [e2, e3, e4, e5]
      simp [CacheState, ax, ay, az]
    · rw [length_eq_of_grid (grid_SetNucleonPosition L t _ _ _ _)]; exact h3
    · intro q
      rw [e2, e3, e4, e5]
      show match oldestEntry q (m.1 :: t.cached_nucleons) ((t.heap m.1).x :: t.cached_x)
        ((t.heap m.1).y :: t.cached_y) ((t.heap m.1).z :: t.cached_z) with
          | some v => v = position s q
          | none => _
      rw [oldestEntry]
      have h4q := h4 q
      cases ho : oldestEntry q t.cached_nucleons t.cached_x t.cached_y t.cached_z with
      | some v => rw [ho] at h4q; exact h4q
      | none =>
        rw [ho] at h4q
        simp only [] at h4q ⊢
        by_cases hq : m.1 = q
        · rw [if_pos hq]
          subst hq
          exact h4q
        · rw [if_neg hq]
          show position _ q = _
          rw [position_SetNucleonPosition, if_neg (fun e => hq e.symm)]
          exact h4q

/-- C1 (amended): if at `Checkpoint()` the coordinates of a nucleon lie in the
closed cube `[-L, L]^3`, then after any sequence of `SetNucleonPosition` calls
followed by `Revert()` its coordinates are those it had at `Checkpoint()`. -/
theorem Revert_restores_positions (L : Likelihoods) (s : NucleonCollection)
    (moves : List (Nat × ℚ × ℚ × ℚ)) (q : Nat) (h : insideCube s.length (position s q)) :
    position (Revert L (applyMoves L (Checkpoint s).1 moves)).1 q = position s q := by
  obtain ⟨h1, h2, h3, h4⟩ := applyMoves_journal_positions L s moves (Checkpoint s).1 rfl
    ⟨rfl, rfl, rfl⟩ rfl (fun q => by
      show match oldestEntry q [] [] [] [] with
        | some v => v = position s q
        | none => position s q = position s q
      rw [oldestEntry_nil])
  generalize applyMoves L (Checkpoint s).1 moves = t at h1 h2 h3 h4
  have h4q := h4 q
  by_cases he : t.cached_nucleons.length = 0
  · have h0 := List.length_eq_zero.1 he
    rw [Revert_of_empty L t h0]
    rw [h0, oldestEntry_nil] at h4q
    exact h4q
  · have hR : position (Revert L t).1 q =
        position (flush L (revertLoop L t.cached_nucleons.length { t with recording := false }
          ⟨none, 0, 0, 0, 0⟩).1 (revertLoop L t.cached_nucleons.length { t with recording := false }
          ⟨none, 0, 0, 0, 0⟩).2) q := by
      unfold Revert
      rw [if_neg he]
      rfl
    rw [hR]
    have hl := revertLoop_positions L s.length t.cached_nucleons.length { t with recording := false }
      ⟨none, 0, 0, 0, 0⟩ rfl h3 h2 (le_refl _) q
    simp only [] at hl
    cases ho : oldestEntry q t.cached_nucleons t.cached_x t.cached_y t.cached_z with
    | some v =>
      rw [ho] at h4q hl
      simp only [] at h4q
      rw [hl.1 v rfl (by rw [h4q]; exact h), h4q]
    | none =>
      rw [ho] at h4q hl
      simp only [] at h4q
      rw [hl.2 rfl]
      exact h4q

/-- C1 (instance): scenario S6: from S3, after `Checkpoint()`, two moves of n1
and `Revert()`, n1 is back at (0,0,0). -/
theorem Revert_restores_positions_witness :
    position (Revert scenarioLikelihoods (applyMoves scenarioLikelihoods (Checkpoint scenarioS3).1
      [(1, 7 / 10, 0, 0), (1, -1 / 2, 0, 0)])).1 1 = (0, 0, 0) := by
  have h := Revert_restores_positions scenarioLikelihoods scenarioS3
    [(1, 7 / 10, 0, 0), (1, -1 / 2, 0, 0)] 1 (by decide!)
  rw [h]
  decide!

/-- C1 (counterexample): with `U = 1`, `L = 1`, a member moved inside its bin to
`x = 2` keeps `x = 2`; after `Checkpoint()`, a move to `x = -0.5` and `Revert()`
the member is at `x = 0`, not at the `x = 2` it had at `Checkpoint()`. -/
theorem Revert_normalises_position :
    1 ∈ (SetNucleonPosition defaultLikelihoods
        (AddNucleon defaultLikelihoods (construct 0 1 1 emptyHeap) 1 (particleAt 0 0 0)) 1 2 0 0).ordered ∧
      position (SetNucleonPosition defaultLikelihoods
        (AddNucleon defaultLikelihoods (construct 0 1 1 emptyHeap) 1 (particleAt 0 0 0)) 1 2 0 0) 1
        = (2, 0, 0) ∧
      position (Revert defaultLikelihoods (applyMoves defaultLikelihoods (Checkpoint
        (SetNucleonPosition defaultLikelihoods
          (AddNucleon defaultLikelihoods (construct 0 1 1 emptyHeap) 1 (particleAt 0 0 0)) 1 2 0 0)).1
        [(1, -1 / 2, 0, 0)])).1 1 = (0, 0, 0) := by
  decide!

theorem particle_of_body {a b : Nucleon} (h : a.body = b.body) : a.toParticle = b.toParticle :=
  ((body_eq_iff a b).1 h).1

theorem single_of_body {a b : Nucleon} (h : a.body = b.body) :
    a.single_likelihood = b.single_likelihood :=
  ((body_eq_iff a b).1 h).2.2.2.2.2.2

theorem set_length_append {α : Type} (pre : List α) (a b : α) (rest : List α) :
    (pre ++ a :: rest).set pre.length b = pre ++ b :: rest := by
  induction pre with
  | nil => rfl
  | cons c pre ih => simp [ih]

theorem moveStep_likelihood (L : Likelihoods) (p : Nat) (s : NucleonCollection) (t m : Nat) (v : ℚ) :
    (moveStep L p s t m v).likelihood =
      s.likelihood / v * L.f2 (s.heap p).toParticle (s.heap m).toParticle := rfl

theorem moveStep_pairs_self (L : Likelihoods) (p : Nat) (s : NucleonCollection) (t m : Nat) (v : ℚ)
    (h : m ≠ p) : ((moveStep L p s t m v).heap p).pairwise_likelihoods =
      (s.heap p).pairwise_likelihoods.set t (m, L.f2 (s.heap p).toParticle (s.heap m).toParticle) := by
  unfold moveStep
  simp only [store_likelihood]
  rw [store_heap_ne _ _ _ _ (fun e => h e.symm), store_heap_same]

theorem moveLoop_effect (L : Likelihoods) (p : Nat) : ∀ (es : List (Nat × ℚ)) (t : Nat)
    (s : NucleonCollection) (pre : List (Nat × ℚ)), (∀ e ∈ es, e.1 ≠ p) → pre.length = t →
    (s.heap p).pairwise_likelihoods = pre ++ es →
    (moveLoop L p es t s).likelihood = s.likelihood *
        (es.map (fun e => L.f2 (s.heap p).toParticle (s.heap e.1).toParticle / e.2)).prod ∧
      ((moveLoop L p es t s).heap p).pairwise_likelihoods =
        pre ++ es.map (fun e => (e.1, L.f2 (s.heap p).toParticle (s.heap e.1).toParticle)) := by
  intro es
  induction es with
  | nil => intro t s pre _ _ h; simp [moveLoop, h]
  | cons e es ih =>
    intro t s pre hne hlen hp
    have he : e.1 ≠ p := hne e (List.mem_cons_self _ _)
    have hrest : ∀ e' ∈ es, e'.1 ≠ p := fun e' h' => hne e' (List.mem_cons_of_mem _ h')
    have hpart : ∀ q, ((moveStep L p s t e.1 e.2).heap q).toParticle = (s.heap q).toParticle :=
      fun q => particle_of_body (body_moveStep L p s t e.1 e.2 q)
    have hpairs : ((moveStep L p s t e.1 e.2).heap p).pairwise_likelihoods =
        (pre ++ [(e.1, L.f2 (s.heap p).toParticle (s.heap e.1).toParticle)]) ++ es := by
      rw [moveStep_pairs_self L p s t e.1 e.2 he, hp, ← hlen, set_length_append]
      simp
    obtain ⟨r1, r2⟩ := ih (t + 1) (moveStep L p s t e.1 e.2)
      (pre ++ [(e.1, L.f2 (s.heap p).toParticle (s.heap e.1).toParticle)]) hrest
      (by simp [hlen]) hpairs
    rw [moveLoop, r1, r2, moveStep_likelihood]
    simp only [hpart, List.map_cons, List.prod_cons, List.append_assoc, List.singleton_append]
    exact ⟨by ring, trivial⟩

/-- C10: a same-bin move updates the likelihood by the factor ratio: when the
target lies in the bin of `p`, no pair entry of `p` names `p` itself and the
cached factors are non-zero, the new likelihood is
`old * f1(n')/s_old * prod f2(n', peer)/v_old`, the cached single factor becomes
`f1(n')` and every pair entry keeps its peer and gets the value `f2(n', peer)`,
where `n'` is `p` at the new position. -/
theorem sameBin_move_likelihood (L : Likelihoods) (s : NucleonCollection) (p : Nat) (x y z : ℚ)
    (hsame : FindCube s x y z = (s.heap p).cube)
    (hself : ∀ e ∈ (s.heap p).pairwise_likelihoods, e.1 ≠ p)
    (_hs : (s.heap p).single_likelihood ≠ 0)
    (_hv : ∀ e ∈ (s.heap p).pairwise_likelihoods, e.2 ≠ 0) :
    (SetNucleonPosition L s p x y z).likelihood =
        s.likelihood *
          (L.f1 { (s.heap p).toParticle with x := x, y := y, z := z } / (s.heap p).single_likelihood) *
          ((s.heap p).pairwise_likelihoods.map (fun e =>
            L.f2 { (s.heap p).toParticle with x := x, y := y, z := z } (s.heap e.1).toParticle
              / e.2)).prod ∧
      ((SetNucleonPosition L s p x y z).heap p).single_likelihood =
        L.f1 { (s.heap p).toParticle with x := x, y := y, z := z } ∧
      ((SetNucleonPosition L s p x y z).heap p).pairwise_likelihoods =
        (s.heap p).pairwise_likelihoods.map (fun e =>
          (e.1, L.f2 { (s.heap p).toParticle with x := x, y := y, z := z } (s.heap e.1).toParticle)) := by
  have hc : ((writePosition (record s p) p x y z).heap p).cube = (s.heap p).cube := by
    unfold writePosition
    rw [store_heap_same, heap_record]
  have hF : FindCube (record s p) x y z = FindCube s x y z := by
    unfold FindCube
    rw [units_eq_of_grid (grid_record s p), cube_length_eq_of_grid (grid_record s p)]
  have hlik : (record s p).likelihood = s.likelihood := by unfold record; split <;> rfl
  rw [SetNucleonPosition_eq, hc, hF, if_pos hsame, sameBin_eq]
  generalize hs5 : refreshSingle L (writePosition (record s p) p x y z) p = s5
  have hpp : (s5.heap p).toParticle = { (s.heap p).toParticle with x := x, y := y, z := z } := by
    rw [← hs5]
    simp [refreshSingle, writePosition, heap_record]
  have h5s : (s5.heap p).single_likelihood =
      L.f1 { (s.heap p).toParticle with x := x, y := y, z := z } := by
    rw [← hs5]
    simp [refreshSingle, writePosition, heap_record]
  have h5pairs : (s5.heap p).pairwise_likelihoods = (s.heap p).pairwise_likelihoods := by
    rw [← hs5]
    simp [refreshSingle, writePosition, heap_record]
  have h5q : ∀ q, q ≠ p → s5.heap q = s.heap q := by
    intro q hq
    rw [← hs5]
    simp [refreshSingle, writePosition, heap_record, hq]
  have h5l : s5.likelihood = s.likelihood / (s.heap p).single_likelihood *
      L.f1 { (s.heap p).toParticle with x := x, y := y, z := z } := by
    rw [← hs5]
    simp [refreshSingle, writePosition, heap_record, hlik]
  obtain ⟨r1, r2⟩ := moveLoop_effect L p (s5.heap p).pairwise_likelihoods 0 s5 []
    (by rw [h5pairs]; exact hself) rfl (by simp)
  have hbody := body_moveLoop L p p (s5.heap p).pairwise_likelihoods 0 s5
  have hmap : ∀ (g : Particle → ℚ → ℚ), (s.heap p).pairwise_likelihoods.map
      (fun e => g (s5.heap e.1).toParticle e.2) =
      (s.heap p).pairwise_likelihoods.map (fun e => g (s.heap e.1).toParticle e.2) := by
    intro g
    apply List.map_congr_left
    intro e he
    rw [h5q e.1 (hself e he)]
  refine ⟨?_, ?_, ?_⟩
  · rw [r1, h5l, h5pairs, hpp]
    rw [hmap (fun c v => L.f2 { (s.heap p).toParticle with x := x, y := y, z := z } c / v)]
    ring
  · rw [single_of_body hbody, h5s]
  · rw [r2, h5pairs, hpp]
    simp only [List.nil_append]
    apply List.map_congr_left
    intro e he
    rw [h5q e.1 (hself e he)]

/-- C10 (instance): scenario S5: moving n2 (address 2) from (0.3,0,0) to (0.4,0,0)
inside its bin takes the likelihood from 1.03 to 1.04. -/
theorem sameBin_move_likelihood_witness :
    (SetNucleonPosition scenarioLikelihoods scenarioS3 2 (4 / 10) 0 0).likelihood = 104 / 100 := by
  have h := (sameBin_move_likelihood scenarioLikelihoods scenarioS3 2 (4 / 10) 0 0 (by decide!)
    (by decide!) (by decide!) (by decide!)).1
  rw [h]
  decide!

/-- C3 (failing input): scenario S5: after the same-bin move of n2 (address 2), n2
holds the entry `(n1, 1.04)` but the pair list of n1 (address 1) is empty: the
entry for n2 on n1 was erased. -/
theorem sameBin_move_breaks_symmetry :
    (scenarioS5.heap 2).pairwise_likelihoods = [(1, 104 / 100)] ∧
      (scenarioS5.heap 1).pairwise_likelihoods = [] ∧ scenarioS5.ordered = [1, 2] := by
  decide!

theorem mem_insertIdx_imp {α : Type} (a b : α) : ∀ (n : Nat) (l : List α),
    b ∈ l.insertIdx n a → b = a ∨ b ∈ l := by
  intro n
  induction n with
  | zero => intro l h; simpa [List.insertIdx] using h
  | succ n ih =>
    intro l h
    cases l with
    | nil => simp [List.insertIdx] at h
    | cons c l =>
      rw [List.insertIdx_succ_cons] at h
      rcases List.mem_cons.1 h with h | h
      · exact Or.inr (h ▸ List.mem_cons_self _ _)
      · rcases ih l h with h | h
        · exact Or.inl h
        · exact Or.inr (List.mem_cons_of_mem _ h)

theorem ordered_RemoveNucleon (s : NucleonCollection) (p : Nat) :
    (RemoveNucleon s p).1.ordered = s.ordered.erase p := by
  by_cases h : p ∈ s.ordered
  · exact (RemoveNucleon_of_mem s p h).1
  · rw [(RemoveNucleon_of_not_mem s p h).1, List.erase_of_not_mem h]

theorem ordered_SetNucleonPosition_subset (L : Likelihoods) (s : NucleonCollection) (p : Nat)
    (x y z : ℚ) (q : Nat) (h : q ∈ (SetNucleonPosition L s p x y z).ordered) :
    q = p ∨ q ∈ s.ordered := by
  have hw : layout (writePosition (record s p) p x y z) = layout s := by
    rw [layout_writePosition, layout_record]
  rw [SetNucleonPosition_eq] at h
  split at h
  · rw [ordered_eq_of_layout ((layout_sameBin L _ p).trans hw)] at h
    exact Or.inr h
  · rw [ordered_InsertExistingNucleon, ordered_RemoveNucleon, ordered_eq_of_layout hw] at h
    rcases mem_insertIdx_imp _ _ _ _ h with h | h
    · exact Or.inl h
    · exact Or.inr (List.mem_of_mem_erase h)

theorem insideCube_normalise (length : ℚ) (hL : 0 < length) (v : ℚ × ℚ × ℚ) :
    insideCube length (normalise length v) := by
  have a := bringAxis_spec length v.1 hL
  have b := bringAxis_spec length v.2.1 hL
  have c := bringAxis_spec length v.2.2 hL
  exact ⟨⟨a.1, a.2.1⟩, ⟨b.1, b.2.1⟩, ⟨c.1, c.2.1⟩⟩

theorem length_AddNucleon (L : Likelihoods) (s : NucleonCollection) (p : Nat) (v : Particle) :
    (AddNucleon L s p v).length = s.length := by
  unfold AddNucleon InsertNucleon
  rw [length_eq_of_grid (grid_InsertExistingNucleon L _ p _)]; rfl

theorem ReachableInside_inv (L : Likelihoods) (s : NucleonCollection) (h : ReachableInside L s) :
    0 < s.length ∧ ∀ q ∈ s.ordered, insideCube s.length (position s q) := by
  induction h with
  | init pm u len heap hL => exact ⟨hL, fun q hq => by simp [construct] at hq⟩
  | add s p v _ ih =>
    obtain ⟨hL, hin⟩ := ih
    rw [length_AddNucleon]
    refine ⟨hL, fun q hq => ?_⟩
    unfold AddNucleon InsertNucleon at hq ⊢
    rw [ordered_InsertExistingNucleon] at hq
    rw [position_InsertExistingNucleon]
    split
    · exact insideCube_normalise _ hL _
    · next hne =>
      rcases mem_insertIdx_imp _ _ _ _ hq with h | h
      · exact absurd h hne
      · have : position (s.store p (newNucleon v)) q = position s q := by
          unfold position; rw [store_heap_ne _ _ _ _ hne]
        rw [this]; exact hin q h
  | insert s p pos _ ih =>
    obtain ⟨hL, hin⟩ := ih
    rw [length_eq_of_grid (grid_InsertExistingNucleon L s p pos)]
    refine ⟨hL, fun q hq => ?_⟩
    rw [ordered_InsertExistingNucleon] at hq
    rw [position_InsertExistingNucleon]
    split
    · exact insideCube_normalise _ hL _
    · next hne =>
      rcases mem_insertIdx_imp _ _ _ _ hq with h | h
      · exact absurd h hne
      · exact hin q h
  | remove s p _ ih =>
    obtain ⟨hL, hin⟩ := ih
    rw [length_eq_of_grid (grid_RemoveNucleon s p)]
    refine ⟨hL, fun q hq => ?_⟩
    rw [ordered_RemoveNucleon] at hq
    rw [position_of_body (body_RemoveNucleon s p q)]
    exact hin q (List.mem_of_mem_erase hq)
  | move s p x y z _ htarget ih =>
    obtain ⟨hL, hin⟩ := ih
    rw [length_eq_of_grid (grid_SetNucleonPosition L s p x y z)]
    refine ⟨hL, fun q hq => ?_⟩
    rw [position_SetNucleonPosition]
    split
    · split
      · exact htarget
      · exact insideCube_normalise _ hL _
    · next hne =>
      rcases ordered_SetNucleonPosition_subset L s p x y z q hq with h | h
      · exact absurd h hne
      · exact hin q h

/-- C14 (amended): in every state reached from a constructed collection with
`L > 0` by `AddNucleon`, `InsertExistingNucleon` and `RemoveNucleon` with
arbitrary arguments and by `SetNucleonPosition` with targets in `[-L, L]^3`,
every member's `x`, `y` and `z` lie in the closed interval `[-L, L]`. -/
theorem members_inside_cube (L : Likelihoods) (s : NucleonCollection) (h : ReachableInside L s)
    (q : Nat) (hq : q ∈ s.ordered) : insideCube s.length (position s q) :=
  (ReachableInside_inv L s h).2 q hq

/-- C14 (instance): the member added at (2.5, 0, 0) to the collection of the
scenarios lies inside the cube. -/
theorem members_inside_cube_witness :
    insideCube (AddNucleon scenarioLikelihoods scenarioEmpty 1 (particleAt (5 / 2) 0 0)).length
        (position (AddNucleon scenarioLikelihoods scenarioEmpty 1 (particleAt (5 / 2) 0 0)) 1) ∧
      position (AddNucleon scenarioLikelihoods scenarioEmpty 1 (particleAt (5 / 2) 0 0)) 1
        = (1 / 2, 0, 0) :=
  ⟨members_inside_cube scenarioLikelihoods _
    (ReachableInside.add _ 1 (particleAt (5 / 2) 0 0)
      (ReachableInside.init (1 / 2) 1 1 emptyHeap (by decide!))) 1 (by decide!), by decide!⟩

/-- C14 (counterexample): with `U = 1`, `L = 1`, a member added at `x = 1` stays at
`x = 1`, which is not below `L`; and a member moved inside its bin to `x = 2`
stays at `x = 2`, outside `[-L, L]`. -/
theorem member_outside_half_open_cube :
    position (AddNucleon defaultLikelihoods (construct 0 1 1 emptyHeap) 1 (particleAt 1 0 0)) 1
        = (1, 0, 0) ∧
      1 ∈ (SetNucleonPosition defaultLikelihoods
        (AddNucleon defaultLikelihoods (construct 0 1 1 emptyHeap) 1 (particleAt 0 0 0)) 1 2 0 0).ordered ∧
      position (SetNucleonPosition defaultLikelihoods
        (AddNucleon defaultLikelihoods (construct 0 1 1 emptyHeap) 1 (particleAt 0 0 0)) 1 2 0 0) 1
        = (2, 0, 0) := by
  decide!

theorem Sim_refl (s : NucleonCollection) : Sim s s := ⟨fun _ => rfl, rfl, rfl⟩

theorem Sim_trans {s t u : NucleonCollection} (h1 : Sim s t) (h2 : Sim t u) : Sim s u :=
  ⟨fun q => (h2.1 q).trans (h1.1 q), h2.2.1.trans h1.2.1, h2.2.2.trans h1.2.2⟩

theorem Sim_symm {s t : NucleonCollection} (h : Sim s t) : Sim t s :=
  ⟨fun q => (h.1 q).symm, h.2.1.symm, h.2.2.symm⟩

theorem Appended_refl (p : Nat) (s : NucleonCollection) : Appended p [] s s := by
  refine ⟨by simp, by simp, fun q _ => by simp⟩

theorem Appended_trans {p : Nat} {V W : List (Nat × ℚ)} {s t u : NucleonCollection}
    (h1 : Appended p V s t) (h2 : Appended p W t u) : Appended p (V ++ W) s u := by
  obtain ⟨a1, a2, a3⟩ := h1
  obtain ⟨b1, b2, b3⟩ := h2
  refine ⟨?_, ?_, fun q hq => ?_⟩
  · rw [b1, a1, List.map_append, List.prod_append]; ring
  · rw [b2, a2, List.append_assoc]
  · rw [b3 q hq, a3 q hq, List.filter_append, List.map_append, List.append_assoc]

theorem pairStep_appended (L : Likelihoods) (p : Nat) (s : NucleonCollection) (m : Nat) :
    Appended p (visitStep L p s m) s (pairStep L p s m) := by
  unfold visitStep pairStep
  by_cases hm : m ≠ p
  · rw [if_pos hm, if_pos hm]
    refine ⟨by simp, ?_, fun q hq => ?_⟩
    · simp only [store_likelihood]
      rw [store_heap_ne _ _ _ _ (fun e => hm e.symm), store_heap_same]
    · simp only [store_likelihood]
      by_cases hqm : q = m
      · subst hqm
        rw [store_heap_same, store_heap_ne _ _ _ _ hq]
        simp
      · rw [store_heap_ne _ _ _ _ hqm, store_heap_ne _ _ _ _ hq]
        have hmq : ¬ m = q := fun e => hqm e.symm
        simp [hmq]
  · rw [if_neg hm, if_neg hm]
    exact Appended_refl p s

theorem pairStep_sim (L : Likelihoods) (p : Nat) (s : NucleonCollection) (m : Nat) :
    Sim s (pairStep L p s m) :=
  ⟨body_pairStep L p s m, layout_pairStep L p s m, grid_pairStep L p s m⟩

theorem visitStep_sim (L : Likelihoods) (p : Nat) {s t : NucleonCollection} (h : Sim s t) (m : Nat) :
    visitStep L p t m = visitStep L p s m := by
  unfold visitStep
  rw [particle_of_body (h.1 m), particle_of_body (h.1 p)]

/-- A loop whose turns register pair entries registers the concatenation of
the entries of its turns, when the entries of a turn depend on the collection
only through what the turns leave unchanged. -/
theorem foldl_appended {α : Type} (p : Nat) (f : NucleonCollection → α → NucleonCollection)
    (g : NucleonCollection → α → List (Nat × ℚ))
    (hstep : ∀ t a, Appended p (g t a) t (f t a)) (hsim : ∀ t a, Sim t (f t a))
    (hg : ∀ t u a, Sim t u → g u a = g t a) :
    ∀ (l : List α) (s : NucleonCollection),
      Appended p (l.flatMap (g s)) s (l.foldl f s) ∧ Sim s (l.foldl f s) := by
  intro l
  induction l with
  | nil => intro s; exact ⟨Appended_refl p s, Sim_refl s⟩
  | cons a l ih =>
    intro s
    obtain ⟨h1, h2⟩ := ih (f s a)
    rw [List.foldl_cons, List.flatMap_cons]
    refine ⟨Appended_trans (hstep s a) ?_, Sim_trans (hsim s a) h2⟩
    have : l.flatMap (g s) = l.flatMap (g (f s a)) := by
      apply List.flatMap_congr
      intro x _
      exact (hg s (f s a) x (hsim s a)).symm
    rw [this]
    exact h1

theorem body_congr_z {a b : Nucleon} (h : a.body = b.body) (o : ℚ) :
    Nucleon.body { a with z := a.z + o } = Nucleon.body { b with z := b.z + o } := by
  rw [body_eq_iff] at h ⊢
  obtain ⟨a1, a2, a3, a4, a5, a6, a7⟩ := h
  refine ⟨?_, a2, a3, a4, a5, a6, a7⟩
  cases a with | mk ap _ _ _ _ _ _ _ => cases b with | mk bp _ _ _ _ _ _ _ =>
  cases ap; cases bp
  simp only [Particle.mk.injEq] at a1 ⊢
  obtain ⟨ex, ey, ez, er, ei⟩ := a1
  exact ⟨ex, ey, by rw [ez], er, ei⟩

theorem body_congr_y {a b : Nucleon} (h : a.body = b.body) (o : ℚ) :
    Nucleon.body { a with y := a.y + o } = Nucleon.body { b with y := b.y + o } := by
  rw [body_eq_iff] at h ⊢
  obtain ⟨a1, a2, a3, a4, a5, a6, a7⟩ := h
  refine ⟨?_, a2, a3, a4, a5, a6, a7⟩
  cases a with | mk ap _ _ _ _ _ _ _ => cases b with | mk bp _ _ _ _ _ _ _ =>
  cases ap; cases bp
  simp only [Particle.mk.injEq] at a1 ⊢
  obtain ⟨ex, ey, ez, er, ei⟩ := a1
  exact ⟨ex, by rw [ey], ez, er, ei⟩

theorem body_congr_x {a b : Nucleon} (h : a.body = b.body) (o : ℚ) :
    Nucleon.body { a with x := a.x + o } = Nucleon.body { b with x := b.x + o } := by
  rw [body_eq_iff] at h ⊢
  obtain ⟨a1, a2, a3, a4, a5, a6, a7⟩ := h
  refine ⟨?_, a2, a3, a4, a5, a6, a7⟩
  cases a with | mk ap _ _ _ _ _ _ _ => cases b with | mk bp _ _ _ _ _ _ _ =>
  cases ap; cases bp
  simp only [Particle.mk.injEq] at a1 ⊢
  obtain ⟨ex, ey, ez, er, ei⟩ := a1
  exact ⟨by rw [ex], ey, ez, er, ei⟩

theorem Sim_shiftZ {s t : NucleonCollection} (h : Sim s t) (p : Nat) (o : ℚ) :
    Sim (shiftZ s p o) (shiftZ t p o) := by
  refine ⟨fun q => ?_, h.2.1, h.2.2⟩
  unfold shiftZ
  simp only [store_heap]
  split
  · exact body_congr_z (h.1 p) o
  · exact h.1 q

theorem Sim_shiftY {s t : NucleonCollection} (h : Sim s t) (p : Nat) (o : ℚ) :
    Sim (shiftY s p o) (shiftY t p o) := by
  refine ⟨fun q => ?_, h.2.1, h.2.2⟩
  unfold shiftY
  simp only [store_heap]
  split
  · exact body_congr_y (h.1 p) o
  · exact h.1 q

theorem Sim_shiftX {s t : NucleonCollection} (h : Sim s t) (p : Nat) (o : ℚ) :
    Sim (shiftX s p o) (shiftX t p o) := by
  refine ⟨fun q => ?_, h.2.1, h.2.2⟩
  unfold shiftX
  simp only [store_heap]
  split
  · exact body_congr_x (h.1 p) o
  · exact h.1 q

theorem offset_sim {s t : NucleonCollection} (h : Sim s t) (i : Int) : offset t i = offset s i := by
  unfold offset
  rw [length_eq_of_grid h.2.2, units_eq_of_grid h.2.2]

theorem cubes_sim {s t : NucleonCollection} (h : Sim s t) : t.cubes = s.cubes :=
  cubes_eq_of_layout h.2.1

theorem cube_index_sim {s t : NucleonCollection} (h : Sim s t) (p : Nat) :
    (t.heap p).cube_i = (s.heap p).cube_i ∧ (t.heap p).cube_j = (s.heap p).cube_j ∧
      (t.heap p).cube_k = (s.heap p).cube_k := by
  have := (body_eq_iff _ _).1 (h.1 p)
  exact ⟨this.2.1, this.2.2.1, this.2.2.2.1⟩

theorem visitsK_sim (L : Likelihoods) (p : Nat) (i j : Int) {s t : NucleonCollection}
    (h : Sim s t) (k : Int) : visitsK L p i j t k = visitsK L p i j s k := by
  unfold visitsK
  rw [cubes_sim h, units_eq_of_grid h.2.2, offset_sim h]
  apply List.flatMap_congr
  intro m _
  exact visitStep_sim L p (Sim_shiftZ h p _) m

theorem visitsJ_sim (L : Likelihoods) (p : Nat) (i : Int) {s t : NucleonCollection}
    (h : Sim s t) (j : Int) : visitsJ L p i t j = visitsJ L p i s j := by
  unfold visitsJ
  rw [(cube_index_sim h p).2.2, pairwise_units_eq_of_grid h.2.2, offset_sim h]
  apply List.flatMap_congr
  intro k _
  exact visitsK_sim L p i j (Sim_shiftY h p _) k

theorem visitsI_sim (L : Likelihoods) (p : Nat) {s t : NucleonCollection}
    (h : Sim s t) (i : Int) : visitsI L p t i = visitsI L p s i := by
  unfold visitsI
  rw [(cube_index_sim h p).2.1, pairwise_units_eq_of_grid h.2.2, offset_sim h]
  apply List.flatMap_congr
  intro j _
  exact visitsJ_sim L p i (Sim_shiftX h p _) j

theorem stepK_sim (L : Likelihoods) (p : Nat) (i j : Int) (s : NucleonCollection) (k : Int) :
    Sim s (stepK L p i j s k) :=
  ⟨body_stepK L p i j s k, layout_stepK L p i j s k, grid_stepK L p i j s k⟩

theorem stepJ_sim (L : Likelihoods) (p : Nat) (i : Int) (s : NucleonCollection) (j : Int) :
    Sim s (stepJ L p i s j) :=
  ⟨body_stepJ L p i s j, layout_stepJ L p i s j, grid_stepJ L p i s j⟩

theorem stepI_sim (L : Likelihoods) (p : Nat) (s : NucleonCollection) (i : Int) :
    Sim s (stepI L p s i) :=
  ⟨body_stepI L p s i, layout_stepI L p s i, grid_stepI L p s i⟩

/-- Registering pair entries between a shift of `p` and the shift back. -/
theorem Appended_between (p : Nat) (V : List (Nat × ℚ)) (s s1 s2 : NucleonCollection)
    (n1 n2 : Nucleon) (h1 : s1 = s.store p n1)
    (hn1 : n1.pairwise_likelihoods = (s.heap p).pairwise_likelihoods)
    (hn2 : n2.pairwise_likelihoods = (s2.heap p).pairwise_likelihoods)
    (h : Appended p V s1 s2) : Appended p V s (s2.store p n2) := by
  obtain ⟨a1, a2, a3⟩ := h
  subst h1
  refine ⟨?_, ?_, fun q hq => ?_⟩
  · rw [store_likelihood, a1, store_likelihood]
  · rw [store_heap_same, hn2, a2, store_heap_same, hn1]
  · rw [store_heap_ne _ _ _ _ hq, a3 q hq, store_heap_ne _ _ _ _ hq]

theorem stepK_appended (L : Likelihoods) (p : Nat) (i j : Int) (s : NucleonCollection) (k : Int) :
    Appended p (visitsK L p i j s k) s (stepK L p i j s k) := by
  have h := (foldl_appended p (pairStep L p) (visitStep L p) (pairStep_appended L p)
    (pairStep_sim L p) (fun t u a hs => visitStep_sim L p hs a)
    (s.cubes (wrapIndex s.units i) (wrapIndex s.units j) (wrapIndex s.units k))
    (shiftZ s p (offset s k))).1
  exact Appended_between p _ s (shiftZ s p (offset s k)) _ _ _ rfl rfl rfl h

theorem stepJ_appended (L : Likelihoods) (p : Nat) (i : Int) (s : NucleonCollection) (j : Int) :
    Appended p (visitsJ L p i s j) s (stepJ L p i s j) := by
  have h := (foldl_appended p (stepK L p i j) (visitsK L p i j) (stepK_appended L p i j)
    (stepK_sim L p i j) (fun t u a hs => visitsK_sim L p i j hs a)
    (window ((shiftY s p (offset s j)).heap p).cube_k (shiftY s p (offset s j)).pairwise_units)
    (shiftY s p (offset s j))).1
  have hw : window ((shiftY s p (offset s j)).heap p).cube_k (shiftY s p (offset s j)).pairwise_units
      = window (s.heap p).cube_k s.pairwise_units := by
    unfold shiftY; rw [store_heap_same]; rfl
  have hV : visitsJ L p i s j = (window ((shiftY s p (offset s j)).heap p).cube_k
      (shiftY s p (offset s j)).pairwise_units).flatMap
      (visitsK L p i j (shiftY s p (offset s j))) := by
    unfold visitsJ; rw [hw]
  rw [hV]
  exact Appended_between p _ s (shiftY s p (offset s j)) _ _ _ rfl rfl rfl h

theorem stepI_appended (L : Likelihoods) (p : Nat) (s : NucleonCollection) (i : Int) :
    Appended p (visitsI L p s i) s (stepI L p s i) := by
  have h := (foldl_appended p (stepJ L p i) (visitsJ L p i) (stepJ_appended L p i)
    (stepJ_sim L p i) (fun t u a hs => visitsJ_sim L p i hs a)
    (window ((shiftX s p (offset s i)).heap p).cube_j (shiftX s p (offset s i)).pairwise_units)
    (shiftX s p (offset s i))).1
  have hw : window ((shiftX s p (offset s i)).heap p).cube_j (shiftX s p (offset s i)).pairwise_units
      = window (s.heap p).cube_j s.pairwise_units := by
    unfold shiftX; rw [store_heap_same]; rfl
  have hV : visitsI L p s i = (window ((shiftX s p (offset s i)).heap p).cube_j
      (shiftX s p (offset s i)).pairwise_units).flatMap
      (visitsJ L p i (shiftX s p (offset s i))) := by
    unfold visitsI; rw [hw]
  rw [hV]
  exact Appended_between p _ s (shiftX s p (offset s i)) _ _ _ rfl rfl rfl h

/-- The traversal of the neighbour bins registers exactly the entries `visits`. -/
theorem neighbourLoop_appended (L : Likelihoods) (p : Nat) (s : NucleonCollection) :
    Appended p (visits L p s) s (neighbourLoop L p s) ∧ Sim s (neighbourLoop L p s) :=
  foldl_appended p (stepI L p) (visitsI L p) (stepI_appended L p) (stepI_sim L p)
    (fun _ _ a hs => visitsI_sim L p hs a) (window (s.heap p).cube_i s.pairwise_units) s

theorem countUp_sim (s : NucleonCollection) : ∀ q, ((countUp s).heap q) = s.heap q := fun _ => rfl

/-- `InsertExistingNucleon` is `register` followed by the registration of the
entries `insertVisits`. -/
theorem InsertExistingNucleon_appended (L : Likelihoods) (s : NucleonCollection) (p pos : Nat) :
    Appended p (insertVisits L s p pos) (register L s p pos) (InsertExistingNucleon L s p pos) ∧
      (∀ q, ((InsertExistingNucleon L s p pos).heap q).body = ((register L s p pos).heap q).body) ∧
      (InsertExistingNucleon L s p pos).cubes = (register L s p pos).cubes := by
  unfold insertVisits
  rw [InsertExistingNucleon_eq]
  by_cases h : (register L s p pos).pairwise_units = 0
  · rw [if_pos h, if_pos h]
    exact ⟨Appended_refl p _, fun _ => rfl, rfl⟩
  · rw [if_neg h, if_neg h]
    obtain ⟨h1, h2⟩ := neighbourLoop_appended L p (register L s p pos)
    exact ⟨h1, h2.1, cubes_eq_of_layout (s := neighbourLoop L p (register L s p pos)) h2.2.1⟩

theorem pairs_register_self (L : Likelihoods) (s : NucleonCollection) (p pos : Nat) :
    ((register L s p pos).heap p).pairwise_likelihoods = [] := by
  simp [register, adopt]

theorem single_register_self (L : Likelihoods) (s : NucleonCollection) (p pos : Nat) :
    ((register L s p pos).heap p).single_likelihood =
      L.f1 ((register L s p pos).heap p).toParticle := by
  simp [register, adopt]

theorem removeLoop_likelihood (p : Nat) : ∀ (es : List (Nat × ℚ)) (s : NucleonCollection),
    (es.foldl (removeStep p) s).likelihood = s.likelihood / (es.map Prod.snd).prod := by
  intro es
  induction es with
  | nil => intro s; simp
  | cons e es ih =>
    intro s
    rw [List.foldl_cons, ih]
    show s.likelihood / e.2 / _ = _
    rw [List.map_cons, List.prod_cons, div_div]

theorem removeLoop_pairs (p q : Nat) : ∀ (es : List (Nat × ℚ)) (s : NucleonCollection),
    ((es.foldl (removeStep p) s).heap q).pairwise_likelihoods =
      (erasePeer p)^[(es.filter (fun e => e.1 = q)).length] (s.heap q).pairwise_likelihoods := by
  intro es
  induction es with
  | nil => intro s; rfl
  | cons e es ih =>
    intro s
    rw [List.foldl_cons, ih]
    unfold removeStep
    simp only [store_heap]
    by_cases h : q = e.1
    · rw [if_pos h]
      have hd : e.1 = q := h.symm
      simp only [List.filter_cons, hd, decide_True, if_true, List.length_cons,
        Function.iterate_succ_apply]
    · rw [if_neg h]
      have hd : ¬ e.1 = q := fun e' => h e'.symm
      simp only [List.filter_cons, hd, decide_False]
      rfl

theorem unpair_likelihood (s : NucleonCollection) (p : Nat) :
    (unpair s p).likelihood = s.likelihood / (s.heap p).single_likelihood /
      ((s.heap p).pairwise_likelihoods.map Prod.snd).prod := by
  unfold unpair
  simp only [store_likelihood]
  rw [removeLoop_likelihood]

theorem unpair_pairs_self (s : NucleonCollection) (p : Nat) :
    ((unpair s p).heap p).pairwise_likelihoods = [] := by
  unfold unpair
  simp only [store_heap_same]

theorem unpair_pairs_ne (s : NucleonCollection) (p q : Nat) (h : q ≠ p) :
    ((unpair s p).heap q).pairwise_likelihoods =
      (erasePeer p)^[((s.heap p).pairwise_likelihoods.filter (fun e => e.1 = q)).length]
        (s.heap q).pairwise_likelihoods := by
  unfold unpair
  simp only []
  rw [store_heap_ne _ _ _ _ h, removeLoop_pairs]

theorem heap_RemoveNucleon (s : NucleonCollection) (p : Nat) :
    (RemoveNucleon s p).1.heap = (unpair s p).heap := by
  unfold RemoveNucleon
  rw [heap_RemoveNucleonFromOrdered]
  rfl

theorem likelihood_RemoveNucleonFromOrdered (s : NucleonCollection) (p : Nat) :
    (RemoveNucleonFromOrdered s p).1.likelihood = s.likelihood := by
  unfold RemoveNucleonFromOrdered; split <;> rfl

theorem likelihood_RemoveNucleon (s : NucleonCollection) (p : Nat) :
    (RemoveNucleon s p).1.likelihood = s.likelihood / (s.heap p).single_likelihood /
      ((s.heap p).pairwise_likelihoods.map Prod.snd).prod := by
  unfold RemoveNucleon
  rw [likelihood_RemoveNucleonFromOrdered]
  exact unpair_likelihood s p

theorem erasePeer_cons (p : Nat) (e : Nat × ℚ) (l : List (Nat × ℚ)) :
    erasePeer p (e :: l) = if e.1 = p then l else e :: erasePeer p l := by
  unfold erasePeer
  rw [List.eraseP_cons]
  by_cases h : e.1 = p <;> simp [h]

theorem filter_erasePeer_ne (p b : Nat) (h : b ≠ p) : ∀ l : List (Nat × ℚ),
    (erasePeer p l).filter (fun e => e.1 = b) = l.filter (fun e => e.1 = b) := by
  intro l
  induction l with
  | nil => rfl
  | cons e l ih =>
    rw [erasePeer_cons]
    by_cases he : e.1 = p
    · rw [if_pos he]
      have : ¬ e.1 = b := fun e' => h (e'.symm.trans he)
      simp [List.filter_cons, this]
    · rw [if_neg he]
      simp only [List.filter_cons, ih]

theorem filter_erasePeer_self (p : Nat) : ∀ l : List (Nat × ℚ),
    (erasePeer p l).filter (fun e => e.1 = p) = (l.filter (fun e => e.1 = p)).tail := by
  intro l
  induction l with
  | nil => rfl
  | cons e l ih =>
    rw [erasePeer_cons]
    by_cases he : e.1 = p
    · rw [if_pos he]
      simp [List.filter_cons, he]
    · rw [if_neg he]
      simp only [List.filter_cons, he, decide_False, ih]
      rfl

theorem filter_iterate_erasePeer_ne (p b : Nat) (h : b ≠ p) (k : Nat) : ∀ l : List (Nat × ℚ),
    ((erasePeer p)^[k] l).filter (fun e => e.1 = b) = l.filter (fun e => e.1 = b) := by
  induction k with
  | zero => intro l; rfl
  | succ k ih =>
    intro l
    rw [Function.iterate_succ_apply, ih, filter_erasePeer_ne p b h]

theorem filter_iterate_erasePeer_self (p : Nat) (k : Nat) : ∀ l : List (Nat × ℚ),
    ((erasePeer p)^[k] l).filter (fun e => e.1 = p) = (l.filter (fun e => e.1 = p)).drop k := by
  induction k with
  | zero => intro l; rfl
  | succ k ih =>
    intro l
    rw [Function.iterate_succ_apply, ih, filter_erasePeer_self]
    simp [List.drop_tail]

theorem valuesFor_RemoveNucleon_ne (s : NucleonCollection) (n a b : Nat) (ha : a ≠ n) (hb : b ≠ n) :
    valuesFor (RemoveNucleon s n).1 a b = valuesFor s a b := by
  unfold valuesFor
  rw [heap_RemoveNucleon, unpair_pairs_ne s n a ha, filter_iterate_erasePeer_ne n b hb]

theorem valuesFor_RemoveNucleon_self (s : NucleonCollection) (n b : Nat) :
    valuesFor (RemoveNucleon s n).1 n b = [] := by
  unfold valuesFor
  rw [heap_RemoveNucleon, unpair_pairs_self]
  rfl

theorem valuesFor_RemoveNucleon_peer (s : NucleonCollection) (n a : Nat) (ha : a ≠ n)
    (h : (valuesFor s a n).length ≤ (valuesFor s n a).length) :
    valuesFor (RemoveNucleon s n).1 a n = [] := by
  unfold valuesFor at h ⊢
  rw [heap_RemoveNucleon, unpair_pairs_ne s n a ha, filter_iterate_erasePeer_self]
  simp only [List.length_map] at h
  rw [List.drop_eq_nil_of_le h]
  rfl

theorem pairs_InsertExistingNucleon_self (L : Likelihoods) (s : NucleonCollection) (n pos : Nat) :
    ((InsertExistingNucleon L s n pos).heap n).pairwise_likelihoods = insertVisits L s n pos := by
  rw [(InsertExistingNucleon_appended L s n pos).1.2.1, pairs_register_self]
  rfl

theorem pairs_InsertExistingNucleon_ne (L : Likelihoods) (s : NucleonCollection) (n pos q : Nat)
    (h : q ≠ n) :
    ((InsertExistingNucleon L s n pos).heap q).pairwise_likelihoods =
      (s.heap q).pairwise_likelihoods ++
        ((insertVisits L s n pos).filter (fun e => e.1 = q)).map (fun e => (n, e.2)) := by
  rw [(InsertExistingNucleon_appended L s n pos).1.2.2 q h, heap_register_ne _ _ _ _ _ h]

theorem valuesFor_InsertExistingNucleon_self (L : Likelihoods) (s : NucleonCollection)
    (n pos b : Nat) :
    valuesFor (InsertExistingNucleon L s n pos) n b =
      ((insertVisits L s n pos).filter (fun e => e.1 = b)).map Prod.snd := by
  unfold valuesFor
  rw [pairs_InsertExistingNucleon_self]

theorem valuesFor_InsertExistingNucleon_peer (L : Likelihoods) (s : NucleonCollection)
    (n pos a : Nat) (h : a ≠ n) :
    valuesFor (InsertExistingNucleon L s n pos) a n =
      valuesFor s a n ++ ((insertVisits L s n pos).filter (fun e => e.1 = a)).map Prod.snd := by
  unfold valuesFor
  rw [pairs_InsertExistingNucleon_ne L s n pos a h, List.filter_append, List.map_append]
  congr 1
  rw [List.filter_map, List.map_map]
  have : (List.filter ((fun e : Nat × ℚ => decide (e.1 = n)) ∘ fun e => (n, e.2))
      (List.filter (fun e => decide (e.1 = a)) (insertVisits L s n pos))) =
      List.filter (fun e => decide (e.1 = a)) (insertVisits L s n pos) := by
    apply List.filter_eq_self.2
    intro e _
    simp
  rw [this]
  rfl

theorem valuesFor_InsertExistingNucleon_ne (L : Likelihoods) (s : NucleonCollection)
    (n pos a b : Nat) (ha : a ≠ n) (hb : b ≠ n) :
    valuesFor (InsertExistingNucleon L s n pos) a b = valuesFor s a b := by
  unfold valuesFor
  rw [pairs_InsertExistingNucleon_ne L s n pos a ha, List.filter_append, List.map_append]
  have : List.filter (fun e => decide (e.1 = b))
      (List.map (fun e => (n, e.2)) (List.filter (fun e => decide (e.1 = a))
        (insertVisits L s n pos))) = [] := by
    apply List.filter_eq_nil_iff.2
    intro e he
    obtain ⟨e', _, rfl⟩ := List.mem_map.1 he
    have hnb : ¬ n = b := fun h => hb h.symm
    simp [hnb]
  rw [this]
  simp

/-- C17 (amended): `InsertExistingNucleon` of a non-member `n` for which no member
holds an entry keeps the pair lists balanced, and `RemoveNucleon` of a member
`n` keeps them balanced, leaves no entry for `n` on any remaining member and
leaves the pair list of `n` empty. -/
theorem insert_remove_keep_balanced (L : Likelihoods) (s : NucleonCollection) (n pos : Nat)
    (hB : Balanced s) :
    (n ∉ s.ordered → (∀ m ∈ s.ordered, valuesFor s m n = []) →
        Balanced (InsertExistingNucleon L s n pos)) ∧
      (n ∈ s.ordered →
        Balanced (RemoveNucleon s n).1 ∧
        (∀ m ∈ (RemoveNucleon s n).1.ordered, valuesFor (RemoveNucleon s n).1 m n = []) ∧
        ((RemoveNucleon s n).1.heap n).pairwise_likelihoods = []) := by
  constructor
  · intro hn hstale a ha b hb hab
    rw [ordered_InsertExistingNucleon] at ha hb
    have ha' := mem_insertIdx_imp _ _ _ _ ha
    have hb' := mem_insertIdx_imp _ _ _ _ hb
    by_cases han : a = n
    · subst han
      have hbn : b ≠ a := fun e => hab e.symm
      have hbm : b ∈ s.ordered := hb'.resolve_left hbn
      rw [valuesFor_InsertExistingNucleon_self, valuesFor_InsertExistingNucleon_peer _ _ _ _ _ hbn,
        hstale b hbm, List.nil_append]
    · have ham : a ∈ s.ordered := ha'.resolve_left han
      by_cases hbn : b = n
      · subst hbn
        rw [valuesFor_InsertExistingNucleon_self, valuesFor_InsertExistingNucleon_peer _ _ _ _ _ han,
          hstale a ham, List.nil_append]
      · have hbm : b ∈ s.ordered := hb'.resolve_left hbn
        rw [valuesFor_InsertExistingNucleon_ne _ _ _ _ _ _ han hbn,
          valuesFor_InsertExistingNucleon_ne _ _ _ _ _ _ hbn han]
        exact hB a ham b hbm hab
  · intro hn
    have hpeer : ∀ m ∈ s.ordered, m ≠ n → valuesFor (RemoveNucleon s n).1 m n = [] := by
      intro m hm hmn
      apply valuesFor_RemoveNucleon_peer s n m hmn
      exact le_of_eq (hB m hm n hn hmn).length_eq
    refine ⟨?_, ?_, ?_⟩
    · intro a ha b hb hab
      rw [ordered_RemoveNucleon] at ha hb
      have ham := List.mem_of_mem_erase ha
      have hbm := List.mem_of_mem_erase hb
      by_cases han : a = n
      · subst han
        rw [valuesFor_RemoveNucleon_self, hpeer b hbm (fun e => hab e.symm)]
      · by_cases hbn : b = n
        · subst hbn
          rw [valuesFor_RemoveNucleon_self, hpeer a ham han]
        · rw [valuesFor_RemoveNucleon_ne s n a b han hbn, valuesFor_RemoveNucleon_ne s n b a hbn han]
          exact hB a ham b hbm hab
    · intro m hm
      rw [ordered_RemoveNucleon] at hm
      by_cases hmn : m = n
      · subst hmn; exact valuesFor_RemoveNucleon_self s m m
      · exact hpeer m (List.mem_of_mem_erase hm) hmn
    · rw [heap_RemoveNucleon, unpair_pairs_self]

/-- C17 (instance): removing n2 (address 2) from scenario S3 leaves a balanced
collection in which n1 holds no entry. -/
theorem insert_remove_keep_balanced_witness :
    Balanced (RemoveNucleon scenarioS3 2).1 ∧
      ((RemoveNucleon scenarioS3 2).1.heap 1).pairwise_likelihoods = [] := by
  have h := (insert_remove_keep_balanced scenarioLikelihoods scenarioS3 2 0 (by decide!)).2
    (by decide!)
  exact ⟨h.1, by decide!⟩

/-- C17 (counterexample): from scenario S5 (where the same-bin move left n2 with
the entry `(n1, 1.04)` and n1 with none), `RemoveNucleon(n1)` gives a balanced
collection with the single member n2, still holding its entry for n1; after
`InsertExistingNucleon(n1)` n2 holds two values for n1 and n1 one for n2. -/
theorem insert_with_stale_entry_unbalanced :
    Balanced (RemoveNucleon scenarioS5 1).1 ∧ 1 ∉ (RemoveNucleon scenarioS5 1).1.ordered ∧
      valuesFor (InsertExistingNucleon scenarioLikelihoods (RemoveNucleon scenarioS5 1).1 1 0) 2 1
        = [104 / 100, 104 / 100] ∧
      valuesFor (InsertExistingNucleon scenarioLikelihoods (RemoveNucleon scenarioS5 1).1 1 0) 1 2
        = [104 / 100] ∧
      ¬ Balanced (InsertExistingNucleon scenarioLikelihoods (RemoveNucleon scenarioS5 1).1 1 0) := by
  decide!

theorem erase_insertIdx_of_not_mem (n : Nat) : ∀ (pos : Nat) (l : List Nat), n ∉ l →
    pos ≤ l.length → (l.insertIdx pos n).erase n = l ∧ (l.insertIdx pos n).indexOf n = pos := by
  intro pos
  induction pos with
  | zero => intro l _ _; simp [List.insertIdx]
  | succ k ih =>
    intro l hn hpos
    cases l with
    | nil => simp at hpos
    | cons a l =>
      have han : a ≠ n := fun e => hn (e ▸ List.mem_cons_self _ _)
      have hnl : n ∉ l := fun h => hn (List.mem_cons_of_mem _ h)
      obtain ⟨h1, h2⟩ := ih l hnl (by simpa using hpos)
      rw [List.insertIdx_succ_cons]
      refine ⟨?_, ?_⟩
      · rw [List.erase_cons_tail (by simpa using han), h1]
      · rw [List.indexOf_cons_ne _ han, h2]

theorem iterate_erasePeer_append (n : Nat) (l : List (Nat × ℚ))
    (hl : l.filter (fun e => e.1 = n) = []) : ∀ X : List ℚ,
    (erasePeer n)^[X.length] (l ++ X.map (fun v => (n, v))) = l := by
  intro X
  induction X with
  | nil => simp
  | cons v X ih =>
    rw [List.length_cons, Function.iterate_succ_apply]
    have : erasePeer n (l ++ List.map (fun v => (n, v)) (v :: X)) =
        l ++ List.map (fun v => (n, v)) X := by
      unfold erasePeer
      rw [List.eraseP_append_right]
      · simp
      · intro e he
        have := List.filter_eq_nil_iff.1 hl e he
        simpa using this
    rw [this, ih]

theorem cubes_setCube_setCube (s : NucleonCollection) (c : Int × Int × Int) (l : List Nat) :
    ((s.setCube c l).setCube c (s.cubeAt c)).cubes = s.cubes := by
  funext i j k
  unfold NucleonCollection.setCube NucleonCollection.cubeAt
  simp only []
  by_cases h : (i, j, k) = c
  · rw [if_pos h]; subst h; rfl
  · rw [if_neg h, if_neg h]

theorem cube_of_body {a b : Nucleon} (h : a.body = b.body) : a.cube = b.cube :=
  ((body_eq_iff a b).1 h).2.2.2.2.1

theorem cubes_register (L : Likelihoods) (s : NucleonCollection) (n pos : Nat) :
    (register L s n pos).cubes = (s.setCube ((register L s n pos).heap n).cube
      (s.cubeAt ((register L s n pos).heap n).cube ++ [n])).cubes := by
  simp [register, adopt, locate, splice, BringInsideRegion, NucleonCollection.setCube,
    NucleonCollection.cubeAt, NucleonCollection.store, FindCube]

theorem cubes_RemoveNucleonFromOrdered (s : NucleonCollection) (p : Nat) :
    (RemoveNucleonFromOrdered s p).1.cubes = s.cubes := by
  unfold RemoveNucleonFromOrdered; split <;> rfl

theorem cubes_RemoveNucleon (s : NucleonCollection) (p : Nat) :
    (RemoveNucleon s p).1.cubes =
      (s.setCube (s.heap p).cube ((s.cubeAt (s.heap p).cube).erase p)).cubes := by
  unfold RemoveNucleon
  rw [cubes_RemoveNucleonFromOrdered]
  unfold RemoveNucleonFromCube
  have h1 : ((unpair s p).heap p).cube = (s.heap p).cube := cube_of_body (body_unpair s p p)
  have h2 : (unpair s p).cubes = s.cubes := cubes_eq_of_layout (layout_unpair s p)
  simp only [h1]
  unfold NucleonCollection.setCube NucleonCollection.cubeAt
  simp only [h2]

/-- C18 (amended): for a non-member `n` for which no member holds an entry and
which is not in the bin it is pushed into, a position `pos` of the ordered list, a counter in the
range of `unsigned int` and non-zero factors during the insertion,
`InsertExistingNucleon(n, pos)` followed by `RemoveNucleon(n)` restores the
likelihood, the ordered list, the count, every bin and the pair list of every
member, and `RemoveNucleon` returns `pos`. -/
theorem insert_then_remove (L : Likelihoods) (s : NucleonCollection) (n pos : Nat)
    (hn : n ∉ s.ordered) (hpos : pos ≤ s.ordered.length) (hc : s.nucleon_count < 4294967296)
    (hbin : n ∉ s.cubeAt ((InsertExistingNucleon L s n pos).heap n).cube) (hstale : ∀ q ∈ s.ordered, valuesFor s q n = [])
    (hf1 : ((InsertExistingNucleon L s n pos).heap n).single_likelihood ≠ 0)
    (hf2 : ∀ e ∈ ((InsertExistingNucleon L s n pos).heap n).pairwise_likelihoods, e.2 ≠ 0) :
    (RemoveNucleon (InsertExistingNucleon L s n pos) n).1.likelihood = s.likelihood ∧
      (RemoveNucleon (InsertExistingNucleon L s n pos) n).1.ordered = s.ordered ∧
      (RemoveNucleon (InsertExistingNucleon L s n pos) n).1.nucleon_count = s.nucleon_count ∧
      (RemoveNucleon (InsertExistingNucleon L s n pos) n).1.cubes = s.cubes ∧
      (∀ q ∈ s.ordered, ((RemoveNucleon (InsertExistingNucleon L s n pos) n).1.heap q).pairwise_likelihoods
        = (s.heap q).pairwise_likelihoods) ∧
      (RemoveNucleon (InsertExistingNucleon L s n pos) n).2 = pos := by
  obtain ⟨hA, hbody, hcubes⟩ := InsertExistingNucleon_appended L s n pos
  have hmem : n ∈ (InsertExistingNucleon L s n pos).ordered := by
    rw [ordered_InsertExistingNucleon]
    exact (List.mem_insertIdx hpos).2 (Or.inl rfl)
  obtain ⟨r1, r2, r3⟩ := RemoveNucleon_of_mem _ n hmem
  obtain ⟨e1, e2⟩ := erase_insertIdx_of_not_mem n pos s.ordered hn hpos
  have hV : ((InsertExistingNucleon L s n pos).heap n).pairwise_likelihoods =
      insertVisits L s n pos := pairs_InsertExistingNucleon_self L s n pos
  refine ⟨?_, ?_, ?_, ?_, ?_, ?_⟩
  · rw [likelihood_RemoveNucleon, hA.1, hV, likelihood_register]
    have hs : ((InsertExistingNucleon L s n pos).heap n).single_likelihood =
        L.f1 { (s.heap n).toParticle with x := bringAxis s.length (s.heap n).x,
                                          y := bringAxis s.length (s.heap n).y,
                                          z := bringAxis s.length (s.heap n).z } := by
      rw [single_of_body (hbody n), single_register_self]
      unfold register
      rw [show ((adopt L (locate (splice s n pos) n) n).heap n).toParticle
        = ((locate (splice s n pos) n).heap n).toParticle from by simp [adopt]]
      rw [particle_locate, particle_splice]
    rw [hs] at hf1 ⊢
    have hprod : ((insertVisits L s n pos).map Prod.snd).prod ≠ 0 := by
      apply List.prod_ne_zero
      intro h0
      obtain ⟨e, he, he0⟩ := List.mem_map.1 h0
      rw [hV] at hf2
      exact hf2 e he he0
    field_simp
    ring
  · rw [r1, ordered_InsertExistingNucleon, e1]
  · rw [r3, count_InsertExistingNucleon]
    split <;> omega
  · rw [cubes_RemoveNucleon, cube_of_body (hbody n)]
    have hcube : (InsertExistingNucleon L s n pos).cubeAt ((register L s n pos).heap n).cube =
        s.cubeAt ((register L s n pos).heap n).cube ++ [n] := by
      unfold NucleonCollection.cubeAt
      rw [hcubes, cubes_register]
      exact setCube_cubeAt_same s _ _
    rw [cube_of_body (hbody n)] at hbin
    rw [hcube, List.erase_append_right _ hbin]
    have : [n].erase n = [] := by simp
    rw [this, List.append_nil]
    funext i j k
    unfold NucleonCollection.setCube
    simp only []
    rw [hcubes, cubes_register]
    unfold NucleonCollection.setCube NucleonCollection.cubeAt
    simp only []
    by_cases h : (i, j, k) = ((register L s n pos).heap n).cube
    · rw [if_pos h, ← h]
    · rw [if_neg h, if_neg h]
  · intro q hq
    have hqn : q ≠ n := fun e => hn (e ▸ hq)
    rw [heap_RemoveNucleon, unpair_pairs_ne _ n q hqn, hV,
      pairs_InsertExistingNucleon_ne L s n pos q hqn]
    have hl : (s.heap q).pairwise_likelihoods.filter (fun e => e.1 = n) = [] := by
      have := hstale q hq
      unfold valuesFor at this
      exact List.map_eq_nil_iff.1 this
    have hX := iterate_erasePeer_append n (s.heap q).pairwise_likelihoods hl
      (((insertVisits L s n pos).filter (fun e => e.1 = q)).map Prod.snd)
    rw [List.length_map, List.map_map] at hX
    exact hX
  · rw [r2, ordered_InsertExistingNucleon, e2]

/-- C18 (instance): in scenario S3, inserting the nucleon at address 3 (at the
origin) at position 1 and removing it again restores the likelihood 1.03 and
returns position 1. -/
theorem insert_then_remove_witness :
    (RemoveNucleon (InsertExistingNucleon scenarioLikelihoods scenarioS3 3 1) 3).1.likelihood
        = 103 / 100 ∧
      (RemoveNucleon (InsertExistingNucleon scenarioLikelihoods scenarioS3 3 1) 3).2 = 1 := by
  have h := insert_then_remove scenarioLikelihoods scenarioS3 3 1 (by decide!) (by decide!)
    (by decide!) (by decide!) (by decide!) (by decide!) (by decide!)
  exact ⟨h.1.trans (by decide!), h.2.2.2.2.2⟩

/-- C18 (counterexample): in `scenarioStale` the only member n2 (address 2) still
holds the entry `(n1, 1.04)` for the non-member n1 (address 1, now at
(0.1,0,0)); the collection is balanced and all factors are non-zero, yet after
`InsertExistingNucleon(n1)` and `RemoveNucleon(n1)` the pair list of n2 is
`[(n1, 1.03)]`. -/
theorem insert_then_remove_changes_stale_entry :
    Balanced scenarioStale ∧ 1 ∉ scenarioStale.ordered ∧ scenarioStale.ordered = [2] ∧
      position scenarioStale 1 = (1 / 10, 0, 0) ∧
      (scenarioStale.heap 2).pairwise_likelihoods = [(1, 104 / 100)] ∧
      ((InsertExistingNucleon scenarioLikelihoods scenarioStale 1 0).heap 1).pairwise_likelihoods
        = [(2, 103 / 100)] ∧
      ((RemoveNucleon (InsertExistingNucleon scenarioLikelihoods scenarioStale 1 0) 1).1.heap
        2).pairwise_likelihoods = [(1, 103 / 100)] := by
  decide!

theorem findIndex_shift (U : Nat) (len cl c : ℚ) (k : ℤ) (hU : 0 < U) (hU2 : 2 * U ≤ 2147483648)
    (hL : 0 < len) (hcl : cl = len / U)
    (h0 : 0 ≤ ⌊c / cl⌋ + (U : Int)) (h1 : ⌊c / cl⌋ + (U : Int) < 4294967296)
    (h2 : 0 ≤ ⌊c / cl⌋ + (U : Int) + 2 * (U : Int) * k)
    (h3 : ⌊c / cl⌋ + (U : Int) + 2 * (U : Int) * k < 4294967296) :
    findIndex U cl (c + k * (2 * len)) = findIndex U cl c := by
  have hUq : (U : ℚ) ≠ 0 := by exact_mod_cast (Nat.pos_iff_ne_zero.1 hU)
  have hdiv : (c + k * (2 * len)) / cl = c / cl + ((2 * (U : Int) * k : Int) : ℚ) := by
    rw [hcl]
    push_cast
    field_simp
    ring
  have hfl : ⌊(c + k * (2 * len)) / cl⌋ = ⌊c / cl⌋ + 2 * (U : Int) * k := by
    rw [hdiv, Int.floor_add_int]
  have e1 := (findIndex_of_inRange U cl c hU hU2 h0 h1).1
  have e2 := (findIndex_of_inRange U cl (c + k * (2 * len)) hU hU2
    (by rw [hfl]; omega) (by rw [hfl]; omega)).1
  rw [e1, e2, hfl]
  have : ⌊c / cl⌋ + 2 * (U : Int) * k + (U : Int) = ⌊c / cl⌋ + (U : Int) + 2 * (U : Int) * k := by ring
  rw [this, Int.add_mul_emod_self_left]

/-- C7 (failing input): with `U = 1`, `L = 1`, `f1 = 1 + x^2` and a member at the
origin, moving the member by `+2L` on the x axis takes the same-bin branch,
which stores the raw target and calls `f1` there: the likelihood goes from 1
to 5.  The cross-bin branch normalises the target before it calls `f1`: with
`U = 3`, `L = 3` and a member at `x = 0.5`, the move by `-2L` takes that branch
and leaves the likelihood at `5/4` and the member at `x = 0.5`. -/
theorem periodic_move_changes_likelihood :
    (AddNucleon quadraticLikelihoods (construct 0 1 1 emptyHeap) 1 (particleAt 0 0 0)).likelihood = 1 ∧
      position (AddNucleon quadraticLikelihoods (construct 0 1 1 emptyHeap) 1 (particleAt 0 0 0)) 1
        = (0, 0, 0) ∧
      (AddNucleon quadraticLikelihoods (construct 0 1 1 emptyHeap) 1 (particleAt 0 0 0)).length = 1 ∧
      (SetNucleonPosition quadraticLikelihoods
        (AddNucleon quadraticLikelihoods (construct 0 1 1 emptyHeap) 1 (particleAt 0 0 0)) 1
        (0 + 2 * 1) 0 0).likelihood = 5 ∧
      position (SetNucleonPosition quadraticLikelihoods
        (AddNucleon quadraticLikelihoods (construct 0 1 1 emptyHeap) 1 (particleAt 0 0 0)) 1
        (0 + 2 * 1) 0 0) 1 = (2, 0, 0) ∧
      (AddNucleon quadraticLikelihoods (construct 0 3 3 emptyHeap) 1
        (particleAt (1 / 2) 0 0)).likelihood = 5 / 4 ∧
      (SetNucleonPosition quadraticLikelihoods
        (AddNucleon quadraticLikelihoods (construct 0 3 3 emptyHeap) 1 (particleAt (1 / 2) 0 0)) 1
        (1 / 2 - 2 * 3) 0 0).likelihood = 5 / 4 ∧
      position (SetNucleonPosition quadraticLikelihoods
        (AddNucleon quadraticLikelihoods (construct 0 3 3 emptyHeap) 1 (particleAt (1 / 2) 0 0)) 1
        (1 / 2 - 2 * 3) 0 0) 1 = (1 / 2, 0, 0) := by
  decide!

/-- A move by whole periods inside the bin: let the bin recorded on `n` be the bin
of its coordinates, let
the target differ from them by integer multiples of `2L` on each axis, with the
sum `floor(c / cube_length) + U` inside `[0, 2^32)` for the old and for the new
coordinate of each axis, and let the callbacks return at the target the
non-zero factors cached on `n`.  Then `SetNucleonPosition` leaves the
likelihood and every bin unchanged and `n` keeps its bin. -/
theorem periodic_move_noop (L : Likelihoods) (s : NucleonCollection) (n : Nat) (kx ky kz : ℤ)
    (hU : 0 < s.units) (hU2 : 2 * s.units ≤ 2147483648) (hL : 0 < s.length)
    (hcl : s.cube_length = s.length / s.units)
    (hbin : (s.heap n).cube = FindCube s (s.heap n).x (s.heap n).y (s.heap n).z)
    (hx0 : 0 ≤ ⌊(s.heap n).x / s.cube_length⌋ + (s.units : Int))
    (hx1 : ⌊(s.heap n).x / s.cube_length⌋ + (s.units : Int) < 4294967296)
    (hx2 : 0 ≤ ⌊(s.heap n).x / s.cube_length⌋ + (s.units : Int) + 2 * (s.units : Int) * kx)
    (hx3 : ⌊(s.heap n).x / s.cube_length⌋ + (s.units : Int) + 2 * (s.units : Int) * kx < 4294967296)
    (hy0 : 0 ≤ ⌊(s.heap n).y / s.cube_length⌋ + (s.units : Int))
    (hy1 : ⌊(s.heap n).y / s.cube_length⌋ + (s.units : Int) < 4294967296)
    (hy2 : 0 ≤ ⌊(s.heap n).y / s.cube_length⌋ + (s.units : Int) + 2 * (s.units : Int) * ky)
    (hy3 : ⌊(s.heap n).y / s.cube_length⌋ + (s.units : Int) + 2 * (s.units : Int) * ky < 4294967296)
    (hz0 : 0 ≤ ⌊(s.heap n).z / s.cube_length⌋ + (s.units : Int))
    (hz1 : ⌊(s.heap n).z / s.cube_length⌋ + (s.units : Int) < 4294967296)
    (hz2 : 0 ≤ ⌊(s.heap n).z / s.cube_length⌋ + (s.units : Int) + 2 * (s.units : Int) * kz)
    (hz3 : ⌊(s.heap n).z / s.cube_length⌋ + (s.units : Int) + 2 * (s.units : Int) * kz < 4294967296)
    (hself : ∀ e ∈ (s.heap n).pairwise_likelihoods, e.1 ≠ n)
    (hs : (s.heap n).single_likelihood ≠ 0)
    (hv : ∀ e ∈ (s.heap n).pairwise_likelihoods, e.2 ≠ 0)
    (hf1 : L.f1 { (s.heap n).toParticle with x := (s.heap n).x + kx * (2 * s.length),
                                             y := (s.heap n).y + ky * (2 * s.length),
                                             z := (s.heap n).z + kz * (2 * s.length) }
      = (s.heap n).single_likelihood)
    (hf2 : ∀ e ∈ (s.heap n).pairwise_likelihoods,
      L.f2 { (s.heap n).toParticle with x := (s.heap n).x + kx * (2 * s.length),
                                        y := (s.heap n).y + ky * (2 * s.length),
                                        z := (s.heap n).z + kz * (2 * s.length) }
        (s.heap e.1).toParticle = e.2) :
    (SetNucleonPosition L s n ((s.heap n).x + kx * (2 * s.length))
        ((s.heap n).y + ky * (2 * s.length)) ((s.heap n).z + kz * (2 * s.length))).likelihood
        = s.likelihood ∧
      (SetNucleonPosition L s n ((s.heap n).x + kx * (2 * s.length))
        ((s.heap n).y + ky * (2 * s.length)) ((s.heap n).z + kz * (2 * s.length))).cubes = s.cubes ∧
      ((SetNucleonPosition L s n ((s.heap n).x + kx * (2 * s.length))
        ((s.heap n).y + ky * (2 * s.length)) ((s.heap n).z + kz * (2 * s.length))).heap n).cube
        = (s.heap n).cube := by
  have hsame : FindCube s ((s.heap n).x + kx * (2 * s.length))
      ((s.heap n).y + ky * (2 * s.length)) ((s.heap n).z + kz * (2 * s.length)) = (s.heap n).cube := by
    rw [hbin]
    unfold FindCube
    rw [findIndex_shift s.units s.length s.cube_length _ kx hU hU2 hL hcl hx0 hx1 hx2 hx3,
      findIndex_shift s.units s.length s.cube_length _ ky hU hU2 hL hcl hy0 hy1 hy2 hy3,
      findIndex_shift s.units s.length s.cube_length _ kz hU hU2 hL hcl hz0 hz1 hz2 hz3]
  obtain ⟨h1, _, _⟩ := sameBin_move_likelihood L s n _ _ _ hsame hself hs hv
  refine ⟨?_, ?_, ?_⟩
  · rw [h1, hf1, div_self hs, mul_one]
    have : ((s.heap n).pairwise_likelihoods.map (fun e =>
        L.f2 { (s.heap n).toParticle with x := (s.heap n).x + kx * (2 * s.length),
                                          y := (s.heap n).y + ky * (2 * s.length),
                                          z := (s.heap n).z + kz * (2 * s.length) }
          (s.heap e.1).toParticle / e.2)) =
        (s.heap n).pairwise_likelihoods.map (fun _ => (1 : ℚ)) := by
      apply List.map_congr_left
      intro e he
      rw [hf2 e he, div_self (hv e he)]
    rw [this]
    simp
  · have hc : ((writePosition (record s n) n ((s.heap n).x + kx * (2 * s.length))
        ((s.heap n).y + ky * (2 * s.length)) ((s.heap n).z + kz * (2 * s.length))).heap n).cube
        = (s.heap n).cube := by
      unfold writePosition
      rw [store_heap_same, heap_record]
    have hF : ∀ a b c, FindCube (record s n) a b c = FindCube s a b c := by
      intro a b c
      unfold FindCube
      rw [units_eq_of_grid (grid_record s n), cube_length_eq_of_grid (grid_record s n)]
    rw [SetNucleonPosition_eq, hc, hF, if_pos hsame,
      cubes_eq_of_layout (layout_sameBin L _ n), cubes_eq_of_layout (layout_writePosition _ _ _ _ _),
      cubes_eq_of_layout (layout_record s n)]
  · have hc : ((writePosition (record s n) n ((s.heap n).x + kx * (2 * s.length))
        ((s.heap n).y + ky * (2 * s.length)) ((s.heap n).z + kz * (2 * s.length))).heap n).cube
        = (s.heap n).cube := by
      unfold writePosition
      rw [store_heap_same, heap_record]
    have hF : ∀ a b c, FindCube (record s n) a b c = FindCube s a b c := by
      intro a b c
      unfold FindCube
      rw [units_eq_of_grid (grid_record s n), cube_length_eq_of_grid (grid_record s n)]
    rw [SetNucleonPosition_eq, hc, hF, if_pos hsame, sameBin_eq,
      cube_of_body (body_moveLoop L n n _ 0 _)]
    simp [refreshSingle, writePosition, heap_record]

theorem BinsSound_congr {s t : NucleonCollection} (ho : t.ordered = s.ordered)
    (hc : t.cubes = s.cubes) (hb : ∀ q, (t.heap q).cube = (s.heap q).cube) (h : BinsSound s) :
    BinsSound t := by
  obtain ⟨h1, h2, h3⟩ := h
  have hcube : ∀ b, t.cubeAt b = s.cubeAt b := by
    intro b; unfold NucleonCollection.cubeAt; rw [hc]
  refine ⟨by rw [ho]; exact h1, fun b q hq => ?_, fun q hq => ?_⟩
  · rw [hcube] at hq
    rw [ho, hb]
    exact h2 b q hq
  · rw [ho] at hq
    rw [hb, hcube]
    exact h3 q hq

theorem Located_congr {s t : NucleonCollection} {q : Nat} (hg : grid t = grid s)
    (hb : (t.heap q).body = (s.heap q).body) (h : Located s q) : Located t q := by
  obtain ⟨h1, h2⟩ := h
  have e := (body_eq_iff _ _).1 hb
  have hx : (t.heap q).x = (s.heap q).x := congrArg Particle.x e.1
  have hy : (t.heap q).y = (s.heap q).y := congrArg Particle.y e.1
  have hz : (t.heap q).z = (s.heap q).z := congrArg Particle.z e.1
  unfold Located FindCube
  rw [hx, hy, hz, e.2.1, e.2.2.1, e.2.2.2.1, e.2.2.2.2.1, units_eq_of_grid hg,
    cube_length_eq_of_grid hg]
  exact ⟨h1, h2⟩

theorem cubeAt_setCube (s : NucleonCollection) (c b : Int × Int × Int) (l : List Nat) :
    (s.setCube c l).cubeAt b = if b = c then l else s.cubeAt b := by
  by_cases h : b = c
  · subst h; rw [if_pos rfl]; exact setCube_cubeAt_same s b l
  · rw [if_neg h]; exact setCube_cubeAt_ne s c b l h

theorem cubeAt_RemoveNucleon (s : NucleonCollection) (p : Nat) (b : Int × Int × Int) :
    (RemoveNucleon s p).1.cubeAt b =
      if b = (s.heap p).cube then (s.cubeAt (s.heap p).cube).erase p else s.cubeAt b := by
  have h := cubes_RemoveNucleon s p
  unfold NucleonCollection.cubeAt at *
  rw [h]
  exact cubeAt_setCube s _ b _

theorem BinsSound_RemoveNucleon (s : NucleonCollection) (p : Nat) (h : BinsSound s) :
    BinsSound (RemoveNucleon s p).1 := by
  obtain ⟨h1, h2, h3⟩ := h
  have hcube : ∀ q, ((RemoveNucleon s p).1.heap q).cube = (s.heap q).cube :=
    fun q => cube_of_body (body_RemoveNucleon s p q)
  have hnotin : p ∉ (s.cubeAt (s.heap p).cube).erase p := by
    intro hp
    have hmem := List.mem_of_mem_erase hp
    have hcount := h3 p (h2 _ _ hmem).1
    have : (List.count p ((s.cubeAt (s.heap p).cube).erase p)) = 0 := by
      rw [List.count_erase_self, hcount]
    exact (List.count_pos_iff.2 hp).ne' this
  refine ⟨?_, fun b q hq => ?_, fun q hq => ?_⟩
  · rw [ordered_RemoveNucleon]; exact h1.erase p
  · rw [cubeAt_RemoveNucleon] at hq
    rw [ordered_RemoveNucleon, hcube]
    by_cases hb : b = (s.heap p).cube
    · rw [if_pos hb] at hq
      have hqp : q ≠ p := fun e => hnotin (e ▸ hq)
      have := h2 _ _ (List.mem_of_mem_erase hq)
      exact ⟨(List.mem_erase_of_ne hqp).2 this.1, this.2.trans hb.symm⟩
    · rw [if_neg hb] at hq
      have := h2 _ _ hq
      have hqp : q ≠ p := fun e => hb (by rw [← this.2, e])
      exact ⟨(List.mem_erase_of_ne hqp).2 this.1, this.2⟩
  · rw [ordered_RemoveNucleon] at hq
    have hqp : q ≠ p := (h1.mem_erase_iff.1 hq).1
    have hqm : q ∈ s.ordered := List.mem_of_mem_erase hq
    rw [hcube, cubeAt_RemoveNucleon]
    by_cases hb : (s.heap q).cube = (s.heap p).cube
    · rw [if_pos hb, List.count_erase_of_ne hqp, ← hb]
      exact h3 q hqm
    · rw [if_neg hb]
      exact h3 q hqm

theorem Located_RemoveNucleon (s : NucleonCollection) (p q : Nat) (h : Located s q) :
    Located (RemoveNucleon s p).1 q :=
  Located_congr (grid_RemoveNucleon s p) (body_RemoveNucleon s p q) h

theorem cubeAt_register (L : Likelihoods) (s : NucleonCollection) (n pos : Nat)
    (b : Int × Int × Int) :
    (register L s n pos).cubeAt b =
      if b = ((register L s n pos).heap n).cube then
        s.cubeAt ((register L s n pos).heap n).cube ++ [n]
      else s.cubeAt b := by
  have h := cubes_register L s n pos
  unfold NucleonCollection.cubeAt at *
  rw [h]
  exact cubeAt_setCube s _ b _

theorem Located_register (L : Likelihoods) (s : NucleonCollection) (n pos : Nat) :
    Located (register L s n pos) n := by
  unfold Located
  simp [register, adopt, locate, splice, BringInsideRegion, FindCube, NucleonCollection.setCube]

theorem cube_register_ne (L : Likelihoods) (s : NucleonCollection) (n pos q : Nat) (h : q ≠ n) :
    ((register L s n pos).heap q).cube = (s.heap q).cube := by
  rw [heap_register_ne _ _ _ _ _ h]

theorem nodup_insertIdx (n : Nat) (l : List Nat) (pos : Nat) (hpos : pos ≤ l.length)
    (hn : n ∉ l) (hl : l.Nodup) : (l.insertIdx pos n).Nodup :=
  (List.perm_insertIdx n l hpos).nodup_iff.2 (List.nodup_cons.2 ⟨hn, hl⟩)

theorem BinsSound_register (L : Likelihoods) (s : NucleonCollection) (n pos : Nat)
    (hn : n ∉ s.ordered) (hpos : pos ≤ s.ordered.length) (h : BinsSound s) :
    BinsSound (register L s n pos) := by
  obtain ⟨h1, h2, h3⟩ := h
  have hnb : ∀ b, n ∉ s.cubeAt b := fun b hb => hn (h2 b n hb).1
  refine ⟨?_, fun b q hq => ?_, fun q hq => ?_⟩
  · rw [ordered_register]; exact nodup_insertIdx n _ pos hpos hn h1
  · rw [cubeAt_register] at hq
    rw [ordered_register, List.mem_insertIdx hpos]
    by_cases hb : b = ((register L s n pos).heap n).cube
    · rw [if_pos hb] at hq
      rcases List.mem_append.1 hq with hq | hq
      · have := h2 _ _ hq
        have hqn : q ≠ n := fun e => hn (e ▸ this.1)
        exact ⟨Or.inr this.1, by rw [cube_register_ne _ _ _ _ _ hqn, this.2, hb]⟩
      · have hqn : q = n := by simpa using hq
        subst hqn
        exact ⟨Or.inl rfl, hb.symm⟩
    · rw [if_neg hb] at hq
      have := h2 _ _ hq
      have hqn : q ≠ n := fun e => hn (e ▸ this.1)
      exact ⟨Or.inr this.1, by rw [cube_register_ne _ _ _ _ _ hqn, this.2]⟩
  · rw [ordered_register, List.mem_insertIdx hpos] at hq
    rw [cubeAt_register]
    by_cases hqn : q = n
    · subst hqn
      rw [if_pos rfl, List.count_append, List.count_eq_zero_of_not_mem (hnb _)]
      simp
    · have hqm : q ∈ s.ordered := hq.resolve_left hqn
      rw [cube_register_ne _ _ _ _ _ hqn]
      by_cases hb : (s.heap q).cube = ((register L s n pos).heap n).cube
      · rw [if_pos hb, List.count_append, ← hb, h3 q hqm]
        have hnq : q ∉ [n] := by simpa using hqn
        rw [List.count_eq_zero_of_not_mem hnq]
      · rw [if_neg hb]; exact h3 q hqm

theorem BinConsistent_InsertExistingNucleon (L : Likelihoods) (s : NucleonCollection) (n pos : Nat)
    (hn : n ∉ s.ordered) (hpos : pos ≤ s.ordered.length) (h : BinsSound s)
    (hloc : ∀ q ∈ s.ordered, Located s q) :
    BinConsistent (InsertExistingNucleon L s n pos) := by
  obtain ⟨_, hbody, hcubes⟩ := InsertExistingNucleon_appended L s n pos
  have hord : (InsertExistingNucleon L s n pos).ordered = (register L s n pos).ordered := by
    rw [ordered_InsertExistingNucleon, ordered_register]
  have hgrid : grid (InsertExistingNucleon L s n pos) = grid (register L s n pos) := by
    rw [grid_InsertExistingNucleon, grid_register]
  refine ⟨BinsSound_congr hord hcubes (fun q => cube_of_body (hbody q))
    (BinsSound_register L s n pos hn hpos h), fun q hq => ?_⟩
  apply Located_congr hgrid (hbody q)
  rw [ordered_InsertExistingNucleon, List.mem_insertIdx hpos] at hq
  by_cases hqn : q = n
  · subst hqn; exact Located_register L s q pos
  · have hqm : q ∈ s.ordered := hq.resolve_left hqn
    apply Located_congr (grid_register L s n pos) _ (hloc q hqm)
    rw [heap_register_ne _ _ _ _ _ hqn]

theorem place_of_body {a b : Nucleon} (h : a.body = b.body) : a.place = b.place := by
  have e := (body_eq_iff _ _).1 h
  unfold Nucleon.place
  rw [congrArg Particle.x e.1, congrArg Particle.y e.1, congrArg Particle.z e.1, e.2.1, e.2.2.1,
    e.2.2.2.1, e.2.2.2.2.1]

theorem Located_of_place {s t : NucleonCollection} {q : Nat} (hg : grid t = grid s)
    (hb : (t.heap q).place = (s.heap q).place) (h : Located s q) : Located t q := by
  obtain ⟨h1, h2⟩ := h
  unfold Nucleon.place at hb
  simp only [Prod.mk.injEq] at hb
  obtain ⟨hx, hy, hz, hi, hj, hk, hc⟩ := hb
  unfold Located FindCube
  rw [hx, hy, hz, hi, hj, hk, hc, units_eq_of_grid hg, cube_length_eq_of_grid hg]
  exact ⟨h1, h2⟩

theorem BinConsistent_congr {s t : NucleonCollection} (ho : t.ordered = s.ordered)
    (hc : t.cubes = s.cubes) (hg : grid t = grid s)
    (hb : ∀ q, (t.heap q).place = (s.heap q).place) (h : BinConsistent s) : BinConsistent t := by
  have hcube : ∀ q, (t.heap q).cube = (s.heap q).cube := fun q =>
    congrArg (fun v => v.2.2.2.2.2.2) (hb q)
  refine ⟨BinsSound_congr ho hc hcube h.1, fun q hq => ?_⟩
  rw [ho] at hq
  exact Located_of_place hg (hb q) (h.2 q hq)

theorem place_refreshSingle (L : Likelihoods) (s : NucleonCollection) (p q : Nat) :
    ((refreshSingle L s p).heap q).place = (s.heap q).place := by
  unfold refreshSingle
  simp only [store_heap]
  split
  · next h => subst h; rfl
  · rfl

theorem place_sameBin (L : Likelihoods) (s : NucleonCollection) (p q : Nat) :
    ((sameBin L s p).heap q).place = (s.heap q).place := by
  rw [sameBin_eq, place_of_body (body_moveLoop L p q _ 0 _), place_refreshSingle]

theorem BinConsistent_sameBin (L : Likelihoods) (s : NucleonCollection) (p : Nat)
    (h : BinConsistent s) : BinConsistent (sameBin L s p) :=
  BinConsistent_congr (ordered_eq_of_layout (layout_sameBin L s p))
    (cubes_eq_of_layout (layout_sameBin L s p)) (grid_sameBin L s p) (place_sameBin L s p) h

theorem BinsSound_writePosition (s : NucleonCollection) (p : Nat) (x y z : ℚ) (h : BinsSound s) :
    BinsSound (writePosition s p x y z) := by
  refine BinsSound_congr (ordered_eq_of_layout (layout_writePosition s p x y z))
    (cubes_eq_of_layout (layout_writePosition s p x y z)) (fun q => ?_) h
  unfold writePosition
  simp only [store_heap]
  split
  · next e => subst e; rfl
  · rfl

theorem Located_writePosition_ne (s : NucleonCollection) (p : Nat) (x y z : ℚ) (q : Nat)
    (hq : q ≠ p) (h : Located s q) : Located (writePosition s p x y z) q := by
  apply Located_of_place (grid_writePosition s p x y z) _ h
  unfold writePosition
  rw [store_heap_ne _ _ _ _ hq]

theorem Located_writePosition_self (s : NucleonCollection) (p : Nat) (x y z : ℚ)
    (h : FindCube s x y z = ((writePosition s p x y z).heap p).cube) :
    Located (writePosition s p x y z) p := by
  have hF : FindCube (writePosition s p x y z) x y z = FindCube s x y z := by
    unfold FindCube
    rw [units_eq_of_grid (grid_writePosition _ _ _ _ _),
      cube_length_eq_of_grid (grid_writePosition _ _ _ _ _)]
  have hx : ((writePosition s p x y z).heap p).x = x := by
    unfold writePosition; rw [store_heap_same]
  have hy : ((writePosition s p x y z).heap p).y = y := by
    unfold writePosition; rw [store_heap_same]
  have hz : ((writePosition s p x y z).heap p).z = z := by
    unfold writePosition; rw [store_heap_same]
  have hi : (((writePosition s p x y z).heap p).cube_i, ((writePosition s p x y z).heap p).cube_j,
      ((writePosition s p x y z).heap p).cube_k) = FindCube s x y z := by
    unfold writePosition; rw [store_heap_same]
  unfold Located
  rw [hx, hy, hz, hF, hi]
  exact ⟨h.symm, h⟩

theorem BinConsistent_record (s : NucleonCollection) (p : Nat) (h : BinConsistent s) :
    BinConsistent (record s p) :=
  BinConsistent_congr (ordered_eq_of_layout (layout_record s p))
    (cubes_eq_of_layout (layout_record s p)) (grid_record s p)
    (fun q => by rw [heap_record]) h

theorem BinConsistent_SetNucleonPosition (L : Likelihoods) (s : NucleonCollection) (p : Nat)
    (x y z : ℚ) (h : BinConsistent s) : BinConsistent (SetNucleonPosition L s p x y z) := by
  rw [SetNucleonPosition_eq]
  have h1 := BinConsistent_record s p h
  generalize record s p = s1 at h1 ⊢
  have hw : BinsSound (writePosition s1 p x y z) := BinsSound_writePosition s1 p x y z h1.1
  have hwo : (writePosition s1 p x y z).ordered = s1.ordered :=
    ordered_eq_of_layout (layout_writePosition s1 p x y z)
  by_cases hsame : FindCube s1 x y z = ((writePosition s1 p x y z).heap p).cube
  · rw [if_pos hsame]
    apply BinConsistent_sameBin
    refine ⟨hw, fun q hq => ?_⟩
    by_cases hqp : q = p
    · subst hqp; exact Located_writePosition_self s1 q x y z hsame
    · rw [hwo] at hq
      exact Located_writePosition_ne s1 p x y z q hqp (h1.2 q hq)
  · rw [if_neg hsame]
    have hro : (RemoveNucleon (writePosition s1 p x y z) p).1.ordered = s1.ordered.erase p := by
      rw [ordered_RemoveNucleon, hwo]
    apply BinConsistent_InsertExistingNucleon
    · rw [hro]
      exact fun hm => (List.Nodup.mem_erase_iff h1.1.1).1 hm |>.1 rfl
    · by_cases hp : p ∈ (writePosition s1 p x y z).ordered
      · rw [(RemoveNucleon_of_mem _ p hp).2.1, hro, hwo, List.length_erase_of_mem (hwo ▸ hp)]
        have := List.indexOf_lt_length.2 (hwo ▸ hp)
        omega
      · rw [(RemoveNucleon_of_not_mem _ p hp).2.1, (RemoveNucleon_of_not_mem _ p hp).1]
    · exact BinsSound_RemoveNucleon _ p hw
    · intro q hq
      rw [hro] at hq
      have hqp : q ≠ p := ((List.Nodup.mem_erase_iff h1.1.1).1 hq).1
      have hqm : q ∈ s1.ordered := List.mem_of_mem_erase hq
      exact Located_RemoveNucleon _ p q
        (Located_writePosition_ne s1 p x y z q hqp (h1.2 q hqm))

theorem BinConsistent_construct (pairwise_max : ℚ) (units : Nat) (length : ℚ)
    (heap : Nat → Nucleon) : BinConsistent (construct pairwise_max units length heap) := by
  refine ⟨⟨List.nodup_nil, fun b q hq => ?_, fun q hq => ?_⟩, fun q hq => ?_⟩
  · exact absurd hq (List.not_mem_nil q)
  · exact absurd hq (List.not_mem_nil q)
  · exact absurd hq (List.not_mem_nil q)

theorem BinConsistent_store (s : NucleonCollection) (p : Nat) (n : Nucleon)
    (hp : p ∉ s.ordered) (h : BinConsistent s) :
    BinsSound (s.store p n) ∧ ∀ q ∈ (s.store p n).ordered, Located (s.store p n) q := by
  have hne : ∀ q ∈ s.ordered, (s.store p n).heap q = s.heap q := fun q hq =>
    store_heap_ne s p q n (fun e => hp (e ▸ hq))
  obtain ⟨⟨h1, h2, h3⟩, h4⟩ := h
  refine ⟨⟨h1, fun b q hq => ?_, fun q hq => ?_⟩, fun q hq => ?_⟩
  · have := h2 b q hq
    exact ⟨this.1, by rw [hne q this.1]; exact this.2⟩
  · rw [hne q hq]; exact h3 q hq
  · exact @Located_of_place s (s.store p n) q rfl (by rw [hne q hq]) (h4 q hq)

theorem BinConsistent_AddNucleon (L : Likelihoods) (s : NucleonCollection) (p : Nat)
    (v : Particle) (hp : p ∉ s.ordered) (h : BinConsistent s) :
    BinConsistent (AddNucleon L s p v) := by
  obtain ⟨a, b⟩ := BinConsistent_store s p (newNucleon v) hp h
  exact BinConsistent_InsertExistingNucleon L _ p _ hp (le_refl _) a b

theorem BinConsistent_Checkpoint (s : NucleonCollection) (h : BinConsistent s) :
    BinConsistent (Checkpoint s).1 :=
  BinConsistent_congr rfl rfl rfl (fun _ => rfl) h

theorem BinConsistent_flush (L : Likelihoods) (s : NucleonCollection) (l : RevertLocals)
    (h : BinConsistent s) : BinConsistent (flush L s l) := by
  unfold flush
  cases l.last_nucleon with
  | none => exact h
  | some last => exact BinConsistent_SetNucleonPosition L s last _ _ _ h

theorem BinConsistent_revertLoop (L : Likelihoods) : ∀ (fuel : Nat) (s : NucleonCollection)
    (l : RevertLocals), BinConsistent s → BinConsistent (revertLoop L fuel s l).1 := by
  intro fuel
  induction fuel with
  | zero => intro s l h; exact h
  | succ n ih =>
    intro s l h
    cases hc : s.cached_nucleons with
    | nil => rw [revertLoop_nil L _ s l hc]; exact h
    | cons next rest =>
      obtain ⟨s2, hs2, heq⟩ := revertLoop_cons L n s l next rest hc
      rw [heq]
      apply ih
      have h0 : BinConsistent { s with cached_nucleons := rest } :=
        BinConsistent_congr rfl rfl rfl (fun _ => rfl) h
      have h2 : BinConsistent s2 := by
        rw [hs2]
        split
        · exact h0
        · exact BinConsistent_flush L _ l h0
      exact BinConsistent_congr rfl rfl rfl (fun _ => rfl) h2

theorem BinConsistent_Revert (L : Likelihoods) (s : NucleonCollection) (h : BinConsistent s) :
    BinConsistent (Revert L s).1 := by
  unfold Revert
  split
  · exact h
  · simp only []
    have h0 : BinConsistent { s with recording := false } :=
      BinConsistent_congr rfl rfl rfl (fun _ => rfl) h
    have h1 := BinConsistent_revertLoop L s.cached_nucleons.length { s with recording := false }
      ⟨none, 0, 0, 0, 0⟩ h0
    generalize revertLoop L s.cached_nucleons.length { s with recording := false }
      ⟨none, 0, 0, 0, 0⟩ = r at h1 ⊢
    have h2 := BinConsistent_flush L r.1 r.2 h1
    unfold flush at h2
    exact BinConsistent_congr rfl rfl rfl (fun _ => rfl) h2

theorem Reachable_BinConsistent (L : Likelihoods) (s : NucleonCollection) (h : Reachable L s) :
    BinConsistent s := by
  induction h with
  | init pm u len heap _ _ => exact BinConsistent_construct pm u len heap
  | add s p v _ hp ih => exact BinConsistent_AddNucleon L s p v hp ih
  | insert s p pos _ hp hpos ih =>
    exact BinConsistent_InsertExistingNucleon L s p pos hp hpos ih.1 ih.2
  | remove s p _ ih =>
    refine ⟨BinsSound_RemoveNucleon s p ih.1, fun q hq => ?_⟩
    rw [ordered_RemoveNucleon] at hq
    exact Located_RemoveNucleon s p q (ih.2 q (List.mem_of_mem_erase hq))
  | move s p x y z _ ih => exact BinConsistent_SetNucleonPosition L s p x y z ih
  | checkpoint s _ ih => exact BinConsistent_Checkpoint s ih
  | revert s _ ih => exact BinConsistent_Revert L s ih

/-- C6: bin consistency is an invariant of every reachable state: after any
sequence of `AddNucleon` and `InsertExistingNucleon` (of a non-member),
`RemoveNucleon`, `SetNucleonPosition`, `Checkpoint` and `Revert` from a
constructed collection, the bin recorded on a member `n` and its cached
indices are the bin `FindCube` returns for the coordinates of `n`, that bin
contains `n` exactly once, and no other bin contains `n`. -/
theorem bin_consistency (L : Likelihoods) (s : NucleonCollection) (h : Reachable L s) (n : Nat)
    (hn : n ∈ s.ordered) :
    (s.heap n).cube = FindCube s (s.heap n).x (s.heap n).y (s.heap n).z ∧
      ((s.heap n).cube_i, (s.heap n).cube_j, (s.heap n).cube_k)
        = FindCube s (s.heap n).x (s.heap n).y (s.heap n).z ∧
      (s.cubeAt (s.heap n).cube).count n = 1 ∧
      ∀ b, n ∈ s.cubeAt b → b = (s.heap n).cube := by
  obtain ⟨⟨_, h2, h3⟩, h4⟩ := Reachable_BinConsistent L s h
  obtain ⟨a, b⟩ := h4 n hn
  exact ⟨a, b.trans a, h3 n hn, fun c hc => (h2 c n hc).2.symm⟩

/-- C6 (instance): scenario S3, then `Checkpoint`, a move of n2 across bins to
`(-0.5, 0, 0)` and `Revert`: n2 is back in the bin `(1, 1, 1)` of `(0.3, 0, 0)`. -/
theorem bin_consistency_witness :
    (2 ∈ (Revert scenarioLikelihoods (SetNucleonPosition scenarioLikelihoods
        (Checkpoint scenarioS3).1 2 (-1 / 2) 0 0)).1.ordered ∧
      ((Revert scenarioLikelihoods (SetNucleonPosition scenarioLikelihoods
        (Checkpoint scenarioS3).1 2 (-1 / 2) 0 0)).1.heap 2).cube = (1, 1, 1)) ∧
      (((Revert scenarioLikelihoods (SetNucleonPosition scenarioLikelihoods
        (Checkpoint scenarioS3).1 2 (-1 / 2) 0 0)).1.cubeAt
          ((Revert scenarioLikelihoods (SetNucleonPosition scenarioLikelihoods
            (Checkpoint scenarioS3).1 2 (-1 / 2) 0 0)).1.heap 2).cube).count 2 = 1) :=
  ⟨by decide!, (bin_consistency scenarioLikelihoods _
    (Reachable.revert _ (Reachable.move _ 2 (-1 / 2) 0 0 (Reachable.checkpoint _
      (Reachable.add _ 2 (particleAt (3 / 10) 0 0)
        (Reachable.add _ 1 (particleAt 0 0 0)
          (Reachable.init (1 / 2) 1 1 emptyHeap (by decide) (by decide!)) (by decide!))
        (by decide!))))) 2 (by decide!)).2.2.1⟩

theorem prod_map_erase (l : List Nat) (p : Nat) (hp : p ∈ l) (g : Nat → ℚ) :
    (l.map g).prod = g p * ((l.erase p).map g).prod := by
  rw [((List.perm_cons_erase hp).map g).prod_eq, List.map_cons, List.prod_cons]

theorem prod_map_insertIdx (l : List Nat) (p pos : Nat) (hpos : pos ≤ l.length) (g : Nat → ℚ) :
    ((l.insertIdx pos p).map g).prod = g p * (l.map g).prod := by
  rw [((List.perm_insertIdx p l hpos).map g).prod_eq, List.map_cons, List.prod_cons]

theorem particle_register (L : Likelihoods) (s : NucleonCollection) (p pos : Nat) :
    ((register L s p pos).heap p).toParticle =
      { (s.heap p).toParticle with x := bringAxis s.length (s.heap p).x,
                                   y := bringAxis s.length (s.heap p).y,
                                   z := bringAxis s.length (s.heap p).z } := by
  simp [register, adopt, locate, splice, BringInsideRegion, NucleonCollection.setCube]

theorem InsertExistingNucleon_noPair (L : Likelihoods) (s : NucleonCollection) (p pos : Nat)
    (h : s.pairwise_units = 0) :
    InsertExistingNucleon L s p pos = countUp (register L s p pos) := by
  rw [InsertExistingNucleon_eq, if_pos]
  rw [pairwise_units_eq_of_grid (grid_register L s p pos)]; exact h

theorem NoPairs_InsertExistingNucleon (L : Likelihoods) (hf : ∀ v, L.f1 v ≠ 0)
    (s : NucleonCollection) (p pos : Nat) (hp : p ∉ s.ordered) (hpos : pos ≤ s.ordered.length)
    (h : NoPairs s) (hs : ∀ q ∈ s.ordered, q ≠ p →
      (s.heap q).single_likelihood = L.f1 (s.heap q).toParticle) :
    NoPairs (InsertExistingNucleon L s p pos) ∧ SinglesFresh L (InsertExistingNucleon L s p pos) := by
  obtain ⟨h0, h1, h2, h3⟩ := h
  rw [InsertExistingNucleon_noPair L s p pos h0]
  have hne : ∀ q ∈ s.ordered, (register L s p pos).heap q = s.heap q := fun q hq =>
    heap_register_ne L s p pos q (fun e => hp (e ▸ hq))
  have hmem : ∀ q, q ∈ (register L s p pos).ordered → q = p ∨ q ∈ s.ordered := by
    intro q hq
    rw [ordered_register, List.mem_insertIdx hpos] at hq
    exact hq
  refine ⟨⟨?_, ?_, fun q hq => ?_, ?_⟩, fun q hq => ?_⟩
  · show (register L s p pos).pairwise_units = 0
    rw [pairwise_units_eq_of_grid (grid_register L s p pos)]; exact h0
  · show (register L s p pos).ordered.Nodup
    rw [ordered_register]; exact nodup_insertIdx p _ pos hpos hp h1
  · show ((register L s p pos).heap q).pairwise_likelihoods = [] ∧
      ((register L s p pos).heap q).single_likelihood ≠ 0
    rcases hmem q hq with e | hm
    · subst e
      rw [single_register_self]
      exact ⟨pairs_register_self L s q pos, hf _⟩
    · rw [hne q hm]; exact h2 q hm
  · show (register L s p pos).likelihood =
      ((register L s p pos).ordered.map (fun q => ((register L s p pos).heap q).single_likelihood)).prod
    rw [ordered_register, prod_map_insertIdx _ _ _ hpos, single_register_self, particle_register,
      likelihood_register, h3, mul_comm]
    congr 2
    exact List.map_congr_left (fun q hq => by rw [hne q hq])
  · show ((register L s p pos).heap q).single_likelihood = L.f1 ((register L s p pos).heap q).toParticle
    rcases hmem q hq with e | hm
    · subst e; exact single_register_self L s q pos
    · rw [hne q hm]; exact hs q hm (fun e => hp (e ▸ hm))

theorem NoPairs_RemoveNucleon (s : NucleonCollection) (p : Nat) (hp : p ∈ s.ordered)
    (h : NoPairs s) :
    NoPairs (RemoveNucleon s p).1 ∧ p ∉ (RemoveNucleon s p).1.ordered ∧
      ∀ q, q ≠ p → (RemoveNucleon s p).1.heap q = s.heap q := by
  obtain ⟨h0, h1, h2, h3⟩ := h
  have hpairs : (s.heap p).pairwise_likelihoods = [] := (h2 p hp).1
  have hheap : ∀ q, q ≠ p → (RemoveNucleon s p).1.heap q = s.heap q := by
    intro q hq
    have hb := body_RemoveNucleon s p q
    have hl : ((RemoveNucleon s p).1.heap q).pairwise_likelihoods =
        (s.heap q).pairwise_likelihoods := by
      rw [heap_RemoveNucleon, unpair_pairs_ne s p q hq, hpairs]
      rfl
    have e := (body_eq_iff _ _).1 hb
    cases hA : (RemoveNucleon s p).1.heap q
    cases hB : s.heap q
    rw [hA, hB] at e hl
    simp only at e hl
    obtain ⟨e1, e2, e3, e4, e5, e6, e7⟩ := e
    subst e1 e2 e3 e4 e5 e6 e7 hl
    rfl
  refine ⟨⟨?_, ?_, fun q hq => ?_, ?_⟩, ?_, hheap⟩
  · rw [pairwise_units_eq_of_grid (grid_RemoveNucleon s p)]; exact h0
  · rw [ordered_RemoveNucleon]; exact h1.erase p
  · rw [ordered_RemoveNucleon] at hq
    have hqp : q ≠ p := ((List.Nodup.mem_erase_iff h1).1 hq).1
    rw [hheap q hqp]
    exact h2 q (List.mem_of_mem_erase hq)
  · rw [likelihood_RemoveNucleon, hpairs, ordered_RemoveNucleon, h3,
      prod_map_erase _ p hp (fun q => (s.heap q).single_likelihood)]
    simp only [List.map_nil, List.prod_nil, div_one]
    rw [mul_comm, mul_div_assoc, div_self (h2 p hp).2, mul_one]
    exact congrArg List.prod (List.map_congr_left (fun q hq => by
      rw [hheap q ((List.Nodup.mem_erase_iff h1).1 hq).1]))
  · rw [ordered_RemoveNucleon]
    exact fun hm => ((List.Nodup.mem_erase_iff h1).1 hm).1 rfl

theorem NoPairs_congr {s t : NucleonCollection} (hg : grid t = grid s) (ho : t.ordered = s.ordered)
    (hl : t.likelihood = s.likelihood)
    (hp : ∀ q, (t.heap q).pairwise_likelihoods = (s.heap q).pairwise_likelihoods)
    (hs : ∀ q, (t.heap q).single_likelihood = (s.heap q).single_likelihood) (h : NoPairs s) :
    NoPairs t := by
  obtain ⟨h0, h1, h2, h3⟩ := h
  refine ⟨by rw [pairwise_units_eq_of_grid hg]; exact h0, by rw [ho]; exact h1, fun q hq => ?_, ?_⟩
  · rw [hp, hs]; rw [ho] at hq; exact h2 q hq
  · rw [hl, ho, h3]
    exact congrArg List.prod (List.map_congr_left (fun q _ => (hs q).symm))

theorem NoPairs_record (s : NucleonCollection) (p : Nat) (h : NoPairs s) : NoPairs (record s p) := by
  refine NoPairs_congr (grid_record s p) (ordered_eq_of_layout (layout_record s p)) ?_
    (fun q => by rw [heap_record]) (fun q => by rw [heap_record]) h
  unfold record; split <;> rfl

theorem NoPairs_writePosition (s : NucleonCollection) (p : Nat) (x y z : ℚ) (h : NoPairs s) :
    NoPairs (writePosition s p x y z) := by
  refine NoPairs_congr (grid_writePosition s p x y z)
    (ordered_eq_of_layout (layout_writePosition s p x y z)) rfl (fun q => ?_) (fun q => ?_) h
  · unfold writePosition
    simp only [store_heap]
    split
    · next e => subst e; rfl
    · rfl
  · unfold writePosition
    simp only [store_heap]
    split
    · next e => subst e; rfl
    · rfl

theorem sameBin_noPair (L : Likelihoods) (s : NucleonCollection) (p : Nat)
    (h : (s.heap p).pairwise_likelihoods = []) : sameBin L s p = refreshSingle L s p := by
  have e : ((refreshSingle L s p).heap p).pairwise_likelihoods = [] := by
    rw [← h]; unfold refreshSingle; simp only [store_heap_same]
  rw [sameBin_eq, e]
  rfl

theorem NoPairs_refreshSingle (L : Likelihoods) (hf : ∀ v, L.f1 v ≠ 0) (s : NucleonCollection)
    (p : Nat) (hp : p ∈ s.ordered) (h : NoPairs s)
    (hs : ∀ q ∈ s.ordered, q ≠ p → (s.heap q).single_likelihood = L.f1 (s.heap q).toParticle) :
    NoPairs (refreshSingle L s p) ∧ SinglesFresh L (refreshSingle L s p) := by
  obtain ⟨h0, h1, h2, h3⟩ := h
  have hne : ∀ q, q ≠ p → (refreshSingle L s p).heap q = s.heap q := fun q hq =>
    body_refreshSingle_ne L s p q hq
  have hself : ((refreshSingle L s p).heap p).single_likelihood = L.f1 (s.heap p).toParticle ∧
      ((refreshSingle L s p).heap p).toParticle = (s.heap p).toParticle ∧
      ((refreshSingle L s p).heap p).pairwise_likelihoods = (s.heap p).pairwise_likelihoods := by
    unfold refreshSingle; simp only [store_heap_same, and_self]
  have hlik : (refreshSingle L s p).likelihood =
      s.likelihood / (s.heap p).single_likelihood * L.f1 (s.heap p).toParticle := by
    unfold refreshSingle; simp only [store_heap_same]; rfl
  have hord : (refreshSingle L s p).ordered = s.ordered :=
    ordered_eq_of_layout (layout_refreshSingle L s p)
  refine ⟨⟨?_, by rw [hord]; exact h1, fun q hq => ?_, ?_⟩, fun q hq => ?_⟩
  · rw [pairwise_units_eq_of_grid (grid_refreshSingle L s p)]; exact h0
  · rw [hord] at hq
    by_cases hqp : q = p
    · subst hqp
      rw [hself.1, hself.2.2]
      exact ⟨(h2 q hq).1, hf _⟩
    · rw [hne q hqp]; exact h2 q hq
  · rw [hlik, hord, h3, prod_map_erase _ p hp (fun q => (s.heap q).single_likelihood),
      prod_map_erase _ p hp (fun q => ((refreshSingle L s p).heap q).single_likelihood), hself.1]
    have e : ((s.ordered.erase p).map (fun q => ((refreshSingle L s p).heap q).single_likelihood))
        = (s.ordered.erase p).map (fun q => (s.heap q).single_likelihood) :=
      List.map_congr_left (fun q hq => by rw [hne q ((List.Nodup.mem_erase_iff h1).1 hq).1])
    rw [e]
    field_simp [(h2 p hp).2]
    ring
  · rw [hord] at hq
    by_cases hqp : q = p
    · subst hqp; rw [hself.1, hself.2.1]
    · rw [hne q hqp]; exact hs q hq hqp

theorem NoPairs_SetNucleonPosition (L : Likelihoods) (hf : ∀ v, L.f1 v ≠ 0)
    (s : NucleonCollection) (p : Nat) (x y z : ℚ) (hp : p ∈ s.ordered) (h : NoPairs s)
    (hs : SinglesFresh L s) :
    NoPairs (SetNucleonPosition L s p x y z) ∧ SinglesFresh L (SetNucleonPosition L s p x y z) := by
  rw [SetNucleonPosition_eq]
  have h1 := NoPairs_record s p h
  have hs1 : SinglesFresh L (record s p) := by
    intro q hq
    rw [ordered_eq_of_layout (layout_record s p)] at hq
    rw [heap_record]; exact hs q hq
  have hp1 : p ∈ (record s p).ordered := by
    rw [ordered_eq_of_layout (layout_record s p)]; exact hp
  generalize record s p = s1 at h1 hs1 hp1 ⊢
  have h2 := NoPairs_writePosition s1 p x y z h1
  have hwo : (writePosition s1 p x y z).ordered = s1.ordered :=
    ordered_eq_of_layout (layout_writePosition s1 p x y z)
  have hwne : ∀ q, q ≠ p → (writePosition s1 p x y z).heap q = s1.heap q := by
    intro q hq; unfold writePosition; rw [store_heap_ne _ _ _ _ hq]
  have hp2 : p ∈ (writePosition s1 p x y z).ordered := by rw [hwo]; exact hp1
  have hs2 : ∀ q ∈ (writePosition s1 p x y z).ordered, q ≠ p →
      ((writePosition s1 p x y z).heap q).single_likelihood =
        L.f1 ((writePosition s1 p x y z).heap q).toParticle := by
    intro q hq hqp
    rw [hwo] at hq
    rw [hwne q hqp]; exact hs1 q hq
  generalize writePosition s1 p x y z = s2 at h2 hp2 hs2 ⊢
  by_cases hsame : FindCube s1 x y z = (s2.heap p).cube
  · rw [if_pos hsame, sameBin_noPair L s2 p (h2.2.2.1 p hp2).1]
    exact NoPairs_refreshSingle L hf s2 p hp2 h2 hs2
  · rw [if_neg hsame]
    obtain ⟨r1, r2, r3⟩ := NoPairs_RemoveNucleon s2 p hp2 h2
    apply NoPairs_InsertExistingNucleon L hf _ p _ r2 _ r1
    · intro q hq hqp
      rw [r3 q hqp]
      rw [ordered_RemoveNucleon] at hq
      exact hs2 q (List.mem_of_mem_erase hq) hqp
    · rw [(RemoveNucleon_of_mem _ p hp2).2.1, ordered_RemoveNucleon,
        List.length_erase_of_mem hp2]
      have := List.indexOf_lt_length.2 hp2
      omega

theorem NoPairs_AddNucleon (L : Likelihoods) (hf : ∀ v, L.f1 v ≠ 0) (s : NucleonCollection)
    (p : Nat) (v : Particle) (hp : p ∉ s.ordered) (h : NoPairs s) (hs : SinglesFresh L s) :
    NoPairs (AddNucleon L s p v) ∧ SinglesFresh L (AddNucleon L s p v) := by
  have hne : ∀ q ∈ s.ordered, (s.store p (newNucleon v)).heap q = s.heap q := fun q hq =>
    store_heap_ne s p q (newNucleon v) (fun e => hp (e ▸ hq))
  have h1 : NoPairs (s.store p (newNucleon v)) := by
    obtain ⟨h0, h1, h2, h3⟩ := h
    refine ⟨h0, h1, fun q hq => ?_, ?_⟩
    · rw [hne q hq]; exact h2 q hq
    · show s.likelihood = _
      rw [h3]
      exact congrArg List.prod (List.map_congr_left (fun q hq => by rw [hne q hq]))
  refine NoPairs_InsertExistingNucleon L hf _ p _ hp (le_refl _) h1 (fun q hq _ => ?_)
  rw [hne q hq]; exact hs q hq

theorem NoPairs_construct (units : Nat) (length : ℚ) (heap : Nat → Nucleon) :
    NoPairs (construct 0 units length heap) := by
  refine ⟨?_, List.nodup_nil, fun q hq => absurd hq (List.not_mem_nil q), rfl⟩
  show ⌈(0 : ℚ) / (length / units)⌉ = 0
  rw [zero_div, Int.ceil_zero]

theorem ReachableNoPair_inv (L : Likelihoods) (hf : ∀ v, L.f1 v ≠ 0) (s : NucleonCollection)
    (h : ReachableNoPair L s) : NoPairs s ∧ SinglesFresh L s := by
  induction h with
  | init u len heap _ _ =>
    exact ⟨NoPairs_construct u len heap, fun q hq => absurd hq (List.not_mem_nil q)⟩
  | add s p v _ hp ih => exact NoPairs_AddNucleon L hf s p v hp ih.1 ih.2
  | remove s p _ hp ih =>
    obtain ⟨r1, _, r3⟩ := NoPairs_RemoveNucleon s p hp ih.1
    refine ⟨r1, fun q hq => ?_⟩
    rw [ordered_RemoveNucleon] at hq
    rw [r3 q ((List.Nodup.mem_erase_iff ih.1.2.1).1 hq).1]
    exact ih.2 q (List.mem_of_mem_erase hq)
  | move s p x y z _ hp ih => exact NoPairs_SetNucleonPosition L hf s p x y z hp ih.1 ih.2

/-- C8: no-pair mode: for a collection constructed with `pairwise_max = 0` and an
`f1` that never returns 0, after any sequence of `AddNucleon`, `RemoveNucleon`
(of a member) and `SetNucleonPosition` (of a member) calls from the freshly
constructed collection, `P` is 0, every member's pair list is empty and the
likelihood is the product of `f1` over the members at their current positions
(1 for the empty collection). -/
theorem no_pair_mode (L : Likelihoods) (hf : ∀ v, L.f1 v ≠ 0) (s : NucleonCollection)
    (h : ReachableNoPair L s) :
    s.pairwise_units = 0 ∧ (∀ q ∈ s.ordered, (s.heap q).pairwise_likelihoods = []) ∧
      s.likelihood = (s.ordered.map (fun q => L.f1 (s.heap q).toParticle)).prod := by
  obtain ⟨⟨h0, _, h2, h3⟩, h4⟩ := ReachableNoPair_inv L hf s h
  refine ⟨h0, fun q hq => (h2 q hq).1, ?_⟩
  rw [h3]
  exact congrArg List.prod (List.map_congr_left (fun q hq => h4 q hq))

/-- C8 (instance): the run `scenarioNoPair` followed by `RemoveNucleon(n1)`: the
likelihood is the product of `f1` over the members, here `f1(n2) = 25/16`. -/
theorem no_pair_mode_witness :
    (RemoveNucleon scenarioNoPair 1).1.likelihood =
        ((RemoveNucleon scenarioNoPair 1).1.ordered.map
          (fun q => quadraticLikelihoods.f1 ((RemoveNucleon scenarioNoPair 1).1.heap q).toParticle)).prod ∧
      (RemoveNucleon scenarioNoPair 1).1.ordered = [2] ∧
      (RemoveNucleon scenarioNoPair 1).1.likelihood = 25 / 16 ∧
      scenarioNoPair.likelihood = 17 / 16 * (25 / 16) :=
  ⟨(no_pair_mode quadraticLikelihoods
      (fun v => by
        show (1 : ℚ) + v.x * v.x ≠ 0
        nlinarith [mul_self_nonneg v.x])
      _
      (ReachableNoPair.remove _ 1
        (ReachableNoPair.move _ 2 (-3 / 4) 0 0
          (ReachableNoPair.move _ 1 (-1 / 4) 0 0
            (ReachableNoPair.add _ 2 (particleAt (-1 / 2) 0 0)
              (ReachableNoPair.add _ 1 (particleAt (1 / 2) 0 0)
                (ReachableNoPair.init 1 1 emptyHeap (by decide) (by decide!)) (by decide!))
              (by decide!))
            (by decide!))
          (by decide!))
        (by decide!))).2.2, by decide!⟩

theorem peers_visitStep (L : Likelihoods) (p : Nat) (t : NucleonCollection) (l : List Nat) :
    (l.flatMap (visitStep L p t)).map Prod.fst = l.filter (fun m => m ≠ p) := by
  induction l with
  | nil => rfl
  | cons m l ih =>
    rw [List.flatMap_cons, List.map_append, ih, List.filter_cons]
    unfold visitStep
    by_cases h : m = p
    · simp [h]
    · simp [h]

theorem peers_visitsK (L : Likelihoods) (p : Nat) (i j : Int) (s : NucleonCollection) (k : Int) :
    (visitsK L p i j s k).map Prod.fst = binPeers s p i j k := by
  unfold visitsK binPeers
  exact peers_visitStep L p _ _

theorem binPeers_store (s : NucleonCollection) (p q : Nat) (n : Nucleon) (i j k : Int) :
    binPeers (s.store q n) p i j k = binPeers s p i j k := rfl

theorem peers_visitsJ (L : Likelihoods) (p : Nat) (i : Int) (s : NucleonCollection) (j : Int) :
    (visitsJ L p i s j).map Prod.fst =
      (window (s.heap p).cube_k s.pairwise_units).flatMap (fun k => binPeers s p i j k) := by
  unfold visitsJ
  rw [List.map_flatMap]
  apply List.flatMap_congr
  intro k _
  rw [peers_visitsK]
  rfl

theorem peers_visitsI (L : Likelihoods) (p : Nat) (s : NucleonCollection) (i : Int) :
    (visitsI L p s i).map Prod.fst =
      (window (s.heap p).cube_j s.pairwise_units).flatMap (fun j =>
        (window (s.heap p).cube_k s.pairwise_units).flatMap (fun k => binPeers s p i j k)) := by
  unfold visitsI
  rw [List.map_flatMap]
  apply List.flatMap_congr
  intro j _
  rw [peers_visitsJ]
  have e : ((shiftX s p (offset s i)).heap p).cube_k = (s.heap p).cube_k := by
    unfold shiftX; rw [store_heap_same]
  rw [e]
  rfl

theorem peers_visits (L : Likelihoods) (p : Nat) (s : NucleonCollection) :
    (visits L p s).map Prod.fst = neighbours s p := by
  unfold visits neighbours
  rw [List.map_flatMap]
  apply List.flatMap_congr
  intro i _
  exact peers_visitsI L p s i

theorem window_eq (c P : Int) :
    window c P = List.map (fun a : Nat => c - P + (a : Int)) (List.range (2 * P + 1).toNat) := by
  unfold window
  simp only [bind_pure_comp, List.map_eq_map, List.map_map, Function.comp_def]

theorem mem_window (c P i : Int) (h : i ∈ window c P) : c - P ≤ i ∧ i ≤ c + P := by
  rw [window_eq] at h
  obtain ⟨a, ha, rfl⟩ := List.mem_map.1 h
  have := List.mem_range.1 ha
  omega

theorem nodup_window (c P : Int) : (window c P).Nodup := by
  rw [window_eq]
  refine (List.nodup_range _).map ?_
  intro a b hab
  simp only at hab
  omega

theorem wrapIndex_of_nonneg (U : Nat) (i : Int) (hU2 : 2 * U ≤ 2147483648) (h0 : 0 ≤ i)
    (h1 : i < 4294967296) : wrapIndex U i = i % (2 * (U : Int)) := by
  have e : ((U : Int) * 2) % 4294967296 = 2 * (U : Int) := by
    rw [Int.emod_eq_of_lt (by omega) (by omega), mul_comm]
  unfold wrapIndex toUnsigned
  rw [Int.emod_eq_of_lt h0 h1, e]

theorem wrapIndex_inj (U : Nat) (c P : Int) (hU2 : 2 * U ≤ 2147483648)
    (hfit : 2 * P + 1 ≤ 2 * (U : Int)) (hc0 : P ≤ c) (hc1 : c < 2 * (U : Int))
    (i : Int) (hi : i ∈ window c P) (j : Int) (hj : j ∈ window c P)
    (h : wrapIndex U i = wrapIndex U j) : i = j := by
  have hi1 := mem_window c P i hi
  have hj1 := mem_window c P j hj
  rw [wrapIndex_of_nonneg U i hU2 (by omega) (by omega),
    wrapIndex_of_nonneg U j hU2 (by omega) (by omega)] at h
  have hd : (2 * (U : Int)) ∣ (i - j) :=
    Int.dvd_of_emod_eq_zero (Int.emod_eq_emod_iff_emod_sub_eq_zero.1 h)
  have hz : i - j = 0 := Int.eq_zero_of_abs_lt_dvd hd (by rw [abs_lt]; constructor <;> omega)
  omega

theorem nodup_flatMap_of {α β : Type} (l : List α) (f : α → List β) (hl : l.Nodup)
    (hf : ∀ a ∈ l, (f a).Nodup)
    (hd : ∀ a ∈ l, ∀ b ∈ l, a ≠ b → ∀ x, x ∈ f a → x ∈ f b → False) :
    (l.flatMap f).Nodup :=
  List.nodup_flatMap.2 ⟨hf, hl.pairwise_of_forall_ne (fun a ha b hb hab => fun x hx hy =>
    hd a ha b hb hab x hx hy)⟩

theorem mem_binPeers (s : NucleonCollection) (p : Nat) (i j k : Int) (m : Nat) :
    m ∈ binPeers s p i j k ↔
      m ∈ s.cubeAt (wrapIndex s.units i, wrapIndex s.units j, wrapIndex s.units k) ∧ m ≠ p := by
  unfold binPeers NucleonCollection.cubeAt
  simp

theorem BinsSound_nodup_bin (s : NucleonCollection) (h : BinsSound s) (b : Int × Int × Int) :
    (s.cubeAt b).Nodup := by
  rw [List.nodup_iff_count_eq_one]
  intro q hq
  obtain ⟨hm, hc⟩ := h.2.1 b q hq
  have := h.2.2 q hm
  rw [hc] at this
  exact this

theorem nodup_neighbours (s : NucleonCollection) (p : Nat) (h : BinsSound s)
    (hU2 : 2 * s.units ≤ 2147483648) (hfit : 2 * s.pairwise_units + 1 ≤ 2 * (s.units : Int))
    (hi : s.pairwise_units ≤ (s.heap p).cube_i ∧ (s.heap p).cube_i < 2 * (s.units : Int))
    (hj : s.pairwise_units ≤ (s.heap p).cube_j ∧ (s.heap p).cube_j < 2 * (s.units : Int))
    (hk : s.pairwise_units ≤ (s.heap p).cube_k ∧ (s.heap p).cube_k < 2 * (s.units : Int)) :
    (neighbours s p).Nodup := by
  have hbin : ∀ i j k i2 j2 k2 m, m ∈ binPeers s p i j k → m ∈ binPeers s p i2 j2 k2 →
      wrapIndex s.units i = wrapIndex s.units i2 ∧ wrapIndex s.units j = wrapIndex s.units j2 ∧
        wrapIndex s.units k = wrapIndex s.units k2 := by
    intro i j k i2 j2 k2 m h1 h2
    have e1 := (h.2.1 _ m ((mem_binPeers s p i j k m).1 h1).1).2
    have e2 := (h.2.1 _ m ((mem_binPeers s p i2 j2 k2 m).1 h2).1).2
    have e := e1.symm.trans e2
    simp only [Prod.mk.injEq] at e
    exact e
  unfold neighbours
  apply nodup_flatMap_of _ _ (nodup_window _ _)
  · intro i _
    apply nodup_flatMap_of _ _ (nodup_window _ _)
    · intro j _
      apply nodup_flatMap_of _ _ (nodup_window _ _)
      · intro k _
        exact (BinsSound_nodup_bin s h
          (wrapIndex s.units i, wrapIndex s.units j, wrapIndex s.units k)).filter _
      · intro k hk1 k2 hk2 hne m h1 h2
        exact hne (wrapIndex_inj s.units _ _ hU2 hfit hk.1 hk.2 k hk1 k2 hk2
          (hbin i j k i j k2 m h1 h2).2.2)
    · intro j hj1 j2 hj2 hne m h1 h2
      obtain ⟨k, _, hm1⟩ := List.mem_flatMap.1 h1
      obtain ⟨k2, _, hm2⟩ := List.mem_flatMap.1 h2
      exact hne (wrapIndex_inj s.units _ _ hU2 hfit hj.1 hj.2 j hj1 j2 hj2
        (hbin i j k i j2 k2 m hm1 hm2).2.1)
  · intro i hi1 i2 hi2 hne m h1 h2
    obtain ⟨j, _, h1⟩ := List.mem_flatMap.1 h1
    obtain ⟨k, _, hm1⟩ := List.mem_flatMap.1 h1
    obtain ⟨j2, _, h2⟩ := List.mem_flatMap.1 h2
    obtain ⟨k2, _, hm2⟩ := List.mem_flatMap.1 h2
    exact hne (wrapIndex_inj s.units _ _ hU2 hfit hi.1 hi.2 i hi1 i2 hi2
      (hbin i j k i2 j2 k2 m hm1 hm2).1)

theorem neighbours_congr {s t : NucleonCollection} (p : Nat) (hc : t.cubes = s.cubes)
    (hg : grid t = grid s) (hb : (t.heap p).body = (s.heap p).body) :
    neighbours t p = neighbours s p := by
  have e := (body_eq_iff _ _).1 hb
  unfold neighbours binPeers
  rw [hc, e.2.1, e.2.2.1, e.2.2.2.1, units_eq_of_grid hg, pairwise_units_eq_of_grid hg]

theorem length_filter_peer (V : List (Nat × ℚ)) (m : Nat) :
    (V.filter (fun e => e.1 = m)).length = (V.map Prod.fst).count m := by
  induction V with
  | nil => rfl
  | cons e V ih =>
    rw [List.map_cons, List.count_cons, List.filter_cons]
    by_cases h : e.1 = m
    · simp [h, ih]
    · simp [h, ih]

theorem insertVisits_of_pairs (L : Likelihoods) (s : NucleonCollection) (n pos : Nat)
    (hP : 1 ≤ s.pairwise_units) :
    insertVisits L s n pos = visits L n (register L s n pos) := by
  unfold insertVisits
  rw [if_neg]
  rw [pairwise_units_eq_of_grid (grid_register L s n pos)]
  omega

/-- C5 (amended): let the bins be sound, `n` a non-member, `P ≥ 1`, the
neighbourhood fit in the grid (`2P+1 ≤ 2U`, `2U ≤ 2^31`) and the cached indices
written by the insertion satisfy `P ≤ c < 2U` on each axis (no loop counter is
negative).  Then `InsertExistingNucleon(n, pos)` leaves on `n` a pair list whose
peers are exactly the elements other than `n` of the bins examined, each once
and each a member; each such peer gets exactly one entry for `n`, with the same
value, appended to its list; the lists of the other nucleons are unchanged; and
the likelihood is multiplied by `f1(n)` and by each pair value once. -/
theorem insert_pairs_once (L : Likelihoods) (s : NucleonCollection) (n pos : Nat)
    (hsound : BinsSound s) (hn : n ∉ s.ordered) (hpos : pos ≤ s.ordered.length)
    (hP : 1 ≤ s.pairwise_units) (hU2 : 2 * s.units ≤ 2147483648)
    (hfit : 2 * s.pairwise_units + 1 ≤ 2 * (s.units : Int))
    (hi : s.pairwise_units ≤ ((InsertExistingNucleon L s n pos).heap n).cube_i ∧
      ((InsertExistingNucleon L s n pos).heap n).cube_i < 2 * (s.units : Int))
    (hj : s.pairwise_units ≤ ((InsertExistingNucleon L s n pos).heap n).cube_j ∧
      ((InsertExistingNucleon L s n pos).heap n).cube_j < 2 * (s.units : Int))
    (hk : s.pairwise_units ≤ ((InsertExistingNucleon L s n pos).heap n).cube_k ∧
      ((InsertExistingNucleon L s n pos).heap n).cube_k < 2 * (s.units : Int)) :
    ((InsertExistingNucleon L s n pos).heap n).pairwise_likelihoods.map Prod.fst
        = neighbours (InsertExistingNucleon L s n pos) n ∧
      (neighbours (InsertExistingNucleon L s n pos) n).Nodup ∧
      (∀ m ∈ neighbours (InsertExistingNucleon L s n pos) n, m ∈ s.ordered ∧ m ≠ n ∧
        (((InsertExistingNucleon L s n pos).heap n).pairwise_likelihoods.filter
          (fun e => e.1 = m)).length = 1) ∧
      (∀ m, m ≠ n → ((InsertExistingNucleon L s n pos).heap m).pairwise_likelihoods =
        (s.heap m).pairwise_likelihoods ++
          (((InsertExistingNucleon L s n pos).heap n).pairwise_likelihoods.filter
            (fun e => e.1 = m)).map (fun e => (n, e.2))) ∧
      (InsertExistingNucleon L s n pos).likelihood = s.likelihood *
        L.f1 ((InsertExistingNucleon L s n pos).heap n).toParticle *
        (((InsertExistingNucleon L s n pos).heap n).pairwise_likelihoods.map Prod.snd).prod := by
  obtain ⟨⟨a1, a2, a3⟩, hbody, hcubes⟩ := InsertExistingNucleon_appended L s n pos
  have hgrid : grid (InsertExistingNucleon L s n pos) = grid (register L s n pos) := by
    rw [grid_InsertExistingNucleon, grid_register]
  have hgr := grid_register L s n pos
  have hnb := neighbours_congr n hcubes hgrid (hbody n)
  have hidx := (body_eq_iff _ _).1 (hbody n)
  rw [hidx.2.1] at hi
  rw [hidx.2.2.1] at hj
  rw [hidx.2.2.2.1] at hk
  rw [insertVisits_of_pairs L s n pos hP] at a1 a2 a3
  rw [pairs_register_self, List.nil_append] at a2
  have hsr := BinsSound_register L s n pos hn hpos hsound
  have hnodup : (neighbours (register L s n pos) n).Nodup := by
    apply nodup_neighbours _ n hsr
    · rw [units_eq_of_grid hgr]; exact hU2
    · rw [units_eq_of_grid hgr, pairwise_units_eq_of_grid hgr]; exact hfit
    · rw [units_eq_of_grid hgr, pairwise_units_eq_of_grid hgr]; exact hi
    · rw [units_eq_of_grid hgr, pairwise_units_eq_of_grid hgr]; exact hj
    · rw [units_eq_of_grid hgr, pairwise_units_eq_of_grid hgr]; exact hk
  rw [hnb, a2]
  refine ⟨peers_visits L n _, hnodup, fun m hm => ?_, fun m hm => ?_, ?_⟩
  · have hmem : m ∈ (register L s n pos).ordered ∧ m ≠ n := by
      unfold neighbours at hm
      obtain ⟨i, _, hm⟩ := List.mem_flatMap.1 hm
      obtain ⟨j, _, hm⟩ := List.mem_flatMap.1 hm
      obtain ⟨k, _, hm⟩ := List.mem_flatMap.1 hm
      obtain ⟨h1, h2⟩ := (mem_binPeers _ n i j k m).1 hm
      exact ⟨(hsr.2.1 _ m h1).1, h2⟩
    rw [ordered_register, List.mem_insertIdx hpos] at hmem
    refine ⟨hmem.1.resolve_left hmem.2, hmem.2, ?_⟩
    rw [length_filter_peer, peers_visits]
    exact List.count_eq_one_of_mem hnodup hm
  · rw [a3 m hm, heap_register_ne L s n pos m hm]
  · rw [a1, likelihood_register, particle_of_body (hbody n), particle_register]

/-- C5 (instance): in `scenarioGrid3` the insertion of n2 meets n1 once: the pair
list of n2 names n1 once, n1 gets one entry for n2, and the likelihood is
multiplied by the pair value once. -/
theorem insert_pairs_once_witness :
    (((InsertExistingNucleon scenarioLikelihoods scenarioGrid3 2 1).heap 2).pairwise_likelihoods.map
        Prod.fst = neighbours (InsertExistingNucleon scenarioLikelihoods scenarioGrid3 2 1) 2 ∧
      (neighbours (InsertExistingNucleon scenarioLikelihoods scenarioGrid3 2 1) 2).Nodup) ∧
      neighbours (InsertExistingNucleon scenarioLikelihoods scenarioGrid3 2 1) 2 = [1] ∧
      ((InsertExistingNucleon scenarioLikelihoods scenarioGrid3 2 1).heap 1).pairwise_likelihoods.length
        = 1 :=
  ⟨⟨(insert_pairs_once scenarioLikelihoods scenarioGrid3 2 1
      (BinConsistent_store _ 2 _ (by decide!)
        (Reachable_BinConsistent scenarioLikelihoods _
          (Reachable.add _ 1 _ (Reachable.init 1 3 3 emptyHeap (by decide) (by decide!))
            (by decide!)))).1
      (by decide!) (by decide!) (by decide!) (by decide!) (by decide!) (by decide!) (by decide!)
      (by decide!)).1,
    (insert_pairs_once scenarioLikelihoods scenarioGrid3 2 1
      (BinConsistent_store _ 2 _ (by decide!)
        (Reachable_BinConsistent scenarioLikelihoods _
          (Reachable.add _ 1 _ (Reachable.init 1 3 3 emptyHeap (by decide) (by decide!))
            (by decide!)))).1
      (by decide!) (by decide!) (by decide!) (by decide!) (by decide!) (by decide!) (by decide!)
      (by decide!)).2.1⟩, by decide!⟩

/-- C5 (counterexample): scenario S4 (`U = 1`, `P = 1`, so `2P+1 = 3 > 2 = 2U`): the
traversal for n2 examines the bin of n1 twice (loop counters 0 and 2 on the x
axis), so n2 gets two entries for n1, n1 two entries for n2, and the
likelihood is `1.02 * 1.02`, not 1.02. -/
theorem insert_visits_bin_twice :
    scenarioEmpty.pairwise_units = 1 ∧ scenarioEmpty.units = 1 ∧
      scenarioS4.likelihood = 10404 / 10000 ∧
      (scenarioS4.heap 2).pairwise_likelihoods = [(1, 102 / 100), (1, 102 / 100)] ∧
      (scenarioS4.heap 1).pairwise_likelihoods = [(2, 102 / 100), (2, 102 / 100)] := by
  decide!

theorem offset_eq (s : NucleonCollection) (i : Int) :
    offset s i = ((-(imageIndex s.units i) : Int) : ℚ) * (2 * s.length) := by
  unfold offset
  push_cast
  ring

/-- Every entry written by the traversal names an element `m ≠ p` of a bin and
holds `f2` of `m` and of `p` moved by whole periods. -/
theorem mem_visits (L : Likelihoods) (p : Nat) (s : NucleonCollection) (e : Nat × ℚ)
    (h : e ∈ visits L p s) :
    e.1 ≠ p ∧ ∃ i j k : Int, e.2 = L.f2 (s.heap e.1).toParticle
      (shifted (s.heap p).toParticle s.length i j k) := by
  unfold visits at h
  obtain ⟨i, _, h⟩ := List.mem_flatMap.1 h
  unfold visitsI at h
  obtain ⟨j, _, h⟩ := List.mem_flatMap.1 h
  unfold visitsJ at h
  obtain ⟨k, _, h⟩ := List.mem_flatMap.1 h
  unfold visitsK at h
  obtain ⟨m, _, h⟩ := List.mem_flatMap.1 h
  unfold visitStep at h
  by_cases hm : m = p
  · simp [hm] at h
  · rw [if_pos hm] at h
    have he : e = (m, _) := List.mem_singleton.1 h
    subst he
    refine ⟨hm, -(imageIndex s.units i), -(imageIndex s.units j), -(imageIndex s.units k), ?_⟩
    simp only [shiftX, shiftY, shiftZ, store_heap_same, store_heap_ne _ _ _ _ hm, shifted,
      offset_eq]
    rfl

theorem prod_map_ite_not_mem (l : List Nat) (x : Nat) (c : ℚ) (hx : x ∉ l) :
    (l.map (fun a => if x = a then c else 1)).prod = 1 := by
  induction l with
  | nil => rfl
  | cons a l ih =>
    have h1 : ¬ x = a := fun e => hx (e ▸ List.mem_cons_self _ _)
    have h2 : x ∉ l := fun h => hx (List.mem_cons_of_mem _ h)
    rw [List.map_cons, List.prod_cons, if_neg h1, ih h2, one_mul]

theorem prod_map_ite_mem (l : List Nat) (hl : l.Nodup) (x : Nat) (c : ℚ) (hx : x ∈ l) :
    (l.map (fun a => if x = a then c else 1)).prod = c := by
  induction l with
  | nil => exact absurd hx (List.not_mem_nil x)
  | cons a l ih =>
    obtain ⟨ha, hl2⟩ := List.nodup_cons.1 hl
    rw [List.map_cons, List.prod_cons]
    by_cases h : x = a
    · subst h
      rw [if_pos rfl, prod_map_ite_not_mem l x c ha, mul_one]
    · rw [if_neg h, one_mul]
      exact ih hl2 ((List.mem_cons.1 hx).resolve_left h)

theorem prod_partition (l : List Nat) (hl : l.Nodup) (V : List (Nat × ℚ))
    (hV : ∀ e ∈ V, e.1 ∈ l) :
    (l.map (fun a => ((V.filter (fun e => e.1 = a)).map Prod.snd).prod)).prod
      = (V.map Prod.snd).prod := by
  induction V with
  | nil => simp
  | cons e V ih =>
    have hstep : ∀ a, (((e :: V).filter (fun e => e.1 = a)).map Prod.snd).prod =
        (if e.1 = a then e.2 else 1) * ((V.filter (fun e => e.1 = a)).map Prod.snd).prod := by
      intro a
      rw [List.filter_cons]
      by_cases h : e.1 = a
      · simp [h]
      · simp [h]
    simp only [hstep]
    rw [List.prod_map_mul, prod_map_ite_mem l hl e.1 e.2 (hV e (List.mem_cons_self _ _)),
      ih (fun e' he' => hV e' (List.mem_cons_of_mem _ he')), List.map_cons, List.prod_cons]

theorem BinsSound_InsertExistingNucleon (L : Likelihoods) (s : NucleonCollection) (n pos : Nat)
    (hn : n ∉ s.ordered) (hpos : pos ≤ s.ordered.length) (h : BinsSound s) :
    BinsSound (InsertExistingNucleon L s n pos) := by
  obtain ⟨_, hbody, hcubes⟩ := InsertExistingNucleon_appended L s n pos
  have hord : (InsertExistingNucleon L s n pos).ordered = (register L s n pos).ordered := by
    rw [ordered_InsertExistingNucleon, ordered_register]
  exact BinsSound_congr hord hcubes (fun q => cube_of_body (hbody q))
    (BinsSound_register L s n pos hn hpos h)

theorem mem_neighbours (s : NucleonCollection) (p m : Nat) (h : BinsSound s)
    (hm : m ∈ neighbours s p) : m ∈ s.ordered ∧ m ≠ p := by
  unfold neighbours at hm
  obtain ⟨i, _, hm⟩ := List.mem_flatMap.1 hm
  obtain ⟨j, _, hm⟩ := List.mem_flatMap.1 hm
  obtain ⟨k, _, hm⟩ := List.mem_flatMap.1 hm
  obtain ⟨h1, h2⟩ := (mem_binPeers _ p i j k m).1 hm
  exact ⟨(h.2.1 _ m h1).1, h2⟩

/-- The effect of `InsertExistingNucleon` of a non-member on the likelihood and
on the caches, with the entries written for `n` described one by one. -/
theorem InsertExistingNucleon_effect (L : Likelihoods) (s : NucleonCollection) (n pos : Nat)
    (hn : n ∉ s.ordered) (hpos : pos ≤ s.ordered.length) (h : BinsSound s) :
    (InsertExistingNucleon L s n pos).likelihood = s.likelihood *
        L.f1 ((InsertExistingNucleon L s n pos).heap n).toParticle *
        (((InsertExistingNucleon L s n pos).heap n).pairwise_likelihoods.map Prod.snd).prod ∧
      ((InsertExistingNucleon L s n pos).heap n).single_likelihood =
        L.f1 ((InsertExistingNucleon L s n pos).heap n).toParticle ∧
      (∀ q, q ≠ n →
        ((InsertExistingNucleon L s n pos).heap q).toParticle = (s.heap q).toParticle ∧
        ((InsertExistingNucleon L s n pos).heap q).single_likelihood
          = (s.heap q).single_likelihood ∧
        ((InsertExistingNucleon L s n pos).heap q).pairwise_likelihoods =
          (s.heap q).pairwise_likelihoods ++
            (((InsertExistingNucleon L s n pos).heap n).pairwise_likelihoods.filter
              (fun e => e.1 = q)).map (fun e => (n, e.2))) ∧
      ∀ e ∈ ((InsertExistingNucleon L s n pos).heap n).pairwise_likelihoods,
        e.1 ∈ s.ordered ∧ e.1 ≠ n ∧ ∃ i j k : Int, e.2 = L.f2 (s.heap e.1).toParticle
          (shifted ((InsertExistingNucleon L s n pos).heap n).toParticle s.length i j k) := by
  obtain ⟨⟨a1, _, _⟩, hbody, _⟩ := InsertExistingNucleon_appended L s n pos
  have hself := pairs_InsertExistingNucleon_self L s n pos
  have hpart : ((InsertExistingNucleon L s n pos).heap n).toParticle =
      ((register L s n pos).heap n).toParticle := particle_of_body (hbody n)
  refine ⟨?_, ?_, fun q hq => ⟨?_, ?_, ?_⟩, fun e he => ?_⟩
  · rw [a1, hself, likelihood_register, hpart, particle_register]
  · rw [single_of_body (hbody n), hpart]; exact single_register_self L s n pos
  · rw [particle_of_body (hbody q), heap_register_ne L s n pos q hq]
  · rw [single_of_body (hbody q), heap_register_ne L s n pos q hq]
  · rw [hself]; exact pairs_InsertExistingNucleon_ne L s n pos q hq
  · rw [hself] at he
    unfold insertVisits at he
    by_cases hP : (register L s n pos).pairwise_units = 0
    · rw [if_pos hP] at he; exact absurd he (List.not_mem_nil e)
    · rw [if_neg hP] at he
      obtain ⟨h1, i, j, k, h2⟩ := mem_visits L n _ e he
      have hm : e.1 ∈ neighbours (register L s n pos) n := by
        rw [← peers_visits L n]
        exact List.mem_map_of_mem _ he
      have hmem := (mem_neighbours _ n e.1 (BinsSound_register L s n pos hn hpos h) hm).1
      rw [ordered_register, List.mem_insertIdx hpos] at hmem
      refine ⟨hmem.resolve_left h1, h1, i, j, k, ?_⟩
      rw [h2, heap_register_ne L s n pos e.1 h1, hpart,
        length_eq_of_grid (grid_register L s n pos)]

theorem Balanced_InsertExistingNucleon (L : Likelihoods) (s : NucleonCollection) (n pos : Nat)
    (hB : Balanced s) (hstale : ∀ m ∈ s.ordered, valuesFor s m n = []) :
    Balanced (InsertExistingNucleon L s n pos) := by
  intro a ha b hb hab
  rw [ordered_InsertExistingNucleon] at ha hb
  have ha' := mem_insertIdx_imp _ _ _ _ ha
  have hb' := mem_insertIdx_imp _ _ _ _ hb
  by_cases han : a = n
  · subst han
    have hbn : b ≠ a := fun e => hab e.symm
    rw [valuesFor_InsertExistingNucleon_self, valuesFor_InsertExistingNucleon_peer _ _ _ _ _ hbn,
      hstale b (hb'.resolve_left hbn), List.nil_append]
  · have ham : a ∈ s.ordered := ha'.resolve_left han
    by_cases hbn : b = n
    · subst hbn
      rw [valuesFor_InsertExistingNucleon_self, valuesFor_InsertExistingNucleon_peer _ _ _ _ _ han,
        hstale a ham, List.nil_append]
    · rw [valuesFor_InsertExistingNucleon_ne _ _ _ _ _ _ han hbn,
        valuesFor_InsertExistingNucleon_ne _ _ _ _ _ _ hbn han]
      exact hB a ham b (hb'.resolve_left hbn) hab

theorem Balanced_RemoveNucleon (s : NucleonCollection) (n : Nat) (hn : n ∈ s.ordered)
    (hB : Balanced s) :
    Balanced (RemoveNucleon s n).1 ∧
      ∀ m ∈ s.ordered, m ≠ n → valuesFor (RemoveNucleon s n).1 m n = [] := by
  have hpeer : ∀ m ∈ s.ordered, m ≠ n → valuesFor (RemoveNucleon s n).1 m n = [] := by
    intro m hm hmn
    apply valuesFor_RemoveNucleon_peer s n m hmn
    exact le_of_eq (hB m hm n hn hmn).length_eq
  refine ⟨?_, hpeer⟩
  intro a ha b hb hab
  rw [ordered_RemoveNucleon] at ha hb
  have ham := List.mem_of_mem_erase ha
  have hbm := List.mem_of_mem_erase hb
  by_cases han : a = n
  · subst han
    rw [valuesFor_RemoveNucleon_self, hpeer b hbm (fun e => hab e.symm)]
  · by_cases hbn : b = n
    · subst hbn
      rw [valuesFor_RemoveNucleon_self, hpeer a ham han]
    · rw [valuesFor_RemoveNucleon_ne s n a b han hbn, valuesFor_RemoveNucleon_ne s n b a hbn han]
      exact hB a ham b hbm hab

theorem valuesFor_eq_nil_of_not_named (s : NucleonCollection) (a n : Nat)
    (h : ∀ e ∈ (s.heap a).pairwise_likelihoods, e.1 ≠ n) : valuesFor s a n = [] := by
  unfold valuesFor
  rw [List.filter_eq_nil_iff.2 (fun e he => by simpa using h e he)]
  rfl

theorem prod_pos_of_forall {l : List ℚ} (h : ∀ x ∈ l, 0 < x) : 0 < l.prod := by
  induction l with
  | nil => exact one_pos
  | cons a l ih =>
    rw [List.prod_cons]
    exact mul_pos (h a (List.mem_cons_self _ _)) (ih (fun x hx => h x (List.mem_cons_of_mem _ hx)))

theorem Accounted_InsertExistingNucleon (L : Likelihoods) (len : ℚ) (hS : Suited L len)
    (s : NucleonCollection) (n pos : Nat) (hn : n ∉ s.ordered) (hpos : pos ≤ s.ordered.length)
    (hA : Accounted s) : Accounted (InsertExistingNucleon L s n pos) := by
  obtain ⟨hf1, hf2, _, _⟩ := hS
  obtain ⟨h1, h2, h3, h4, h5⟩ := hA
  obtain ⟨e1, e2, e3, e4⟩ := InsertExistingNucleon_effect L s n pos hn hpos h1
  have hord := ordered_InsertExistingNucleon L s n pos
  have hmem : ∀ q, q ∈ (InsertExistingNucleon L s n pos).ordered ↔ q = n ∨ q ∈ s.ordered := by
    intro q; rw [hord, List.mem_insertIdx hpos]
  have hne : ∀ q ∈ s.ordered, q ≠ n := fun q hq e => hn (e ▸ hq)
  have hVpos : ∀ x ∈ ((InsertExistingNucleon L s n pos).heap n).pairwise_likelihoods.map Prod.snd,
      0 < x := by
    intro x hx
    obtain ⟨e, he, rfl⟩ := List.mem_map.1 hx
    obtain ⟨_, _, i, j, k, hv⟩ := e4 e he
    rw [hv]; exact hf2 _ _
  refine ⟨BinsSound_InsertExistingNucleon L s n pos hn hpos h1, fun a ha => ?_, ?_, ?_, ?_⟩
  · rcases (hmem a).1 ha with han | ham
    · subst han
      refine ⟨by rw [e2]; exact hf1 _, fun e he => ?_⟩
      obtain ⟨m1, m2, _⟩ := e4 e he
      exact ⟨(hmem _).2 (Or.inr m1), m2, hVpos e.2 (List.mem_map_of_mem Prod.snd he)⟩
    · have han := hne a ham
      rw [(e3 a han).2.1, (e3 a han).2.2]
      refine ⟨(h2 a ham).1, fun e he => ?_⟩
      rcases List.mem_append.1 he with he | he
      · obtain ⟨m1, m2, m3⟩ := (h2 a ham).2 e he
        exact ⟨(hmem _).2 (Or.inr m1), m2, m3⟩
      · obtain ⟨e', he', rfl⟩ := List.mem_map.1 he
        exact ⟨(hmem _).2 (Or.inl rfl), fun e => han e.symm,
          hVpos e'.2 (List.mem_map_of_mem Prod.snd (List.mem_of_mem_filter he'))⟩
  · apply Balanced_InsertExistingNucleon L s n pos h3
    intro m hm
    exact valuesFor_eq_nil_of_not_named s m n (fun e he e' => hn (e' ▸ ((h2 m hm).2 e he).1))
  · rw [e1]
    exact mul_pos (mul_pos h4 (hf1 _)) (prod_pos_of_forall hVpos)
  · have hg : ∀ a ∈ s.ordered,
        ((InsertExistingNucleon L s n pos).heap a).single_likelihood ^ 2 *
          pairProduct (InsertExistingNucleon L s n pos) a =
        ((s.heap a).single_likelihood ^ 2 * pairProduct s a) *
          ((((InsertExistingNucleon L s n pos).heap n).pairwise_likelihoods.filter
            (fun e => e.1 = a)).map Prod.snd).prod := by
      intro a ha
      unfold pairProduct
      rw [(e3 a (hne a ha)).2.1, (e3 a (hne a ha)).2.2, List.map_append, List.prod_append,
        List.map_map]
      have : (Prod.snd ∘ fun e : Nat × ℚ => (n, e.2)) = Prod.snd := rfl
      rw [this]
      ring
    unfold doubleProduct
    rw [hord, prod_map_insertIdx _ _ _ hpos, List.map_congr_left hg, List.prod_map_mul,
      prod_partition s.ordered h1.1 _ (fun e he => (e4 e he).1), e1, e2]
    have h5' : (s.ordered.map (fun a => (s.heap a).single_likelihood ^ 2 * pairProduct s a)).prod
        = s.likelihood ^ 2 := h5.symm
    rw [h5']
    unfold pairProduct
    ring

theorem Fresh_InsertExistingNucleon (L : Likelihoods) (len : ℚ) (hS : Suited L len)
    (s : NucleonCollection) (n pos : Nat) (hn : n ∉ s.ordered) (hpos : pos ≤ s.ordered.length)
    (hlen : s.length = len) (hA : Accounted s) (hF : Fresh L s) :
    Fresh L (InsertExistingNucleon L s n pos) := by
  obtain ⟨_, _, hsym, hper⟩ := hS
  obtain ⟨h1, h2, _, _, _⟩ := hA
  obtain ⟨_, e2, e3, e4⟩ := InsertExistingNucleon_effect L s n pos hn hpos h1
  have hne : ∀ q ∈ s.ordered, q ≠ n := fun q hq e => hn (e ▸ hq)
  have hval : ∀ e ∈ ((InsertExistingNucleon L s n pos).heap n).pairwise_likelihoods,
      e.2 = L.f2 (s.heap e.1).toParticle ((InsertExistingNucleon L s n pos).heap n).toParticle := by
    intro e he
    obtain ⟨_, _, i, j, k, hv⟩ := e4 e he
    rw [hv, hlen, hper]
  intro a ha
  rw [ordered_InsertExistingNucleon, List.mem_insertIdx hpos] at ha
  rcases ha with han | ham
  · subst han
    refine ⟨e2, fun e he => ?_⟩
    rw [hval e he, (e3 e.1 (e4 e he).2.1).1, hsym]
  · have han := hne a ham
    rw [(e3 a han).1, (e3 a han).2.1, (e3 a han).2.2]
    refine ⟨(hF a ham).1, fun e he => ?_⟩
    rcases List.mem_append.1 he with he | he
    · rw [(hF a ham).2 e he, (e3 e.1 (hne e.1 ((h2 a ham).2 e he).1)).1]
    · obtain ⟨e', he', rfl⟩ := List.mem_map.1 he
      have hmem := List.mem_of_mem_filter he'
      have hpeer : e'.1 = a := by simpa using (List.mem_filter.1 he').2
      show e'.2 = L.f2 (s.heap a).toParticle ((InsertExistingNucleon L s n pos).heap n).toParticle
      rw [hval e' hmem, hpeer]

theorem iterate_erasePeer_cons_ne (p : Nat) (e : Nat × ℚ) (h : e.1 ≠ p) (k : Nat) :
    ∀ l : List (Nat × ℚ), (erasePeer p)^[k] (e :: l) = e :: (erasePeer p)^[k] l := by
  induction k with
  | zero => intro l; rfl
  | succ k ih =>
    intro l
    rw [Function.iterate_succ_apply, Function.iterate_succ_apply, erasePeer_cons, if_neg h, ih]

/-- Erasing the first entry for `p` as many times as there are entries for `p`
leaves the entries that do not name `p`. -/
theorem iterate_erasePeer_all (p : Nat) : ∀ l : List (Nat × ℚ),
    (erasePeer p)^[(l.filter (fun e => e.1 = p)).length] l = l.filter (fun e => e.1 ≠ p) := by
  intro l
  induction l with
  | nil => simp [erasePeer]
  | cons e l ih =>
    by_cases h : e.1 = p
    · have e1 : (e :: l).filter (fun e => decide (e.1 = p)) = e :: l.filter (fun e => e.1 = p) := by
        simp [List.filter_cons, h]
      have e2 : (e :: l).filter (fun e => decide (e.1 ≠ p)) = l.filter (fun e => e.1 ≠ p) := by
        simp [List.filter_cons, h]
      rw [e1, e2, List.length_cons, Function.iterate_succ_apply, erasePeer_cons, if_pos h, ih]
    · have e1 : (e :: l).filter (fun e => decide (e.1 = p)) = l.filter (fun e => e.1 = p) := by
        simp [List.filter_cons, h]
      have e2 : (e :: l).filter (fun e => decide (e.1 ≠ p)) = e :: l.filter (fun e => e.1 ≠ p) := by
        simp [List.filter_cons, h]
      rw [e1, e2, iterate_erasePeer_cons_ne p e h, ih]

theorem prod_filter_split (p : Nat) : ∀ l : List (Nat × ℚ),
    (l.map Prod.snd).prod = ((l.filter (fun e => e.1 = p)).map Prod.snd).prod *
      ((l.filter (fun e => e.1 ≠ p)).map Prod.snd).prod := by
  intro l
  induction l with
  | nil => simp
  | cons e l ih =>
    by_cases h : e.1 = p
    · have e1 : (e :: l).filter (fun e => decide (e.1 = p)) = e :: l.filter (fun e => e.1 = p) := by
        simp [List.filter_cons, h]
      have e2 : (e :: l).filter (fun e => decide (e.1 ≠ p)) = l.filter (fun e => e.1 ≠ p) := by
        simp [List.filter_cons, h]
      rw [e1, e2, List.map_cons, List.prod_cons, List.map_cons, List.prod_cons, ih]
      ring
    · have e1 : (e :: l).filter (fun e => decide (e.1 = p)) = l.filter (fun e => e.1 = p) := by
        simp [List.filter_cons, h]
      have e2 : (e :: l).filter (fun e => decide (e.1 ≠ p)) = e :: l.filter (fun e => e.1 ≠ p) := by
        simp [List.filter_cons, h]
      rw [e1, e2, List.map_cons, List.prod_cons, List.map_cons, List.prod_cons, ih]
      ring

/-- The effect of `RemoveNucleon` of a member on the caches, when the pair
lists are balanced: every entry that names `p` is gone. -/
theorem RemoveNucleon_effect (s : NucleonCollection) (p : Nat) (hp : p ∈ s.ordered)
    (hB : Balanced s) :
    (∀ q, ((RemoveNucleon s p).1.heap q).toParticle = (s.heap q).toParticle ∧
      ((RemoveNucleon s p).1.heap q).single_likelihood = (s.heap q).single_likelihood) ∧
    ∀ q ∈ s.ordered, q ≠ p → ((RemoveNucleon s p).1.heap q).pairwise_likelihoods =
      (s.heap q).pairwise_likelihoods.filter (fun e => e.1 ≠ p) := by
  refine ⟨fun q => ⟨particle_of_body (body_RemoveNucleon s p q),
    single_of_body (body_RemoveNucleon s p q)⟩, fun q hq hqp => ?_⟩
  rw [heap_RemoveNucleon, unpair_pairs_ne s p q hqp]
  have hlen : ((s.heap p).pairwise_likelihoods.filter (fun e => e.1 = q)).length =
      ((s.heap q).pairwise_likelihoods.filter (fun e => e.1 = p)).length := by
    have := (hB q hq p hp hqp).length_eq
    unfold valuesFor at this
    simp only [List.length_map] at this
    exact this.symm
  rw [hlen]
  exact iterate_erasePeer_all p _

theorem Accounted_RemoveNucleon (s : NucleonCollection) (p : Nat) (hp : p ∈ s.ordered)
    (hA : Accounted s) : Accounted (RemoveNucleon s p).1 := by
  obtain ⟨h1, h2, h3, h4, h5⟩ := hA
  obtain ⟨e1, e2⟩ := RemoveNucleon_effect s p hp h3
  have hord := ordered_RemoveNucleon s p
  have hmem : ∀ q, q ∈ (RemoveNucleon s p).1.ordered ↔ q ≠ p ∧ q ∈ s.ordered := by
    intro q; rw [hord]; exact List.Nodup.mem_erase_iff h1.1
  have hsp : 0 < (s.heap p).single_likelihood := (h2 p hp).1
  have hpp : 0 < pairProduct s p :=
    prod_pos_of_forall (fun x hx => by
      obtain ⟨e, he, rfl⟩ := List.mem_map.1 hx
      exact ((h2 p hp).2 e he).2.2)
  have hlik : (RemoveNucleon s p).1.likelihood =
      s.likelihood / (s.heap p).single_likelihood / pairProduct s p := likelihood_RemoveNucleon s p
  refine ⟨BinsSound_RemoveNucleon s p h1, fun a ha => ?_, (Balanced_RemoveNucleon s p hp h3).1, ?_, ?_⟩
  · obtain ⟨hap, ham⟩ := (hmem a).1 ha
    rw [(e1 a).2, e2 a ham hap]
    refine ⟨(h2 a ham).1, fun e he => ?_⟩
    obtain ⟨he1, he2⟩ := List.mem_filter.1 he
    obtain ⟨m1, m2, m3⟩ := (h2 a ham).2 e he1
    exact ⟨(hmem _).2 ⟨by simpa using he2, m1⟩, m2, m3⟩
  · rw [hlik]; exact div_pos (div_pos h4 hsp) hpp
  · have hg : ∀ a ∈ s.ordered.erase p,
        (s.heap a).single_likelihood ^ 2 * pairProduct s a =
        ((RemoveNucleon s p).1.heap a).single_likelihood ^ 2 * pairProduct (RemoveNucleon s p).1 a *
          (((s.heap p).pairwise_likelihoods.filter (fun e => e.1 = a)).map Prod.snd).prod := by
      intro a ha
      obtain ⟨hap, ham⟩ := (List.Nodup.mem_erase_iff h1.1).1 ha
      unfold pairProduct
      rw [(e1 a).2, e2 a ham hap, prod_filter_split p (s.heap a).pairwise_likelihoods]
      have := (h3 a ham p hp hap).prod_eq
      unfold valuesFor at this
      rw [this]
      ring
    have hsplit : doubleProduct s = ((s.heap p).single_likelihood * pairProduct s p) ^ 2 *
        doubleProduct (RemoveNucleon s p).1 := by
      unfold doubleProduct
      rw [prod_map_erase _ p hp, List.map_congr_left hg, List.prod_map_mul, hord,
        prod_partition (s.ordered.erase p) (h1.1.erase p) (s.heap p).pairwise_likelihoods
          (fun e he => (List.Nodup.mem_erase_iff h1.1).2
            ⟨((h2 p hp).2 e he).2.1, ((h2 p hp).2 e he).1⟩)]
      unfold pairProduct
      ring
    rw [hlik]
    have hne1 : (s.heap p).single_likelihood ≠ 0 := ne_of_gt hsp
    have hne2 : pairProduct s p ≠ 0 := ne_of_gt hpp
    rw [div_pow, div_pow, h5, hsplit]
    field_simp
    ring

theorem Fresh_RemoveNucleon (L : Likelihoods) (s : NucleonCollection) (p : Nat)
    (hp : p ∈ s.ordered) (hA : Accounted s) (hF : ∀ a ∈ s.ordered, a ≠ p → FreshAt L s p a) :
    Fresh L (RemoveNucleon s p).1 := by
  obtain ⟨h1, _, h3, _, _⟩ := hA
  obtain ⟨e1, e2⟩ := RemoveNucleon_effect s p hp h3
  intro a ha
  rw [ordered_RemoveNucleon] at ha
  obtain ⟨hap, ham⟩ := (List.Nodup.mem_erase_iff h1.1).1 ha
  rw [(e1 a).1, (e1 a).2, e2 a ham hap]
  refine ⟨(hF a ham hap).1, fun e he => ?_⟩
  obtain ⟨he1, he2⟩ := List.mem_filter.1 he
  rw [(e1 e.1).1]
  exact (hF a ham hap).2 e he1 (by simpa using he2)

theorem BinsSound_congr_mem {s t : NucleonCollection} (ho : t.ordered = s.ordered)
    (hc : t.cubes = s.cubes) (hb : ∀ q ∈ s.ordered, (t.heap q).cube = (s.heap q).cube)
    (h : BinsSound s) : BinsSound t := by
  obtain ⟨h1, h2, h3⟩ := h
  have hcube : ∀ b, t.cubeAt b = s.cubeAt b := by
    intro b; unfold NucleonCollection.cubeAt; rw [hc]
  refine ⟨by rw [ho]; exact h1, fun b q hq => ?_, fun q hq => ?_⟩
  · rw [hcube] at hq
    obtain ⟨m1, m2⟩ := h2 b q hq
    rw [ho, hb q m1]
    exact ⟨m1, m2⟩
  · rw [ho] at hq
    rw [hb q hq, hcube]
    exact h3 q hq

theorem Accounted_congr {s t : NucleonCollection} (ho : t.ordered = s.ordered)
    (hc : t.cubes = s.cubes) (hl : t.likelihood = s.likelihood)
    (hq : ∀ q ∈ s.ordered, (t.heap q).cube = (s.heap q).cube ∧
      (t.heap q).single_likelihood = (s.heap q).single_likelihood ∧
      (t.heap q).pairwise_likelihoods = (s.heap q).pairwise_likelihoods)
    (h : Accounted s) : Accounted t := by
  obtain ⟨h1, h2, h3, h4, h5⟩ := h
  refine ⟨BinsSound_congr_mem ho hc (fun q hm => (hq q hm).1) h1, fun a ha => ?_, ?_, ?_, ?_⟩
  · rw [ho] at ha
    rw [(hq a ha).2.1, (hq a ha).2.2, ho]
    exact h2 a ha
  · intro a ha b hb hab
    rw [ho] at ha hb
    unfold valuesFor
    rw [(hq a ha).2.2, (hq b hb).2.2]
    exact h3 a ha b hb hab
  · rw [hl]; exact h4
  · rw [hl, h5]
    unfold doubleProduct pairProduct
    rw [ho]
    exact congrArg List.prod (List.map_congr_left (fun a ha => by
      rw [(hq a ha).2.1, (hq a ha).2.2]))

theorem Fresh_congr (L : Likelihoods) {s t : NucleonCollection} (ho : t.ordered = s.ordered)
    (hq : ∀ q ∈ s.ordered, (t.heap q).toParticle = (s.heap q).toParticle ∧
      (t.heap q).single_likelihood = (s.heap q).single_likelihood ∧
      (t.heap q).pairwise_likelihoods = (s.heap q).pairwise_likelihoods)
    (hA : Accounted s) (h : Fresh L s) : Fresh L t := by
  intro a ha
  rw [ho] at ha
  rw [(hq a ha).1, (hq a ha).2.1, (hq a ha).2.2]
  refine ⟨(h a ha).1, fun e he => ?_⟩
  rw [(hq e.1 ((hA.2.1 a ha).2 e he).1).1]
  exact (h a ha).2 e he

theorem likelihood_record (s : NucleonCollection) (p : Nat) :
    (record s p).likelihood = s.likelihood := by
  unfold record; split <;> rfl

theorem Accounted_store (s : NucleonCollection) (p : Nat) (n : Nucleon) (hp : p ∉ s.ordered)
    (h : Accounted s) : Accounted (s.store p n) :=
  @Accounted_congr s (s.store p n) rfl rfl rfl (fun q hq => by
    rw [store_heap_ne s p q n (fun e => hp (e ▸ hq))]; exact ⟨rfl, rfl, rfl⟩) h

theorem Fresh_store (L : Likelihoods) (s : NucleonCollection) (p : Nat) (n : Nucleon)
    (hp : p ∉ s.ordered) (hA : Accounted s) (h : Fresh L s) : Fresh L (s.store p n) :=
  @Fresh_congr L s (s.store p n) rfl (fun q hq => by
    rw [store_heap_ne s p q n (fun e => hp (e ▸ hq))]; exact ⟨rfl, rfl, rfl⟩) hA h

theorem Accounted_record (s : NucleonCollection) (p : Nat) (h : Accounted s) :
    Accounted (record s p) :=
  Accounted_congr (ordered_eq_of_layout (layout_record s p))
    (cubes_eq_of_layout (layout_record s p)) (likelihood_record s p)
    (fun q _ => by rw [heap_record]; exact ⟨rfl, rfl, rfl⟩) h

theorem Fresh_record (L : Likelihoods) (s : NucleonCollection) (p : Nat) (hA : Accounted s)
    (h : Fresh L s) : Fresh L (record s p) :=
  Fresh_congr L (ordered_eq_of_layout (layout_record s p))
    (fun q _ => by rw [heap_record]; exact ⟨rfl, rfl, rfl⟩) hA h

theorem writePosition_fields (s : NucleonCollection) (p : Nat) (x y z : ℚ) (q : Nat) :
    ((writePosition s p x y z).heap q).cube = (s.heap q).cube ∧
      ((writePosition s p x y z).heap q).single_likelihood = (s.heap q).single_likelihood ∧
      ((writePosition s p x y z).heap q).pairwise_likelihoods = (s.heap q).pairwise_likelihoods := by
  unfold writePosition
  simp only [store_heap]
  split
  · next e => subst e; exact ⟨rfl, rfl, rfl⟩
  · exact ⟨rfl, rfl, rfl⟩

theorem Accounted_writePosition (s : NucleonCollection) (p : Nat) (x y z : ℚ) (h : Accounted s) :
    Accounted (writePosition s p x y z) :=
  Accounted_congr (ordered_eq_of_layout (layout_writePosition s p x y z))
    (cubes_eq_of_layout (layout_writePosition s p x y z)) rfl
    (fun q _ => writePosition_fields s p x y z q) h

theorem FreshAt_writePosition (L : Likelihoods) (s : NucleonCollection) (p : Nat) (x y z : ℚ)
    (h : Fresh L s) (a : Nat) (ha : a ∈ s.ordered) (hap : a ≠ p) :
    FreshAt L (writePosition s p x y z) p a := by
  have hne : ∀ q, q ≠ p → (writePosition s p x y z).heap q = s.heap q := by
    intro q hq; unfold writePosition; rw [store_heap_ne _ _ _ _ hq]
  unfold FreshAt
  rw [hne a hap]
  refine ⟨(h a ha).1, fun e he hep => ?_⟩
  rw [hne e.1 hep]
  exact (h a ha).2 e he

theorem refreshSingle_effect (L : Likelihoods) (s : NucleonCollection) (p : Nat) :
    (refreshSingle L s p).likelihood =
        s.likelihood / (s.heap p).single_likelihood * L.f1 (s.heap p).toParticle ∧
      ((refreshSingle L s p).heap p).single_likelihood = L.f1 (s.heap p).toParticle ∧
      (∀ q, ((refreshSingle L s p).heap q).toParticle = (s.heap q).toParticle ∧
        ((refreshSingle L s p).heap q).cube = (s.heap q).cube ∧
        ((refreshSingle L s p).heap q).pairwise_likelihoods = (s.heap q).pairwise_likelihoods) ∧
      ∀ q, q ≠ p → (refreshSingle L s p).heap q = s.heap q := by
  refine ⟨?_, ?_, fun q => ?_, fun q hq => body_refreshSingle_ne L s p q hq⟩
  · unfold refreshSingle; simp only [store_heap_same]; rfl
  · unfold refreshSingle; simp only [store_heap_same]
  · unfold refreshSingle
    simp only [store_heap]
    split
    · next e => subst e; exact ⟨rfl, rfl, rfl⟩
    · exact ⟨rfl, rfl, rfl⟩

theorem Accounted_refreshSingle (L : Likelihoods) (hf1 : ∀ v, 0 < L.f1 v) (s : NucleonCollection)
    (p : Nat) (hp : p ∈ s.ordered) (hA : Accounted s) : Accounted (refreshSingle L s p) := by
  obtain ⟨h1, h2, h3, h4, h5⟩ := hA
  obtain ⟨e1, e2, e3, e4⟩ := refreshSingle_effect L s p
  have hord : (refreshSingle L s p).ordered = s.ordered :=
    ordered_eq_of_layout (layout_refreshSingle L s p)
  have hsp : 0 < (s.heap p).single_likelihood := (h2 p hp).1
  refine ⟨BinsSound_congr hord (cubes_eq_of_layout (layout_refreshSingle L s p))
    (fun q => (e3 q).2.1) h1, fun a ha => ?_, ?_, ?_, ?_⟩
  · rw [hord] at ha
    rw [(e3 a).2.2, hord]
    refine ⟨?_, (h2 a ha).2⟩
    by_cases hap : a = p
    · subst hap; rw [e2]; exact hf1 _
    · rw [e4 a hap]; exact (h2 a ha).1
  · intro a ha b hb hab
    rw [hord] at ha hb
    unfold valuesFor
    rw [(e3 a).2.2, (e3 b).2.2]
    exact h3 a ha b hb hab
  · rw [e1]; exact mul_pos (div_pos h4 hsp) (hf1 _)
  · have hsplit : doubleProduct s = (s.heap p).single_likelihood ^ 2 * pairProduct s p *
        ((s.ordered.erase p).map
          (fun a => (s.heap a).single_likelihood ^ 2 * pairProduct s a)).prod := by
      unfold doubleProduct
      rw [prod_map_erase _ p hp]
    have hsplit2 : doubleProduct (refreshSingle L s p) =
        L.f1 (s.heap p).toParticle ^ 2 * pairProduct s p *
        ((s.ordered.erase p).map
          (fun a => (s.heap a).single_likelihood ^ 2 * pairProduct s a)).prod := by
      unfold doubleProduct
      rw [hord, prod_map_erase _ p hp, e2]
      unfold pairProduct
      rw [(e3 p).2.2]
      congr 1
      exact congrArg List.prod (List.map_congr_left (fun a ha => by
        rw [e4 a ((List.Nodup.mem_erase_iff h1.1).1 ha).1]))
    rw [e1, hsplit2]
    rw [hsplit] at h5
    have hne : (s.heap p).single_likelihood ≠ 0 := ne_of_gt hsp
    rw [mul_pow, div_pow, h5]
    field_simp
    ring

theorem Fresh_refreshSingle (L : Likelihoods) (s : NucleonCollection) (p : Nat)
    (hp : p ∈ s.ordered) (hA : Accounted s) (hempty : (s.heap p).pairwise_likelihoods = [])
    (hF : ∀ a ∈ s.ordered, a ≠ p → FreshAt L s p a) : Fresh L (refreshSingle L s p) := by
  obtain ⟨_, e2, e3, e4⟩ := refreshSingle_effect L s p
  have hord : (refreshSingle L s p).ordered = s.ordered :=
    ordered_eq_of_layout (layout_refreshSingle L s p)
  intro a ha
  rw [hord] at ha
  by_cases hap : a = p
  · subst hap
    rw [e2, (e3 a).1, (e3 a).2.2, hempty]
    exact ⟨rfl, fun e he => absurd he (List.not_mem_nil e)⟩
  · rw [e4 a hap]
    refine ⟨(hF a ha hap).1, fun e he => ?_⟩
    have hep : e.1 ≠ p := by
      intro hep
      have hperm := hA.2.2.1 a ha p hp hap
      have hnil : valuesFor s p a = [] := by unfold valuesFor; rw [hempty]; rfl
      rw [hnil] at hperm
      have hnil2 := hperm.eq_nil
      unfold valuesFor at hnil2
      have hm : e ∈ (s.heap a).pairwise_likelihoods.filter (fun e => e.1 = p) :=
        List.mem_filter.2 ⟨he, by simpa using hep⟩
      rw [List.map_eq_nil_iff] at hnil2
      rw [hnil2] at hm
      exact absurd hm (List.not_mem_nil e)
    rw [(e3 e.1).1]
    exact (hF a ha hap).2 e he hep

theorem Paired_SetNucleonPosition (L : Likelihoods) (len : ℚ) (hS : Suited L len)
    (s : NucleonCollection) (p : Nat) (x y z : ℚ) (hp : p ∈ s.ordered)
    (hmove : FindCube s x y z ≠ (s.heap p).cube ∨ (s.heap p).pairwise_likelihoods = [])
    (hlen : s.length = len) (hA : Accounted s) (hF : Fresh L s) :
    Accounted (SetNucleonPosition L s p x y z) ∧ Fresh L (SetNucleonPosition L s p x y z) := by
  have hc : ((writePosition (record s p) p x y z).heap p).cube = (s.heap p).cube := by
    rw [(writePosition_fields _ p x y z p).1, heap_record]
  have hFC : FindCube (record s p) x y z = FindCube s x y z := by
    unfold FindCube
    rw [units_eq_of_grid (grid_record s p), cube_length_eq_of_grid (grid_record s p)]
  have hpairs : ((writePosition (record s p) p x y z).heap p).pairwise_likelihoods =
      (s.heap p).pairwise_likelihoods := by
    rw [(writePosition_fields _ p x y z p).2.2, heap_record]
  have hlen2 : (writePosition (record s p) p x y z).length = len := by
    rw [length_eq_of_grid (grid_writePosition _ _ _ _ _), length_record, hlen]
  rw [SetNucleonPosition_eq, hc, hFC]
  have hA1 := Accounted_record s p hA
  have hF1 := Fresh_record L s p hA hF
  have hp1 : p ∈ (record s p).ordered := by
    rw [ordered_eq_of_layout (layout_record s p)]; exact hp
  generalize record s p = s1 at hA1 hF1 hp1 hpairs hlen2 ⊢
  have hA2 := Accounted_writePosition s1 p x y z hA1
  have hwo : (writePosition s1 p x y z).ordered = s1.ordered :=
    ordered_eq_of_layout (layout_writePosition s1 p x y z)
  have hF2 : ∀ a ∈ (writePosition s1 p x y z).ordered, a ≠ p →
      FreshAt L (writePosition s1 p x y z) p a := by
    intro a ha hap
    rw [hwo] at ha
    exact FreshAt_writePosition L s1 p x y z hF1 a ha hap
  have hp2 : p ∈ (writePosition s1 p x y z).ordered := by rw [hwo]; exact hp1
  generalize writePosition s1 p x y z = s2 at hA2 hF2 hp2 hpairs hlen2 ⊢
  by_cases hsame : FindCube s x y z = (s.heap p).cube
  · rw [if_pos hsame]
    have hempty : (s2.heap p).pairwise_likelihoods = [] := by
      rw [hpairs]; exact hmove.resolve_left (fun h => h hsame)
    rw [sameBin_noPair L s2 p hempty]
    exact ⟨Accounted_refreshSingle L hS.1 s2 p hp2 hA2, Fresh_refreshSingle L s2 p hp2 hA2 hempty hF2⟩
  · rw [if_neg hsame]
    have hA3 := Accounted_RemoveNucleon s2 p hp2 hA2
    have hF3 := Fresh_RemoveNucleon L s2 p hp2 hA2 hF2
    have hnm : p ∉ (RemoveNucleon s2 p).1.ordered := by
      rw [ordered_RemoveNucleon]
      exact fun hm => ((List.Nodup.mem_erase_iff hA2.1.1).1 hm).1 rfl
    have hpos : (RemoveNucleon s2 p).2 ≤ (RemoveNucleon s2 p).1.ordered.length := by
      rw [(RemoveNucleon_of_mem _ p hp2).2.1, ordered_RemoveNucleon,
        List.length_erase_of_mem hp2]
      have := List.indexOf_lt_length.2 hp2
      omega
    have hlen3 : (RemoveNucleon s2 p).1.length = len := by
      rw [length_eq_of_grid (grid_RemoveNucleon _ _), hlen2]
    exact ⟨Accounted_InsertExistingNucleon L len hS _ p _ hnm hpos hA3,
      Fresh_InsertExistingNucleon L len hS _ p _ hnm hpos hlen3 hA3 hF3⟩

theorem Accounted_construct (pairwise_max : ℚ) (units : Nat) (length : ℚ)
    (heap : Nat → Nucleon) : Accounted (construct pairwise_max units length heap) := by
  refine ⟨(BinConsistent_construct pairwise_max units length heap).1,
    fun a ha => absurd ha (List.not_mem_nil a), fun a ha => absurd ha (List.not_mem_nil a), ?_, ?_⟩
  · exact one_pos
  · rfl

theorem ReachablePaired_inv (L : Likelihoods) (len : ℚ) (hS : Suited L len)
    (s : NucleonCollection) (h : ReachablePaired L len s) :
    s.length = len ∧ Accounted s ∧ Fresh L s := by
  induction h with
  | init pm u heap _ _ =>
    exact ⟨rfl, Accounted_construct pm u len heap, fun a ha => absurd ha (List.not_mem_nil a)⟩
  | add s p v _ hp ih =>
    obtain ⟨i1, i2, i3⟩ := ih
    have hA := Accounted_store s p (newNucleon v) hp i2
    have hF := Fresh_store L s p (newNucleon v) hp i2 i3
    exact ⟨by rw [← i1]; exact length_eq_of_grid (grid_InsertExistingNucleon L _ p _),
      Accounted_InsertExistingNucleon L len hS _ p _ hp (le_refl _) hA,
      Fresh_InsertExistingNucleon L len hS _ p _ hp (le_refl _) i1 hA hF⟩
  | insert s p pos _ hp hpos ih =>
    obtain ⟨i1, i2, i3⟩ := ih
    exact ⟨by rw [← i1]; exact length_eq_of_grid (grid_InsertExistingNucleon L _ p _),
      Accounted_InsertExistingNucleon L len hS s p pos hp hpos i2,
      Fresh_InsertExistingNucleon L len hS s p pos hp hpos i1 i2 i3⟩
  | remove s p _ hp ih =>
    obtain ⟨i1, i2, i3⟩ := ih
    refine ⟨by rw [← i1]; exact length_eq_of_grid (grid_RemoveNucleon s p),
      Accounted_RemoveNucleon s p hp i2, Fresh_RemoveNucleon L s p hp i2 (fun a ha _ => ?_)⟩
    exact ⟨(i3 a ha).1, fun e he _ => (i3 a ha).2 e he⟩
  | move s p x y z _ hp hmove ih =>
    obtain ⟨i1, i2, i3⟩ := ih
    obtain ⟨r1, r2⟩ := Paired_SetNucleonPosition L len hS s p x y z hp hmove i1 i2 i3
    exact ⟨by rw [← i1]; exact length_eq_of_grid (grid_SetNucleonPosition L s p x y z), r1, r2⟩

theorem SamePeers_refl (s : NucleonCollection) : SamePeers s s := fun _ => ⟨rfl, rfl⟩

theorem SamePeers_trans {s t u : NucleonCollection} (h1 : SamePeers s t) (h2 : SamePeers t u) :
    SamePeers s u := fun q => ⟨(h2 q).1.trans (h1 q).1, (h2 q).2.trans (h1 q).2⟩

theorem map_fst_set (l : List (Nat × ℚ)) (t : Nat) (e : Nat × ℚ) (v : ℚ)
    (h : l.get? t = some e) : (l.set t (e.1, v)).map Prod.fst = l.map Prod.fst := by
  induction l generalizing t with
  | nil => rfl
  | cons a l ih =>
    cases t with
    | zero =>
      have : a = e := by simpa using h
      subst this
      rfl
    | succ t =>
      have h' : l.get? t = some e := by simpa using h
      rw [List.set_cons_succ, List.map_cons, List.map_cons, ih t h']

/-- One turn of the inner loop of `UpdateLikelihood`. -/
theorem updatePair_effect (L : Likelihoods) (p : Nat) (s : NucleonCollection) (t : Nat)
    (m : Nat) (hm : ((s.heap p).pairwise_likelihoods.map Prod.fst).get? t = some m) :
    (updatePair L p s t).likelihood =
        s.likelihood * L.f2 (s.heap p).toParticle (s.heap m).toParticle ∧
      SamePeers s (updatePair L p s t) := by
  rw [List.get?_eq_getElem?, List.getElem?_map, ← List.get?_eq_getElem?] at hm
  unfold updatePair
  cases he : (s.heap p).pairwise_likelihoods.get? t with
  | none => rw [he] at hm; simp at hm
  | some e =>
    rw [he] at hm
    have hem : e.1 = m := by simpa using hm
    subst hem
    refine ⟨rfl, fun q => ?_⟩
    simp only [store_heap]
    split
    · next h => subst h; exact ⟨rfl, map_fst_set _ t e _ he⟩
    · exact ⟨rfl, rfl⟩

/-- The inner loop of `UpdateLikelihood` over the first `n` entries. -/
theorem updateLoop_effect (L : Likelihoods) (p : Nat) (s : NucleonCollection) :
    ∀ n, n ≤ (s.heap p).pairwise_likelihoods.length →
      ((List.range n).foldl (updatePair L p) s).likelihood = s.likelihood *
          ((((s.heap p).pairwise_likelihoods.map Prod.fst).take n).map
            (fun m => L.f2 (s.heap p).toParticle (s.heap m).toParticle)).prod ∧
        SamePeers s ((List.range n).foldl (updatePair L p) s) := by
  intro n
  induction n with
  | zero => intro _; exact ⟨by simp, SamePeers_refl s⟩
  | succ n ih =>
    intro hn
    obtain ⟨i1, i2⟩ := ih (by omega)
    have hlen : n < ((s.heap p).pairwise_likelihoods.map Prod.fst).length := by
      rw [List.length_map]; omega
    have hget : ((s.heap p).pairwise_likelihoods.map Prod.fst)[n]? =
        some (((s.heap p).pairwise_likelihoods.map Prod.fst)[n]) := List.getElem?_eq_getElem hlen
    have hm : (((((List.range n).foldl (updatePair L p) s).heap p).pairwise_likelihoods.map
        Prod.fst).get? n) = some (((s.heap p).pairwise_likelihoods.map Prod.fst)[n]) := by
      rw [(i2 p).2, List.get?_eq_getElem?, hget]
    obtain ⟨u1, u2⟩ := updatePair_effect L p _ n _ hm
    rw [List.range_succ, List.foldl_append, List.foldl_cons, List.foldl_nil]
    refine ⟨?_, SamePeers_trans i2 u2⟩
    rw [u1, i1, (i2 p).1, (i2 _).1, List.take_succ, hget]
    simp only [Option.toList, List.map_append, List.prod_append, List.map_cons, List.map_nil,
      List.prod_cons, List.prod_nil, mul_one, mul_assoc]

/-- One turn of the outer loop of `UpdateLikelihood`. -/
theorem updateNucleon_effect (L : Likelihoods) (s : NucleonCollection) (p : Nat) :
    (updateNucleon L s p).likelihood = s.likelihood * (L.f1 (s.heap p).toParticle ^ 2 *
        ((s.heap p).pairwise_likelihoods.map
          (fun e => L.f2 (s.heap p).toParticle (s.heap e.1).toParticle)).prod) ∧
      SamePeers s (updateNucleon L s p) := by
  have h0 : SamePeers s (s.store p { s.heap p with
      single_likelihood := L.f1 (s.heap p).toParticle }) := by
    intro q
    simp only [store_heap]
    split
    · next h => subst h; exact ⟨rfl, rfl⟩
    · exact ⟨rfl, rfl⟩
  have hl := updateLoop_effect L p
    { s.store p { s.heap p with single_likelihood := L.f1 (s.heap p).toParticle } with
      likelihood := s.likelihood * L.f1 (s.heap p).toParticle ^ 2 }
    (s.heap p).pairwise_likelihoods.length (by
      show _ ≤ ((s.store p _).heap p).pairwise_likelihoods.length
      rw [store_heap_same])
  obtain ⟨l1, l2⟩ := hl
  have hu : updateNucleon L s p = (List.range (s.heap p).pairwise_likelihoods.length).foldl
      (updatePair L p)
      { s.store p { s.heap p with single_likelihood := L.f1 (s.heap p).toParticle } with
        likelihood := s.likelihood * L.f1 (s.heap p).toParticle ^ 2 } := by
    unfold updateNucleon
    simp only [store_heap_same, store_likelihood]
  rw [hu]
  refine ⟨?_, fun q => ⟨(l2 q).1.trans (h0 q).1, (l2 q).2.trans (h0 q).2⟩⟩
  rw [l1]
  show s.likelihood * L.f1 (s.heap p).toParticle ^ 2 * _ = _
  have hp : ∀ q, ({ s.store p { s.heap p with
      single_likelihood := L.f1 (s.heap p).toParticle } with
      likelihood := s.likelihood * L.f1 (s.heap p).toParticle ^ 2 } : NucleonCollection).heap q
      = (s.store p { s.heap p with single_likelihood := L.f1 (s.heap p).toParticle }).heap q :=
    fun _ => rfl
  simp only [hp, (h0 _).1, (h0 p).2]
  rw [List.take_of_length_le (by rw [List.length_map]), List.map_map, mul_assoc]
  rfl

theorem updateFold_effect (L : Likelihoods) (s : NucleonCollection) :
    ∀ (l : List Nat) (u : NucleonCollection), SamePeers s u →
      (l.foldl (updateNucleon L) u).likelihood = u.likelihood *
        (l.map (fun a => L.f1 (s.heap a).toParticle ^ 2 *
          ((s.heap a).pairwise_likelihoods.map
            (fun e => L.f2 (s.heap a).toParticle (s.heap e.1).toParticle)).prod)).prod := by
  intro l
  induction l with
  | nil => intro u _; simp
  | cons a l ih =>
    intro u hu
    obtain ⟨e1, e2⟩ := updateNucleon_effect L u a
    rw [List.foldl_cons, ih _ (SamePeers_trans hu e2), e1, List.map_cons, List.prod_cons, (hu a).1]
    have hmap : (u.heap a).pairwise_likelihoods.map
          (fun e => L.f2 (s.heap a).toParticle (u.heap e.1).toParticle) =
        (s.heap a).pairwise_likelihoods.map
          (fun e => L.f2 (s.heap a).toParticle (s.heap e.1).toParticle) := by
      have h1 : (u.heap a).pairwise_likelihoods.map
            (fun e => L.f2 (s.heap a).toParticle (u.heap e.1).toParticle) =
          ((u.heap a).pairwise_likelihoods.map Prod.fst).map
            (fun m => L.f2 (s.heap a).toParticle (s.heap m).toParticle) := by
        rw [List.map_map]
        exact List.map_congr_left (fun e _ => by simp only [Function.comp, (hu e.1).1])
      rw [h1, (hu a).2, List.map_map]
      rfl
    rw [hmap]
    ring

/-- The product `UpdateLikelihood` holds before it takes the square root. -/
theorem UpdateLikelihoodProduct_eq (L : Likelihoods) (s : NucleonCollection) :
    (UpdateLikelihoodProduct L s).likelihood = rebuildProduct L s := by
  unfold UpdateLikelihoodProduct rebuildProduct
  have h := updateFold_effect L s s.ordered { s with likelihood := 1 } (fun _ => ⟨rfl, rfl⟩)
  rw [h]
  show (1 : ℚ) * _ = _
  rw [one_mul]

theorem rebuildProduct_of_fresh (L : Likelihoods) (s : NucleonCollection) (h : Fresh L s) :
    rebuildProduct L s = doubleProduct s := by
  unfold rebuildProduct doubleProduct pairProduct
  refine congrArg List.prod (List.map_congr_left (fun a ha => ?_))
  rw [← (h a ha).1]
  congr 2
  exact List.map_congr_left (fun e he => ((h a ha).2 e he).symm)

theorem nearest_neg (y : ℚ) :
    min (Int.fract (-y)) (1 - Int.fract (-y)) = min (Int.fract y) (1 - Int.fract y) := by
  by_cases h : Int.fract y = 0
  · rw [Int.fract_neg_eq_zero.2 h, h]
  · rw [Int.fract_neg h, sub_sub_cancel, min_comm]

theorem nearest_abs (y : ℚ) :
    min (Int.fract |y|) (1 - Int.fract |y|) = min (Int.fract y) (1 - Int.fract y) := by
  rcases abs_choice y with h | h
  · rw [h]
  · rw [h, nearest_neg]

theorem nearest_add_int (y : ℚ) (k : Int) :
    min (Int.fract (y + k)) (1 - Int.fract (y + k)) = min (Int.fract y) (1 - Int.fract y) := by
  rw [Int.fract_add_int]

theorem minImage_one (d : ℚ) :
    minImage 1 d = 2 * min (Int.fract (d / 2)) (1 - Int.fract (d / 2)) := by
  have h : minImage 1 d = 2 * min (Int.fract |d / 2|) (1 - Int.fract |d / 2|) := by
    unfold minImage
    have e : |d| / (2 * 1) = |d / 2| := by rw [abs_div, mul_one, abs_two]
    simp only [e]
    have r : |d| - 2 * 1 * (⌊|d / 2|⌋ : ℚ) = 2 * Int.fract |d / 2| := by
      unfold Int.fract
      rw [abs_div, abs_two]
      ring
    rw [r, mul_min_of_nonneg _ _ (by norm_num : (0 : ℚ) ≤ 2)]
    congr 1
    ring
  rw [h, nearest_abs]

theorem minImage_one_nonneg (d : ℚ) : 0 ≤ minImage 1 d := by
  rw [minImage_one]
  have h0 := Int.fract_nonneg (d / 2)
  have h1 := Int.fract_lt_one (d / 2)
  have : 0 ≤ min (Int.fract (d / 2)) (1 - Int.fract (d / 2)) := le_min h0 (by linarith)
  linarith

theorem minImage_one_neg (d : ℚ) : minImage 1 (-d) = minImage 1 d := by
  rw [minImage_one, minImage_one, neg_div, nearest_neg]

theorem minImage_one_shift (d : ℚ) (k : Int) : minImage 1 (d - k * (2 * 1)) = minImage 1 d := by
  rw [minImage_one, minImage_one]
  have e : (d - k * (2 * 1)) / 2 = d / 2 + ((-k : Int) : ℚ) := by push_cast; ring
  rw [e, nearest_add_int]

theorem Suited_scenario : Suited scenarioLikelihoods 1 := by
  refine ⟨fun _ => one_pos, fun a b => ?_, fun a b => ?_, fun a b i j k => ?_⟩
  · show 0 < 1 + (1 / 10 : ℚ) * (minImage 1 (a.x - b.x) + minImage 1 (a.y - b.y)
      + minImage 1 (a.z - b.z))
    have h1 := minImage_one_nonneg (a.x - b.x)
    have h2 := minImage_one_nonneg (a.y - b.y)
    have h3 := minImage_one_nonneg (a.z - b.z)
    linarith
  · show 1 + (1 / 10 : ℚ) * (minImage 1 (a.x - b.x) + minImage 1 (a.y - b.y)
      + minImage 1 (a.z - b.z)) = 1 + (1 / 10 : ℚ) * (minImage 1 (b.x - a.x)
      + minImage 1 (b.y - a.y) + minImage 1 (b.z - a.z))
    rw [← minImage_one_neg (a.x - b.x), ← minImage_one_neg (a.y - b.y),
      ← minImage_one_neg (a.z - b.z), neg_sub, neg_sub, neg_sub]
  · show 1 + (1 / 10 : ℚ) * (minImage 1 (a.x - (b.x + i * (2 * 1)))
      + minImage 1 (a.y - (b.y + j * (2 * 1))) + minImage 1 (a.z - (b.z + k * (2 * 1)))) =
      1 + (1 / 10 : ℚ) * (minImage 1 (a.x - b.x) + minImage 1 (a.y - b.y)
      + minImage 1 (a.z - b.z))
    rw [← sub_sub, ← sub_sub, ← sub_sub, minImage_one_shift, minImage_one_shift,
      minImage_one_shift]

/-- The rebuild agrees with the incremental likelihood on the runs that avoid
the same-bin move of a paired nucleon: let `f1` and `f2` be positive, `f2`
symmetric and unchanged when an argument is moved by whole periods `2L`.  After any sequence of `AddNucleon`
and `InsertExistingNucleon` (of non-members), `RemoveNucleon` (of members) and
`SetNucleonPosition` (of members, changing the bin, or within the bin for a
nucleon with an empty pair list) from a constructed collection, the
incremental likelihood is positive, the product `UpdateLikelihood` accumulates
is its square, and the square root `UpdateLikelihood` returns is the
incremental likelihood (exact real arithmetic). -/
theorem rebuild_agrees (L : Likelihoods) (len : ℚ) (hS : Suited L len) (s : NucleonCollection)
    (h : ReachablePaired L len s) :
    0 < s.likelihood ∧ (UpdateLikelihoodProduct L s).likelihood = s.likelihood ^ 2 ∧
      Real.sqrt (((UpdateLikelihoodProduct L s).likelihood : ℚ) : ℝ) = ((s.likelihood : ℚ) : ℝ) := by
  obtain ⟨_, ⟨_, _, _, h4, h5⟩, hF⟩ := ReachablePaired_inv L len hS s h
  have hprod : (UpdateLikelihoodProduct L s).likelihood = s.likelihood ^ 2 := by
    rw [UpdateLikelihoodProduct_eq, rebuildProduct_of_fresh L s hF, h5]
  refine ⟨h4, hprod, ?_⟩
  rw [hprod]
  push_cast
  exact Real.sqrt_sq (by exact_mod_cast le_of_lt h4)

/-- An instance of `rebuild_agrees`: the run `scenarioFine` (two inserts and a
move across bins with the callbacks of the scenarios): the likelihood is 1.03 and `UpdateLikelihood`
accumulates its square. -/
theorem rebuild_agrees_witness :
    (0 < scenarioFine.likelihood ∧
      (UpdateLikelihoodProduct scenarioLikelihoods scenarioFine).likelihood
        = scenarioFine.likelihood ^ 2 ∧
      Real.sqrt (((UpdateLikelihoodProduct scenarioLikelihoods scenarioFine).likelihood : ℚ) : ℝ)
        = ((scenarioFine.likelihood : ℚ) : ℝ)) ∧
      scenarioFine.likelihood = 103 / 100 :=
  ⟨rebuild_agrees scenarioLikelihoods 1 Suited_scenario scenarioFine
    (ReachablePaired.move _ 2 (-2 / 10) 0 0
      (ReachablePaired.add _ 2 (particleAt (4 / 10) 0 0)
        (ReachablePaired.add _ 1 (particleAt (1 / 10) 0 0)
          (ReachablePaired.init (1 / 3) 3 emptyHeap (by decide) (by decide!)) (by decide!))
        (by decide!))
      (by decide!) (Or.inl (by decide!))), by decide!⟩

/-- C4 (failing input): scenario S5 with the callbacks of the scenarios: after the
same-bin move of n2 the incremental likelihood is 1.04, but the entry for n2
on n1 was erased, so `UpdateLikelihood` accumulates 1.04 once and returns its
square root, which is below 1.02.  A second input, with `f1 = 1` and
`f2 = 1 + 0.1 * |a.x - b.x|` in the grid `U = 3`, `L = 3`, `P = 1`: n1 at
`x = -2.9` and n2 at `x = 2.9` are paired through the boundary with n2 moved to
`x = -3.1`, so the incremental likelihood is 1.02, while `UpdateLikelihood`
calls `f2` at the stored coordinates, accumulates `1.58 * 1.58` and returns
1.58. -/
theorem rebuild_differs :
    (scenarioS5.likelihood = 104 / 100 ∧
      (UpdateLikelihoodProduct scenarioLikelihoods scenarioS5).likelihood = 104 / 100 ∧
      Real.sqrt (((UpdateLikelihoodProduct scenarioLikelihoods scenarioS5).likelihood : ℚ) : ℝ)
        ≤ 102 / 100 ∧
      ¬ |((scenarioS5.likelihood : ℚ) : ℝ) -
          Real.sqrt (((UpdateLikelihoodProduct scenarioLikelihoods scenarioS5).likelihood : ℚ) : ℝ)|
        ≤ 1 / 1000000000 * |((scenarioS5.likelihood : ℚ) : ℝ)|) ∧
    (scenarioBoundary.likelihood = 102 / 100 ∧
      (UpdateLikelihoodProduct plainLikelihoods scenarioBoundary).likelihood = (158 / 100) ^ 2 ∧
      Real.sqrt (((UpdateLikelihoodProduct plainLikelihoods scenarioBoundary).likelihood : ℚ) : ℝ)
        = 158 / 100 ∧
      ¬ |((scenarioBoundary.likelihood : ℚ) : ℝ) -
          Real.sqrt (((UpdateLikelihoodProduct plainLikelihoods scenarioBoundary).likelihood : ℚ) : ℝ)|
        ≤ 1 / 1000000000 * |((scenarioBoundary.likelihood : ℚ) : ℝ)|) := by
  have a1 : scenarioS5.likelihood = 104 / 100 := by decide!
  have a2 : (UpdateLikelihoodProduct scenarioLikelihoods scenarioS5).likelihood = 104 / 100 := by
    decide!
  have a3 : Real.sqrt (((UpdateLikelihoodProduct scenarioLikelihoods scenarioS5).likelihood
      : ℚ) : ℝ) ≤ 102 / 100 := by
    rw [a2]
    push_cast
    rw [Real.sqrt_le_left (by norm_num)]
    norm_num
  have h1 : scenarioBoundary.likelihood = 102 / 100 := by decide!
  have h2 : (UpdateLikelihoodProduct plainLikelihoods scenarioBoundary).likelihood
      = (158 / 100) ^ 2 := by decide!
  have h3 : Real.sqrt (((UpdateLikelihoodProduct plainLikelihoods scenarioBoundary).likelihood
      : ℚ) : ℝ) = 158 / 100 := by
    rw [h2]
    push_cast
    exact Real.sqrt_sq (by norm_num)
  refine ⟨⟨a1, a2, a3, ?_⟩, h1, h2, h3, ?_⟩
  · rw [a1]
    push_cast
    intro h
    have hpos : (0 : ℝ) ≤ 104 / 100 - Real.sqrt (((UpdateLikelihoodProduct scenarioLikelihoods
        scenarioS5).likelihood : ℚ) : ℝ) := by linarith
    rw [abs_of_nonneg hpos, abs_of_pos (by norm_num)] at h
    linarith
  · rw [h3, h1]
    push_cast
    rw [abs_of_neg (by norm_num), abs_of_pos (by norm_num)]
    norm_num

end Gespin
